import Mathlib

/-!
winasync: a verification development

Shallow embedding of parts of `guidoreina/winasync` and theorems about them.

* `Address`       : `src/net/socket/address.cpp`
* `Proxy`         : `src/net/tcp/proxy.cpp`
* `Receiver`      : `src/net/tcp/receiver.cpp`
* `Socket`        : `src/net/async/stream/socket.cpp`
* `ThreadPool`    : `src/net/async/thread_pool.cpp`
* `TestConnector` : `src/test-connector.cpp`

Conventions.  A C string is the list of its characters before the terminating
NUL; a `char` array (such as `sun_path`) is a list of characters that may
contain NUL.  Unsigned machine integers are natural numbers, reduced modulo
`2 ^ w` wherever the source arithmetic can wrap.
-/

set_option autoImplicit false

/-! ## Definitions -/

namespace Libc

/-- Text written by the conversions `%u` and `%zu` of `snprintf`. -/
def utoa (n : Nat) : List Char := Nat.toDigits 10 n

end Libc

namespace Socket

/-- Enumeration `async::stream::socket::operation`. -/
inductive operation where
  | accept
  | connect
  | receive
  | send
  | disconnect
  deriving DecidableEq, Repr

end Socket

namespace Address

open Libc

/-- The terminating character of a C string. -/
def NUL : Char := Char.ofNat 0

/-- Constant `UNIX_PATH_MAX` of `address.hpp`. -/
def UNIX_PATH_MAX : Nat := 108

/-- Services of the platform's socket library used by `address.cpp`.  They are
not part of the repository, so they are parameters of the embedding.
`inet_pton4 s = some a` stands for `inet_pton(AF_INET, s, &a) == 1`, and
likewise for `inet_pton6`; `inet_ntop4 a size = some t` stands for
`inet_ntop(AF_INET, &a, dst, size)` returning `dst` with the C string `t`
stored there, `none` for a null result. -/
structure Platform where
  inet_pton4 : List Char → Option Nat
  inet_pton6 : List Char → Option Nat
  inet_ntop4 : Nat → Nat → Option (List Char)
  inet_ntop6 : Nat → Nat → Option (List Char)
  /-- Constant `INET6_ADDRSTRLEN` (46 on POSIX systems, 65 on Windows). -/
  INET6_ADDRSTRLEN : Nat
  /-- Value of `offsetof(struct sockaddr_un, sun_path)`. -/
  sun_path_offset : Nat
  /-- Value of `sizeof(struct sockaddr_in)`. -/
  sizeof_sockaddr_in : Nat
  /-- Value of `sizeof(struct sockaddr_in6)`. -/
  sizeof_sockaddr_in6 : Nat

/-- Address families stored in `ss_family`. -/
inductive Family where
  | AF_INET
  | AF_INET6
  | AF_UNIX
  deriving DecidableEq, Repr

/-- The value held by `net::socket::address`, that is `_M_addr` read through
its family together with `_M_length`.  Ports are kept in host order
(`sin_port = htons(port)`).  For `unix` the list holds the first
`_M_length - offsetof(sun_path)` characters of `sun_path`. -/
inductive Addr where
  | inet (sin_addr : Nat) (port : Nat)
  | inet6 (sin6_addr : Nat) (port : Nat) (flowinfo : Nat) (scope_id : Nat)
  | unix (sun_path : List Char)
  deriving DecidableEq, Repr

/-- Member `address::family()`. -/
def family : Addr → Family
  | .inet _ _ => .AF_INET
  | .inet6 _ _ _ _ => .AF_INET6
  | .unix _ => .AF_UNIX

/-- Member `address::length()`, the value of `_M_length`. -/
def length (P : Platform) : Addr → Nat
  | .inet _ _ => P.sizeof_sockaddr_in
  | .inet6 _ _ _ _ => P.sizeof_sockaddr_in6
  | .unix p => P.sun_path_offset + p.length

/-- Test `(*s >= '0') && (*s <= '9')` of `parse_port`. -/
def is_digit (c : Char) : Bool := decide (48 ≤ c.toNat) && decide (c.toNat ≤ 57)

/-- The loop of `address::parse_port`, started with accumulator `n`.  The
assignment `n = (n * 10) + (*s - '0')` is carried out on `unsigned`, hence
modulo `2 ^ 32`.  `none` is the early `return false`. -/
def parse_port_loop : List Char → Nat → Option Nat
  | [], n => some n
  | c :: s, n =>
    if is_digit c then
      let n1 := (n * 10 + (c.toNat - 48)) % 2 ^ 32
      if n1 ≤ 65535 then parse_port_loop s n1 else none
    else none

/-- The mathematical values `n * 10 + (*s - '0')` computed by the iterations
that `parse_port_loop` executes, before any reduction modulo `2 ^ 32`. -/
def parse_port_accs : List Char → Nat → List Nat
  | [], _ => []
  | c :: s, n =>
    if is_digit c then
      let raw := n * 10 + (c.toNat - 48)
      let n1 := raw % 2 ^ 32
      if n1 ≤ 65535 then raw :: parse_port_accs s n1 else [raw]
    else []

/-- Function `address::parse_port(const char* s, in_port_t& port)`.  The second
argument is the value of `port` on entry; the result is the returned flag and
the value of `port` on exit. -/
def parse_port (s : List Char) (port : Nat) : Bool × Nat :=
  match parse_port_loop s 0 with
  | some n => if n > 0 then (true, n % 65536) else (false, port)
  | none => (false, port)

/-- Library function `strrchr(s, c)`: position of the last occurrence of `c`. -/
def strrchr : List Char → Char → Option Nat
  | [], _ => none
  | x :: s, c =>
    match strrchr s c with
    | some i => some (i + 1)
    | none => if x = c then some 0 else none

/-- Function `address::extract_ip_port(address, ip, port)`.  The result is
`some (ip, port)` when the function returns `true`. -/
def extract_ip_port (P : Platform) (address : List Char) (port : Nat) :
    Option (List Char × Nat) :=
  match strrchr address ':' with
  | none => none
  | some last_colon =>
    let len := last_colon
    if len > 0 then
      let bracket := decide (address.head? = some '[')
      if bracket && !(decide (len > 2) && decide (address.get? (last_colon - 1) = some ']')) then
        none
      else
        let start := if bracket then 1 else 0
        let len1 := if bracket then len - 2 else len
        if len1 < P.INET6_ADDRSTRLEN then
          match parse_port (address.drop (last_colon + 1)) port with
          | (true, p) => some ((address.drop start).take len1, p)
          | (false, _) => none
        else none
    else none

/-- Function `address::build(const char* address, in_port_t port)`. -/
def build_port (P : Platform) (address : List Char) (port : Nat) : Option Addr :=
  match P.inet_pton4 address with
  | some a => some (.inet a port)
  | none =>
    match P.inet_pton6 address with
    | some a => some (.inet6 a port 0 0)
    | none => none

/-- Function `address::build(const char* address)`; `none` is `false`. -/
def build (P : Platform) (address : List Char) : Option Addr :=
  match extract_ip_port P address 0 with
  | some (ip, port) => build_port P ip port
  | none =>
    let len := address.length + 1
    if len ≤ UNIX_PATH_MAX then some (.unix (address ++ [NUL])) else none

/-- Function `address::build_abstract(address, len)`, the argument list being
the `len` bytes at `address`. -/
def build_abstract (address : List Char) : Option Addr :=
  if address.length ≤ UNIX_PATH_MAX then some (.unix address) else none

/-- Outcome of `address::to_string(dst, size)`. -/
inductive Rendered where
  /-- The function returned `nullptr`. -/
  | null
  /-- The function returned `dst`, having stored these characters at `dst[0..]`. -/
  | written (dst : List Char)
  /-- The stored path is empty, so that the test `sin->sun_path[0]` reads a
  character that is not part of the address. -/
  | indeterminate
  deriving DecidableEq, Repr

/-- Function `address::to_string(char* dst, size_t size)`. -/
def to_string (P : Platform) (a : Addr) (size : Nat) : Rendered :=
  match a with
  | .inet sin_addr port =>
    match P.inet_ntop4 sin_addr size with
    | some ip =>
      let len := ip.length
      let left := size - len
      let tail := ':' :: utoa (port % 65536)
      if tail.length < left then .written (ip ++ tail ++ [NUL]) else .null
    | none => .null
  | .inet6 sin6_addr port _ _ =>
    if size > 2 then
      match P.inet_ntop6 sin6_addr (size - 1) with
      | some ip =>
        let len := 1 + ip.length
        let left := size - len
        let tail := ']' :: ':' :: utoa (port % 65536)
        if tail.length < left then .written ('[' :: ip ++ tail ++ [NUL]) else .null
      | none => .null
    else .null
  | .unix sun_path =>
    match sun_path with
    | [] => .indeterminate
    | c :: rest =>
      let pathlen := sun_path.length
      if c ≠ NUL then
        if pathlen ≤ size then .written sun_path else .null
      else
        if pathlen < size then .written ('@' :: rest ++ [NUL]) else .null

/-- The C string found in a character array: the characters before the first
NUL, provided the array holds one. -/
def c_str : List Char → Option (List Char)
  | [] => none
  | c :: s => if c = NUL then some [] else (c_str s).map (fun t => c :: t)

/-- Value of a string of at most three decimal digits, `none` otherwise: one
component of a dotted quad. -/
def sample_octet (s : List Char) : Option Nat :=
  if s ≠ [] ∧ s.length ≤ 3 ∧ s.all is_digit ∧ s.foldl (fun n c => n * 10 + (c.toNat - 48)) 0 ≤ 255
  then some (s.foldl (fun n c => n * 10 + (c.toNat - 48)) 0) else none

/-- Dotted-quad parser of the sample platform. -/
def sample_pton4 (s : List Char) : Option Nat :=
  match (s.splitOn '.').map sample_octet with
  | [some a, some b, some c, some d] => some (((a * 256 + b) * 256 + c) * 256 + d)
  | _ => none

/-- Dotted-quad printer of the sample platform. -/
def sample_ntop4 (a size : Nat) : Option (List Char) :=
  let t := utoa (a / 2 ^ 24 % 256) ++ '.' :: utoa (a / 2 ^ 16 % 256) ++
    '.' :: utoa (a / 2 ^ 8 % 256) ++ '.' :: utoa (a % 256)
  if t.length < size then some t else none

/-- A concrete platform on which the definitions can be evaluated: a POSIX
layout with dotted-quad IPv4 text and no IPv6 support. -/
def sample_platform : Platform where
  inet_pton4 := sample_pton4
  inet_pton6 := fun _ => none
  inet_ntop4 := sample_ntop4
  inet_ntop6 := fun _ _ => none
  INET6_ADDRSTRLEN := 46
  sun_path_offset := 2
  sizeof_sockaddr_in := 16
  sizeof_sockaddr_in6 := 28

/-- The endpoints for which rendering followed by parsing is the identity:
IPv4 and IPv6 addresses with a port in 1..65535 (IPv6 with zero flow
information and scope), for which the platform text `ip` is well formed and is
read back by `inet_pton`, and non-abstract local-domain addresses holding a
non-empty NUL-terminated path of at most 107 characters that
`extract_ip_port` does not split. -/
def round_trips (P : Platform) (size : Nat) : Addr → Prop
  | .inet a port =>
    1 ≤ port ∧ port ≤ 65535 ∧ ∀ ip, P.inet_ntop4 a size = some ip →
      ip ≠ [] ∧ ip.head? ≠ some '[' ∧ NUL ∉ ip ∧
      ip.length < P.INET6_ADDRSTRLEN ∧ P.inet_pton4 ip = some a
  | .inet6 a port flowinfo scope_id =>
    1 ≤ port ∧ port ≤ 65535 ∧ flowinfo = 0 ∧ scope_id = 0 ∧
    ∀ ip, P.inet_ntop6 a (size - 1) = some ip →
      ip ≠ [] ∧ NUL ∉ ip ∧ ip.length < P.INET6_ADDRSTRLEN ∧
      P.inet_pton4 ip = none ∧ P.inet_pton6 ip = some a
  | .unix sun_path =>
    ∃ path, sun_path = path ++ [NUL] ∧ path ≠ [] ∧ NUL ∉ path ∧ path.length ≤ 107 ∧
      extract_ip_port P path 0 = none

/-- The form `<valid IPv4 dotted quad>:<port>`: a text accepted by
`inet_pton(AF_INET)`, a colon, and a port accepted by `parse_port`. -/
def is_ipv4_endpoint (P : Platform) (s : List Char) : Prop :=
  ∃ ip ps, s = ip ++ ':' :: ps ∧ (P.inet_pton4 ip).isSome = true ∧
    (parse_port ps 0).1 = true

/-- The form `[<valid IPv6 text>]:<port>`: a bracketed text accepted by
`inet_pton(AF_INET6)`, a colon, and a port accepted by `parse_port`. -/
def is_ipv6_endpoint (P : Platform) (s : List Char) : Prop :=
  ∃ ip ps, s = '[' :: (ip ++ ']' :: ':' :: ps) ∧ (P.inet_pton6 ip).isSome = true ∧
    (parse_port ps 0).1 = true

/-- The numeric value of a string read as a decimal numeral, continuing from
`n`: the specification-side counterpart of the loop of `parse_port`, without
any bound or wrap-around. -/
def decimal_value_from (n : Nat) (s : List Char) : Nat :=
  s.foldl (fun acc c => acc * 10 + (c.toNat - 48)) n

/-- The numeric value of a decimal digit string. -/
def decimal_value (s : List Char) : Nat := decimal_value_from 0 s

/-- A string consisting only of the decimal digits `'0'..'9'`. -/
def all_digits (s : List Char) : Prop := ∀ c ∈ s, is_digit c = true

end Address

namespace Proxy

open Socket (operation)

/-- The two halves of a proxy connection: `server` owns the accepted socket,
`client` the socket connected to the remote endpoint. -/
inductive Side where
  | server
  | client
  deriving DecidableEq, Repr

/-- Structure `buffer_view` of `proxy.hpp`.  `data` is the offset of the
pointer from the start of the receive buffer of the opposite side, the only
memory the proxy ever sends from. -/
structure buffer_view where
  data : Nat
  length : Nat
  deriving DecidableEq, Repr

/-- A call made by the connection to one of its sockets or to its timer. -/
inductive Call where
  /-- Call `_M_acceptor.socket().accept(_M_sock, ...)` of the server side. -/
  | accept
  /-- Call `_M_sock.connect(addr)` of the client side. -/
  | connect
  /-- Call `_M_sock.receive(_M_recvbuf, sizeof(_M_recvbuf))` of the given side. -/
  | receive (side : Side)
  /-- Call `_M_sock.send(buf, len)` of the given side, `buf` lying `data` bytes
  into the receive buffer of the opposite side. -/
  | send (side : Side) (data : Nat) (len : Nat)
  /-- Call `_M_sock.cancel(op)` of the given side. -/
  | cancel (side : Side) (op : operation)
  /-- Call `_M_sock.disconnect()` of the given side. -/
  | disconnect (side : Side)
  /-- Call `_M_timer.expires_in(interval)`. -/
  | timer_expires_in (interval : Nat)
  /-- Call `_M_timer.cancel()`. -/
  | timer_cancel
  deriving DecidableEq, Repr

/-- Constant `connection::buffer_size`. -/
def buffer_size : Nat := 32 * 1024

/-- Constant `WSA_OPERATION_ABORTED` (`ERROR_OPERATION_ABORTED`, 995). -/
def WSA_OPERATION_ABORTED : Nat := 995

/-- State of one proxy connection together with the state of its two sockets.

The first group of fields are the data members of `connection::server` and
`connection::client`.  The spin mutex `_M_mutex` only makes the test and reset
of `_M_open` in `close` atomic and is released before any call, so the
sequential embedding leaves it out.

The second group is the environment: the contents of the two receive buffers,
which operations are outstanding on each socket, and the observable history
(calls made, chunks delivered by receives, bytes reported as sent). -/
structure State where
  /-- Configured timeout `_M_acceptor.config().timeout`, in seconds. -/
  timeout : Nat
  server_sendbuf : buffer_view
  server_nconnections : Nat
  server_open : Bool
  client_sendbuf : buffer_view
  client_open : Bool
  /-- Contents of `server::_M_recvbuf`. -/
  server_recvbuf : Nat → Nat
  /-- Contents of `client::_M_recvbuf`. -/
  client_recvbuf : Nat → Nat
  /-- A receive is outstanding on the server socket. -/
  server_receiving : Bool
  /-- A receive is outstanding on the client socket. -/
  client_receiving : Bool
  /-- The send outstanding on the server socket, if any. -/
  server_sending : Option buffer_view
  /-- The send outstanding on the client socket, if any. -/
  client_sending : Option buffer_view
  /-- Chunks delivered so far by receive completions of the server socket. -/
  server_arrived : List (List Nat)
  /-- Chunks delivered so far by receive completions of the client socket. -/
  client_arrived : List (List Nat)
  /-- Bytes reported as transferred by send completions of the server socket. -/
  server_wire : List Nat
  /-- Bytes reported as transferred by send completions of the client socket. -/
  client_wire : List Nat
  /-- Every call made so far, in program order. -/
  calls : List Call

/-- The socket and timer layer as seen by the connection: performing a call
yields the state in which the call returns.  A layer that completes an
operation synchronously runs the completion callback before returning. -/
abbrev Layer := Call → State → State

namespace server

/-- Member `server::start_timer`. -/
def start_timer (io : Layer) (s : State) : State :=
  io (.timer_expires_in (s.timeout * 1000 * 1000 % 2 ^ 64)) s

/-- Member `server::stop_timer`. -/
def stop_timer (io : Layer) (s : State) : State :=
  io .timer_cancel s

/-- Member `server::accept`. -/
def accept (io : Layer) (s : State) : State :=
  io .accept s

/-- Member `server::receive`. -/
def receive (io : Layer) (s : State) : State :=
  io (.receive .server) (stop_timer io s)

/-- Member `server::send(buf, len)`. -/
def send (io : Layer) (buf : Nat) (len : Nat) (s : State) : State :=
  io (.send .server buf len)
    (start_timer io { s with server_sendbuf := { data := buf, length := len } })

end server

namespace client

/-- Member `client::connect`. -/
def connect (io : Layer) (s : State) : State :=
  io .connect s

/-- Member `client::close`. -/
def close (io : Layer) (s : State) : State :=
  if s.client_open then
    io (.disconnect .client)
      (io (.cancel .client .send)
        (io (.cancel .client .receive) { s with client_open := false }))
  else s

/-- Member `client::receive`. -/
def receive (io : Layer) (s : State) : State :=
  io (.receive .client) s

/-- Member `client::send(buf, len)`. -/
def send (io : Layer) (buf : Nat) (len : Nat) (s : State) : State :=
  io (.send .client buf len) { s with client_sendbuf := { data := buf, length := len } }

end client

namespace server

/-- Member `server::close(cancel_timer)`. -/
def close (io : Layer) (cancel_timer : Bool) (s : State) : State :=
  if s.server_open then
    let s1 := { s with server_open := false }
    let s2 := if cancel_timer then stop_timer io s1 else s1
    io (.disconnect .server)
      (io (.cancel .server .send)
        (io (.cancel .server .receive) s2))
  else s

/-- Member `server::close_connections(cancel_timer)`. -/
def close_connections (io : Layer) (cancel_timer : Bool) (s : State) : State :=
  close io cancel_timer (client.close io s)

/-- Member `server::disconnected`; `InterlockedDecrement` acts on a 32-bit
counter. -/
def disconnected (io : Layer) (s : State) : State :=
  let n := (s.server_nconnections + 2 ^ 32 - 1) % 2 ^ 32
  let s1 := { s with server_nconnections := n }
  if n = 0 then accept io s1 else s1

/-- Member `server::connected`. -/
def connected (io : Layer) (s : State) : State :=
  client.receive io (receive io { s with server_nconnections := 2 })

/-- Member `server::connect`. -/
def connect (io : Layer) (s : State) : State :=
  client.connect io (start_timer io s)

/-- Member `server::accepted`. -/
def accepted (io : Layer) (s : State) : State :=
  connect io { s with server_nconnections := 1, server_open := true }

/-- Member `server::received(transferred)`. -/
def received (io : Layer) (transferred : Nat) (s : State) : State :=
  if transferred > 0 then
    client.send io 0 transferred (start_timer io s)
  else
    close_connections io true s

/-- Member `server::sent(count)`; the subtraction is on `DWORD`. -/
def sent (io : Layer) (count : Nat) (s : State) : State :=
  if count = s.server_sendbuf.length then
    client.receive io (stop_timer io s)
  else
    send io (s.server_sendbuf.data + count)
      ((s.server_sendbuf.length + 2 ^ 32 - count) % 2 ^ 32) s

/-- Member `server::timer()`, the watchdog callback. -/
def timer (io : Layer) (s : State) : State :=
  close_connections io false s

/-- Member `server::complete(op, error, transferred)`. -/
def complete (io : Layer) (op : operation) (error transferred : Nat) (s : State) : State :=
  if error = 0 then
    match op with
    | .receive => received io transferred s
    | .send => sent io transferred s
    | .disconnect => disconnected io s
    | .accept => accepted io s
    | .connect => s
  else
    match op with
    | .receive => if error ≠ WSA_OPERATION_ABORTED then close_connections io true s else s
    | .send => if error ≠ WSA_OPERATION_ABORTED then close_connections io true s else s
    | .disconnect => disconnected io s
    | .accept => accept io s
    | .connect => s

end server

namespace client

/-- Member `client::connected`. -/
def connected (io : Layer) (s : State) : State :=
  server.connected io { s with client_open := true }

/-- Member `client::received(transferred)`. -/
def received (io : Layer) (transferred : Nat) (s : State) : State :=
  if transferred > 0 then
    server.send io 0 transferred s
  else
    server.close_connections io true s

/-- Member `client::sent(count)`; the subtraction is on `DWORD`. -/
def sent (io : Layer) (count : Nat) (s : State) : State :=
  if count = s.client_sendbuf.length then
    server.receive io s
  else
    send io (s.client_sendbuf.data + count)
      ((s.client_sendbuf.length + 2 ^ 32 - count) % 2 ^ 32) s

/-- Member `client::disconnected`. -/
def disconnected (io : Layer) (s : State) : State :=
  server.disconnected io s

/-- Member `client::complete(op, error, transferred)`. -/
def complete (io : Layer) (op : operation) (error transferred : Nat) (s : State) : State :=
  if error = 0 then
    match op with
    | .receive => received io transferred s
    | .send => sent io transferred s
    | .disconnect => disconnected io s
    | .connect => connected io s
    | .accept => s
  else
    match op with
    | .receive =>
      if error ≠ WSA_OPERATION_ABORTED then server.close_connections io true s else s
    | .send =>
      if error ≠ WSA_OPERATION_ABORTED then server.close_connections io true s else s
    | .disconnect => disconnected io s
    | .connect => server.close io true s
    | .accept => s

end client

/-- The socket layer when the operating system reports every operation as
pending: the call is recorded, a receive or a send becomes outstanding, and no
callback runs before the call returns. -/
def pending : Layer := fun call s =>
  let s1 := { s with calls := s.calls ++ [call] }
  match call with
  | .receive .server => { s1 with server_receiving := true }
  | .receive .client => { s1 with client_receiving := true }
  | .send .server data len => { s1 with server_sending := some { data := data, length := len } }
  | .send .client data len => { s1 with client_sending := some { data := data, length := len } }
  | _ => s1

/-- Contents of a receive buffer after the operating system has stored a
received chunk at its start. -/
def store (chunk : List Nat) (buf : Nat → Nat) : Nat → Nat :=
  fun i => if i < chunk.length then chunk.getD i 0 else buf i

/-- The `len` bytes found at offset `data` of a buffer. -/
def load (buf : Nat → Nat) (data len : Nat) : List Nat :=
  (List.range len).map (fun i => buf (data + i))

/-- A successful completion of a data transfer, as delivered to
`server::complete` or `client::complete`. -/
inductive Transfer where
  /-- A receive on the given side completed and stored `chunk` in its buffer. -/
  | received (side : Side) (chunk : List Nat)
  /-- A send on the given side completed, `count` bytes having been transferred. -/
  | sent (side : Side) (count : Nat)
  deriving DecidableEq, Repr

/-- A completion the socket layer can deliver in the given state: a non-empty
receive of at most `buffer_size` bytes on a socket with an outstanding receive,
or a send completion on a socket with an outstanding send whose count is at
least 1 and at most the length of that send. -/
def deliverable (s : State) : Transfer → Bool
  | .received .server chunk =>
    s.server_receiving && decide (1 ≤ chunk.length) && decide (chunk.length ≤ buffer_size)
  | .received .client chunk =>
    s.client_receiving && decide (1 ≤ chunk.length) && decide (chunk.length ≤ buffer_size)
  | .sent .server count =>
    match s.server_sending with
    | some v => decide (1 ≤ count) && decide (count ≤ v.length)
    | none => false
  | .sent .client count =>
    match s.client_sending with
    | some v => decide (1 ≤ count) && decide (count ≤ v.length)
    | none => false

/-- Delivery of one completion: the environment records what the operating
system did (the chunk stored in the receive buffer, or the bytes taken from the
buffer the send was given), then the completion callback of that side runs. -/
def deliver (s : State) : Transfer → State
  | .received .server chunk =>
    server.complete pending .receive 0 chunk.length
      { s with server_receiving := false,
               server_recvbuf := store chunk s.server_recvbuf,
               server_arrived := s.server_arrived ++ [chunk] }
  | .received .client chunk =>
    client.complete pending .receive 0 chunk.length
      { s with client_receiving := false,
               client_recvbuf := store chunk s.client_recvbuf,
               client_arrived := s.client_arrived ++ [chunk] }
  | .sent .server count =>
    match s.server_sending with
    | some v =>
      server.complete pending .send 0 count
        { s with server_sending := none,
                 server_wire := s.server_wire ++ load s.client_recvbuf v.data count }
    | none => s
  | .sent .client count =>
    match s.client_sending with
    | some v =>
      client.complete pending .send 0 count
        { s with client_sending := none,
                 client_wire := s.client_wire ++ load s.server_recvbuf v.data count }
    | none => s

/-- A sequence of completions each of which is deliverable when its turn comes. -/
def deliverable_all : State → List Transfer → Bool
  | _, [] => true
  | s, t :: ts => deliverable s t && deliverable_all (deliver s t) ts

/-- State after delivering a sequence of completions. -/
def run : State → List Transfer → State
  | s, [] => s
  | s, t :: ts => run (deliver s t) ts

/-- A connection before its first accept. -/
def idle (timeout : Nat) : State where
  timeout := timeout
  server_sendbuf := { data := 0, length := 0 }
  server_nconnections := 0
  server_open := false
  client_sendbuf := { data := 0, length := 0 }
  client_open := false
  server_recvbuf := fun _ => 0
  client_recvbuf := fun _ => 0
  server_receiving := false
  client_receiving := false
  server_sending := none
  client_sending := none
  server_arrived := []
  client_arrived := []
  server_wire := []
  client_wire := []
  calls := []

/-- The state of a session in which the accept and then the connect have
completed successfully and nothing has been received yet. -/
def established (timeout : Nat) : State :=
  client.complete pending .connect 0 0 (server.complete pending .accept 0 0 (idle timeout))

/-- Whether a call starts a receive. -/
def is_receive : Call → Bool
  | .receive _ => true
  | _ => false

/-- The side and the buffer range of a call that starts a send. -/
def send_view : Call → Option (Side × buffer_view)
  | .send side data len => some (side, { data := data, length := len })
  | _ => none

/-- The ranges that remain to be sent after each partial completion when a
send of `L` bytes at `data` completes in parts of the given sizes: after a
first part of `c` bytes the rest is `(data + c, L - c)`, and so on; the last
part leaves nothing. -/
def resend_views : Nat → Nat → List Nat → List buffer_view
  | _, _, [] => []
  | _, _, [_] => []
  | data, L, c :: c2 :: cs =>
    { data := data + c, length := L - c } :: resend_views (data + c) (L - c) (c2 :: cs)

/-- The opposite side. -/
def Side.peer : Side → Side
  | .server => .client
  | .client => .server

/-- The saved send view `_M_sendbuf` of a side. -/
def sendbuf : Side → State → buffer_view
  | .server, s => s.server_sendbuf
  | .client, s => s.client_sendbuf

/-- The send outstanding on the socket of a side. -/
def sending : Side → State → Option buffer_view
  | .server, s => s.server_sending
  | .client, s => s.client_sending

/-- Whether a receive is outstanding on the socket of a side. -/
def receiving : Side → State → Bool
  | .server, s => s.server_receiving
  | .client, s => s.client_receiving

/-- The receive buffer `_M_recvbuf` of a side. -/
def recvbuf : Side → State → Nat → Nat
  | .server, s => s.server_recvbuf
  | .client, s => s.client_recvbuf

/-- The bytes reported as transferred by the send completions of a side. -/
def wire : Side → State → List Nat
  | .server, s => s.server_wire
  | .client, s => s.client_wire

/-- The chunks delivered by the receive completions of a side. -/
def arrived : Side → State → List (List Nat)
  | .server, s => s.server_arrived
  | .client, s => s.client_arrived

/-- Member `sent(count)` of the given side. -/
def sent : Side → Layer → Nat → State → State
  | .server => server.sent
  | .client => client.sent

/-- The calls made between two states of one execution. -/
def issued (before after : State) : List Call :=
  after.calls.drop before.calls.length

/-- The bytes of the send outstanding on the opposite side that have not been
reported as transferred yet: data received on `side` and still to be relayed. -/
def unsent (side : Side) (s : State) : List Nat :=
  match sending side.peer s with
  | some v => load (recvbuf side s) v.data v.length
  | none => []

/-- The chunks that a sequence of completions delivers to the receives of a
side, in order. -/
def chunks (side : Side) : List Transfer → List (List Nat)
  | [] => []
  | .received on_side chunk :: ts =>
    if on_side = side then chunk :: chunks side ts else chunks side ts
  | .sent _ _ :: ts => chunks side ts

/-- The state in which the client side has just been handed the first 32768
bytes of the server's receive buffer, in an established session with a timeout
of 30 seconds. -/
def sending_32k : State :=
  client.send pending 0 32768 (established 30)

/-- Invariant of one direction of the relay, for data received on `side`: the
bytes already reported as sent on the opposite side followed by the bytes of
the outstanding send are exactly the chunks received so far; and while a send
is outstanding on the opposite side, no receive is outstanding on `side` (so
the buffer being sent is not overwritten), the saved view equals the
outstanding send, and its length is a `DWORD`. -/
structure Relay (side : Side) (s : State) : Prop where
  bytes : wire side.peer s ++ unsent side s = (arrived side s).flatten
  quiet : ∀ v, sending side.peer s = some v →
    receiving side s = false ∧ sendbuf side.peer s = v ∧ v.length < 2 ^ 32

/-- A sample exchange: three bytes arrive from the accepted peer and are
relayed in two parts, one byte travels the other way, then two more bytes
arrive from the accepted peer and are relayed at once. -/
def sample_exchange : List Transfer :=
  [.received .server [1, 2, 3], .sent .client 1, .received .client [9], .sent .client 2,
   .sent .server 1, .received .server [4, 5], .sent .client 2]

end Proxy

namespace Receiver

open Libc
open Socket (operation)

/-- Structure `receiver::configuration`. -/
structure Config where
  nconnections : Nat
  tmpdir : List Char
  finaldir : List Char
  timeout : Nat
  maxfilesize : Nat
  maxfileage : Nat

/-- Constant `connection::buffer_size`. -/
def buffer_size : Nat := 32 * 1024

/-- Platform constant `MAX_PATH`. -/
def MAX_PATH : Nat := 260

/-- Constant `WSA_OPERATION_ABORTED` (`ERROR_OPERATION_ABORTED`, 995). -/
def WSA_OPERATION_ABORTED : Nat := 995

/-- Text produced by `snprintf(buf, MAX_PATH, "%s\\file-%zu-%zu.bin", dir,
nconnection, nfile)`: the formatted text cut to `MAX_PATH - 1` characters. -/
def pathname (dir : List Char) (nconnection nfile : Nat) : List Char :=
  (dir ++ [Char.ofNat 92] ++ "file-".toList ++ utoa nconnection ++ ['-'] ++ utoa nfile ++
    ".bin".toList).take (MAX_PATH - 1)

/-- A call made by the connection to its socket, its file, its timers or the
file system. -/
inductive Call where
  /-- Call `_M_acceptor.socket().accept(_M_sock, ...)`. -/
  | accept
  /-- Call `_M_sock.receive(_M_buf, sizeof(_M_buf))`. -/
  | receive
  /-- Call `_M_sock.cancel(operation::receive)`. -/
  | cancel_receive
  /-- Call `_M_sock.disconnect()`. -/
  | disconnect
  /-- Call `_M_connection_timer.expires_in(interval)`. -/
  | connection_timer_expires_in (interval : Nat)
  /-- Call `_M_connection_timer.cancel()`. -/
  | connection_timer_cancel
  /-- Call `_M_file_timer.expires_in(interval)`. -/
  | file_timer_expires_in (interval : Nat)
  /-- Call `_M_file_timer.cancel()`. -/
  | file_timer_cancel
  /-- Call `_M_file.open(pathname, mode::write, _M_callbackenv)`. -/
  | file_open (path : List Char)
  /-- Call `_M_file.close()`. -/
  | file_close
  /-- Call `_M_file.write(_M_buf, len)`. -/
  | file_write (len : Nat)
  /-- Call `MoveFileEx(oldpath, newpath, MOVEFILE_REPLACE_EXISTING)`. -/
  | move_file (oldpath newpath : List Char)
  /-- Call `DeleteFile(pathname)`. -/
  | delete_file (path : List Char)
  /-- Release `InterlockedDecrement(&_M_file_mutex)` of the file mutex. -/
  | file_mutex_release
  /-- Release `InterlockedDecrement(&_M_connection_mutex)` of the connection mutex. -/
  | connection_mutex_release
  deriving DecidableEq, Repr

/-- What the operating system answers when an operation is started. -/
inductive Outcome where
  /-- The operation is pending; its completion is delivered later by the pool. -/
  | pending
  /-- An accept or a disconnect finished before the call returned. -/
  | done (error : Nat)
  /-- A receive finished before the call returned, `chunk` being the bytes
  stored in the buffer when `error = 0`. -/
  | received (error : Nat) (chunk : List Nat)
  /-- A file write finished before the call returned, reporting `count` bytes. -/
  | wrote (error : Nat) (count : Nat)
  deriving DecidableEq, Repr

/-- State of one receiver connection and of its environment.

The first group of fields are data members of `receiver::connection`;
`file_is_open` is the answer of `_M_file.open()` and `opened` the value
returned by the latest `_M_file.open(pathname, ...)`.  The counters
`nconnection` and `nfile` are `size_t` values that only ever grow by one per
connection or file, so they are not reduced modulo `2 ^ 64`.

The second group is the environment: the clock, the contents of `_M_buf`, the
answers the operating system will give to the next operations, which
operations are outstanding, the staging file under the current name, the files
moved to the final directory, and the observable history.  `blocked` records
that a handler reached the spin loop of `write_file` while the file mutex was
held: the handler then waits for another thread, which this sequential
embedding does not follow. -/
structure State where
  config : Config
  connection_mutex : Nat
  file_mutex : Nat
  nconnection : Nat
  nfile : Nat
  file_creation : Nat
  filesize : Nat
  file_is_open : Bool
  opened : Bool
  /-- Value returned by `time(nullptr)`. -/
  clock : Nat
  /-- Contents of `_M_buf`. -/
  buf : Nat → Nat
  /-- Answers to the operations started next, in order. -/
  outcomes : List Outcome
  /-- Results of the next calls of `_M_file.open(pathname, ...)`, in order. -/
  opens : List Bool
  accept_pending : Bool
  receive_pending : Bool
  disconnect_pending : Bool
  /-- The requested length of the outstanding file write, if any. -/
  write_pending : Option Nat
  /-- Chunks stored in `_M_buf` by successful receive completions. -/
  arrived : List (List Nat)
  /-- Contents of the staging file that bears the current file name, if it exists. -/
  staging : Option (List Nat)
  /-- Files moved to the final directory, in the order of the moves. -/
  final : List (List Char × List Nat)
  blocked : Bool
  /-- Every call made and every mutex release performed so far, in program order. -/
  calls : List Call

/-- The operating-system layer as seen by the connection: performing a call
yields the state in which the call returns.  A layer that completes an
operation synchronously runs the completion callback before returning. -/
abbrev Layer := Call → State → State

/-- Function `InterlockedDecrement` on a 32-bit value. -/
def decrement (m : Nat) : Nat := (m + 2 ^ 32 - 1) % 2 ^ 32

/-- Statement `::InterlockedDecrement(&_M_file_mutex)`. -/
def unlock_file (s : State) : State :=
  { s with file_mutex := decrement s.file_mutex, calls := s.calls ++ [.file_mutex_release] }

/-- Statement `::InterlockedDecrement(&_M_connection_mutex)`. -/
def unlock_connection (s : State) : State :=
  { s with connection_mutex := decrement s.connection_mutex,
           calls := s.calls ++ [.connection_mutex_release] }

namespace connection

/-- Member `connection::accept`. -/
def accept (io : Layer) (s : State) : State :=
  io .accept s

/-- Member `connection::open_file`: the returned flag and the new state. -/
def open_file (io : Layer) (s : State) : Bool × State :=
  let s1 := { s with nfile := s.nfile + 1 }
  let s2 := io (.file_open (pathname s1.config.tmpdir s1.nconnection s1.nfile)) s1
  if s2.opened then
    let s3 := io (.file_timer_expires_in (s2.config.maxfileage * 1000 * 1000 % 2 ^ 64))
      { s2 with filesize := 0 }
    (true, { s3 with file_creation := s3.clock })
  else
    (false, s2)

/-- Member `connection::close_file(cancel_file_timer)`. -/
def close_file (io : Layer) (cancel_file_timer : Bool) (s : State) : State :=
  io .file_close (if cancel_file_timer then io .file_timer_cancel s else s)

/-- Member `connection::close_connection(cancel_connection_timer)`. -/
def close_connection (io : Layer) (cancel_connection_timer : Bool) (s : State) : State :=
  io .disconnect
    (io .cancel_receive (if cancel_connection_timer then io .connection_timer_cancel s else s))

/-- Member `connection::write_file(len)`.  The spin loop on the file mutex
returns once it has replaced 0 by 1. -/
def write_file (io : Layer) (len : Nat) (s : State) : State :=
  if s.file_mutex ≠ 0 then { s with blocked := true }
  else
    let s1 := { s with file_mutex := 1 }
    if !s1.file_is_open then
      let r := open_file io s1
      if !r.1 then
        close_connection io true (unlock_file r.2)
      else
        io (.file_write len) r.2
    else
      io (.file_write len) s1

/-- Member `connection::move_file`. -/
def move_file (io : Layer) (s : State) : State :=
  io (.move_file (pathname s.config.tmpdir s.nconnection s.nfile)
        (pathname s.config.finaldir s.nconnection s.nfile)) s

/-- Member `connection::error_writing_file`. -/
def error_writing_file (io : Layer) (s : State) : State :=
  let s1 := close_file io true s
  let s2 :=
    if s1.filesize > 0 then move_file io s1
    else io (.delete_file (pathname s1.config.tmpdir s1.nconnection s1.nfile)) s1
  close_connection io true (unlock_file s2)

/-- Member `connection::receive`. -/
def receive (io : Layer) (s : State) : State :=
  io .receive (io (.connection_timer_expires_in (s.config.timeout * 1000 * 1000 % 2 ^ 64)) s)

/-- Member `connection::accepted`. -/
def accepted (io : Layer) (s : State) : State :=
  receive io s

/-- Member `connection::received(transferred)`. -/
def received (io : Layer) (transferred : Nat) (s : State) : State :=
  if transferred > 0 then write_file io transferred s
  else close_connection io true s

/-- Member `connection::written(count)`; the sums are on `uint64_t`. -/
def written (io : Layer) (count : Nat) (s : State) : State :=
  let s1 := { s with filesize := (s.filesize + count) % 2 ^ 64 }
  let s2 :=
    if s1.filesize ≥ s1.config.maxfilesize ∨
        (s1.file_creation + s1.config.maxfileage) % 2 ^ 64 ≤ s1.clock % 2 ^ 64 then
      move_file io (close_file io true s1)
    else s1
  receive io (unlock_file s2)

/-- Member `connection::disconnected`. -/
def disconnected (io : Layer) (s : State) : State :=
  accept io s

/-- Member `connection::complete(op, error, transferred)`, the socket
completion callback. -/
def complete (io : Layer) (op : operation) (error transferred : Nat) (s : State) : State :=
  if error = 0 then
    match op with
    | .receive =>
      if s.connection_mutex = 0 then
        unlock_connection (received io transferred { s with connection_mutex := 1 })
      else s
    | .disconnect => disconnected io s
    | .accept => accepted io s
    | .connect => s
    | .send => s
  else
    match op with
    | .receive => if error ≠ WSA_OPERATION_ABORTED then close_connection io true s else s
    | .disconnect => disconnected io s
    | .accept => accept io s
    | .connect => s
    | .send => s

/-- Member `connection::complete(error, transferred)`, the file completion
callback. -/
def complete_file (io : Layer) (error transferred : Nat) (s : State) : State :=
  if error = 0 then written io transferred s
  else error_writing_file io s

/-- Member `connection::connection_timer()`. -/
def connection_timer (io : Layer) (s : State) : State :=
  if s.connection_mutex = 0 then
    unlock_connection (close_connection io false { s with connection_mutex := 1 })
  else s

/-- Member `connection::file_timer()`. -/
def file_timer (io : Layer) (s : State) : State :=
  if s.file_mutex = 0 then
    unlock_file (move_file io (close_file io false { s with file_mutex := 1 }))
  else s

end connection

/-- Contents of the buffer after the operating system has stored a received
chunk at its start. -/
def store (chunk : List Nat) (buf : Nat → Nat) : Nat → Nat :=
  fun i => if i < chunk.length then chunk.getD i 0 else buf i

/-- The `len` bytes found at offset `data` of the buffer. -/
def load (buf : Nat → Nat) (data len : Nat) : List Nat :=
  (List.range len).map (fun i => buf (data + i))

/-- Effect on the environment of a call that starts no asynchronous
operation.  Opening a file consumes the next announced result (success when
none is announced) and, on success, creates the staging file under the new
name; closing invalidates the handle; a move takes the staging file, if it
exists, to the final directory under the new path; a delete removes it. -/
def effect (call : Call) (s : State) : State :=
  match call with
  | .file_open _ =>
    let ok := s.opens.headD true
    { s with opens := s.opens.tail, opened := ok, file_is_open := ok,
             staging := if ok then some [] else s.staging }
  | .file_close => { s with file_is_open := false }
  | .move_file _ newpath =>
    match s.staging with
    | some content => { s with staging := none, final := s.final ++ [(newpath, content)] }
    | none => s
  | .delete_file _ => { s with staging := none }
  | _ => s

/-- Effect of a successful receive completion: at most `buffer_size` bytes have
been stored at the start of `_M_buf`. -/
def stored (chunk : List Nat) (s : State) : State :=
  { s with buf := store (chunk.take buffer_size) s.buf,
           arrived := s.arrived ++ [chunk.take buffer_size] }

/-- Effect of a successful write completion that reports `count` bytes: those
bytes of `_M_buf` have been appended to the open file. -/
def appended (count : Nat) (s : State) : State :=
  { s with staging := s.staging.map (fun content => content ++ load s.buf 0 count) }

/-- The operating-system layer.  Every call is recorded.  A call that starts
an operation consumes the next announced outcome: if the outcome says the
operation finished at once, the completion callback runs before the call
returns, as `socket.cpp` and `file.cpp` do; otherwise the operation becomes
outstanding.  A receive stores at most `buffer_size` bytes and a write reports
at most the requested length.  The first argument bounds the depth of nested
callbacks. -/
def layer : Nat → Layer
  | 0 => fun call s =>
    let s1 := { s with calls := s.calls ++ [call] }
    match call with
    | .accept => { s1 with accept_pending := true }
    | .receive => { s1 with receive_pending := true }
    | .disconnect => { s1 with disconnect_pending := true }
    | .file_write len => { s1 with write_pending := some len }
    | other => effect other s1
  | fuel + 1 => fun call s =>
    let s1 := { s with calls := s.calls ++ [call], outcomes := s.outcomes.tail }
    match call with
    | .accept =>
      match s.outcomes.head? with
      | some (.done error) => connection.complete (layer fuel) .accept error 0 s1
      | _ => { s1 with accept_pending := true }
    | .disconnect =>
      match s.outcomes.head? with
      | some (.done error) => connection.complete (layer fuel) .disconnect error 0 s1
      | _ => { s1 with disconnect_pending := true }
    | .receive =>
      match s.outcomes.head? with
      | some (.received error chunk) =>
        if error = 0 then
          connection.complete (layer fuel) .receive 0 (chunk.take buffer_size).length
            (stored chunk s1)
        else
          connection.complete (layer fuel) .receive error 0 s1
      | _ => { s1 with receive_pending := true }
    | .file_write len =>
      match s.outcomes.head? with
      | some (.wrote error count) =>
        if error = 0 then
          connection.complete_file (layer fuel) 0 (min count len) (appended (min count len) s1)
        else
          connection.complete_file (layer fuel) error 0 s1
      | _ => { s1 with write_pending := some len }
    | other => effect other { s with calls := s.calls ++ [other] }

/-- An event delivered by the thread pool while no callback of the connection
is running. -/
inductive Event where
  /-- The outstanding accept completed. -/
  | accept_done (error : Nat)
  /-- The outstanding receive completed; `chunk` was stored when `error = 0`. -/
  | receive_done (error : Nat) (chunk : List Nat)
  /-- The outstanding disconnect completed. -/
  | disconnect_done (error : Nat)
  /-- The outstanding file write completed, reporting `count` bytes. -/
  | write_done (error : Nat) (count : Nat)
  /-- The connection timer fired. -/
  | connection_timer_fired
  /-- The file timer fired. -/
  | file_timer_fired
  /-- Time passed: the clock now shows `now`. -/
  | tick (now : Nat)
  deriving DecidableEq, Repr

/-- An event together with the answers the operating system gives to the
operations started while the event is handled. -/
structure Step where
  event : Event
  outcomes : List Outcome
  opens : List Bool
  deriving DecidableEq, Repr

/-- Delivery of one event.  A completion is delivered only for an outstanding
operation. -/
def deliver (s : State) (st : Step) : State :=
  let io := layer (st.outcomes.length + 1)
  let s0 := { s with outcomes := st.outcomes, opens := st.opens }
  match st.event with
  | .accept_done error =>
    if s.accept_pending then
      connection.complete io .accept error 0 { s0 with accept_pending := false }
    else s
  | .disconnect_done error =>
    if s.disconnect_pending then
      connection.complete io .disconnect error 0 { s0 with disconnect_pending := false }
    else s
  | .receive_done error chunk =>
    if s.receive_pending then
      if error = 0 then
        connection.complete io .receive 0 (chunk.take buffer_size).length
          (stored chunk { s0 with receive_pending := false })
      else
        connection.complete io .receive error 0 { s0 with receive_pending := false }
    else s
  | .write_done error count =>
    match s.write_pending with
    | some len =>
      if error = 0 then
        connection.complete_file io 0 (min count len)
          (appended (min count len) { s0 with write_pending := none })
      else
        connection.complete_file io error 0 { s0 with write_pending := none }
    | none => s
  | .connection_timer_fired => connection.connection_timer io s0
  | .file_timer_fired => connection.file_timer io s0
  | .tick now => { s with clock := now }

/-- State after a sequence of events. -/
def run : State → List Step → State
  | s, [] => s
  | s, st :: sts => run (deliver s st) sts

/-- A connection as built by its constructor: only `_M_nfile` and the two
mutexes are initialised; `_M_filesize` and `_M_file_creation` hold whatever
the memory held. -/
def fresh (config : Config) (nconnection filesize file_creation : Nat) : State where
  config := config
  connection_mutex := 0
  file_mutex := 0
  nconnection := nconnection
  nfile := 0
  file_creation := file_creation
  filesize := filesize
  file_is_open := false
  opened := false
  clock := 0
  buf := fun _ => 0
  outcomes := []
  opens := []
  accept_pending := false
  receive_pending := false
  disconnect_pending := false
  write_pending := none
  arrived := []
  staging := none
  final := []
  blocked := false
  calls := []

/-- A new connection whose first accept is outstanding, as left by
`acceptor::listen`. -/
def armed (config : Config) (nconnection filesize file_creation : Nat) : State :=
  connection.accept (layer 0) (fresh config nconnection filesize file_creation)

/-- The bytes held by the files of the connection, in the order of their
sequence numbers: the files already moved, then the staging file. -/
def persisted (s : State) : List Nat :=
  (s.final.map (fun f => f.2)).flatten ++ s.staging.getD []

/-- A sample configuration: 4096-byte files, 300 s file age, 30 s timeout. -/
def sample_config : Config where
  nconnections := 1
  tmpdir := "tmp".toList
  finaldir := "final".toList
  timeout := 30
  maxfilesize := 4096
  maxfileage := 300

/-- A sample session in which every completion is delivered by the pool: the
connection is accepted, three bytes are received and written to a new file,
and the peer closes the connection (a receive of 0 bytes). -/
def clean_close_session : List Step :=
  [{ event := .accept_done 0, outcomes := [], opens := [] },
   { event := .receive_done 0 [1, 2, 3], outcomes := [], opens := [true] },
   { event := .write_done 0 3, outcomes := [], opens := [] },
   { event := .receive_done 0 [], outcomes := [], opens := [] }]

/-- A sample session with synchronous completions: the connection is accepted;
a receive of three bytes is delivered by the pool; the file write it starts
finishes at once with all three bytes; the receive started next finishes at
once with two more bytes. -/
def inline_session : List Step :=
  [{ event := .accept_done 0, outcomes := [], opens := [] },
   { event := .receive_done 0 [1, 2, 3],
     outcomes := [.wrote 0 3, .received 0 [4, 5]], opens := [true] }]

/-- The path of a call that opens a file. -/
def open_path : Call → Option (List Char)
  | .file_open path => some path
  | _ => none

/-- The bounds `min_file_size` and `max_file_size` that `receiver::create`
enforces on `maxfilesize`. -/
def file_size_in_range (config : Config) : Prop :=
  4 * 1024 ≤ config.maxfilesize ∧ config.maxfilesize ≤ 1024 * 1024 * 1024

/-- Invariant of a receiver connection between two callbacks.  The
configuration and the connection number never change; the `j`-th file opened
was named with sequence number `j`; while the file is open the staging file
holds exactly `filesize` bytes, which is below `maxfilesize`; when the file is
closed no staging file bears the current name; every file in the final
directory is shorter than `maxfilesize + buffer_size`; and an outstanding write
asked for at most `buffer_size` bytes of the open file and holds the file
mutex. -/
structure Invariant (config : Config) (nconnection : Nat) (s : State) : Prop where
  config_eq : s.config = config
  nconnection_eq : s.nconnection = nconnection
  names : s.calls.filterMap open_path =
    (List.range s.nfile).map (fun j => pathname config.tmpdir nconnection (j + 1))
  open_size : s.file_is_open = true →
    ∃ content, s.staging = some content ∧ content.length = s.filesize ∧
      s.filesize < config.maxfilesize
  closed : s.file_is_open = false → s.staging = none
  final_size : ∀ f ∈ s.final, f.2.length < config.maxfilesize + buffer_size
  writing : ∀ len, s.write_pending = some len →
    s.file_is_open = true ∧ len ≤ buffer_size ∧ s.file_mutex = 1

/-- A state in which a file write may be started or completed: the invariant
holds, the file is open, the file mutex is held and no write is outstanding. -/
def Writable (config : Config) (nconnection : Nat) (s : State) : Prop :=
  Invariant config nconnection s ∧ s.file_is_open = true ∧ s.file_mutex = 1 ∧
    s.write_pending = none

/-- The operating-system layer of the given nesting depth keeps the invariant
when an operation is started from a state that satisfies it. -/
structure LayerOk (config : Config) (nconnection : Nat) (fuel : Nat) : Prop where
  accept : ∀ s, Invariant config nconnection s →
    Invariant config nconnection (layer fuel .accept s)
  receive : ∀ s, Invariant config nconnection s →
    Invariant config nconnection (layer fuel .receive s)
  disconnect : ∀ s, Invariant config nconnection s →
    Invariant config nconnection (layer fuel .disconnect s)
  file_write : ∀ len s, Writable config nconnection s → len ≤ buffer_size →
    Invariant config nconnection (layer fuel (.file_write len) s)

/-- The part of the invariant that does not speak about the open file, for a
state without an outstanding write. -/
structure Base (config : Config) (nconnection : Nat) (s : State) : Prop where
  config_eq : s.config = config
  nconnection_eq : s.nconnection = nconnection
  names : s.calls.filterMap open_path =
    (List.range s.nfile).map (fun j => pathname config.tmpdir nconnection (j + 1))
  final_size : ∀ f ∈ s.final, f.2.length < config.maxfilesize + buffer_size
  idle : s.write_pending = none

/-- What `acceptor::listen` meets in its environment: whether the socket can
listen, whether the array of connections can be allocated, whether the
connection of each slot can be allocated and created, and the values the
uninitialised members `_M_filesize` and `_M_file_creation` of each new
connection happen to hold. -/
structure ListenEnv where
  listen_ok : Bool
  malloc_ok : Bool
  connection_ok : Nat → Bool
  filesize : Nat → Nat
  file_creation : Nat → Nat

namespace acceptor

/-- The loop of `acceptor::listen`: `remaining` iterations are left, the next
slot is `_M_nconnections = slot`, and `nconnection` is the connection number of
that slot.  The result is the returned flag and the connections stored. -/
def listen_loop (config : Config) (env : ListenEnv) :
    (remaining slot nconnection : Nat) → List State → Bool × List State
  | 0, _, _, stored => (true, stored)
  | remaining + 1, slot, nconnection, stored =>
    if env.connection_ok slot then
      listen_loop config env remaining (slot + 1) (nconnection + 1)
        (stored ++ [armed config nconnection (env.filesize slot) (env.file_creation slot)])
    else (false, stored)

/-- Member `acceptor::listen(addr, nacceptor, callbackenv)`: the returned flag
and the array `_M_connections`. -/
def listen (config : Config) (nacceptor : Nat) (env : ListenEnv) : Bool × List State :=
  if env.listen_ok then
    if env.malloc_ok then
      listen_loop config env config.nconnections 0 (nacceptor * config.nconnections) []
    else (false, [])
  else (false, [])

end acceptor

/-- Class `receiver::acceptors`: `_M_size`, `_M_used` and, for each stored
acceptor, its array of connections. -/
structure Acceptors where
  size : Nat
  used : Nat
  acceptors : List (List State)

/-- What `acceptors::listen` meets in its environment. -/
structure AcceptorsEnv where
  realloc_ok : Bool
  new_ok : Bool
  listen : ListenEnv

namespace acceptors

/-- Constant `acceptors::allocation`. -/
def allocation : Nat := 8

/-- The container built by the default constructor. -/
def empty : Acceptors := { size := 0, used := 0, acceptors := [] }

/-- Member `acceptors::allocate`. -/
def allocate (realloc_ok : Bool) (a : Acceptors) : Bool × Acceptors :=
  if a.used < a.size then (true, a)
  else
    let size := if a.size > 0 then a.size * 2 else allocation
    if realloc_ok then (true, { a with size := size }) else (false, a)

/-- Member `acceptors::listen(addr, config, callbackenv)`. -/
def listen (config : Config) (env : AcceptorsEnv) (a : Acceptors) : Bool × Acceptors :=
  let r := allocate env.realloc_ok a
  if r.1 then
    if env.new_ok then
      let l := acceptor.listen config r.2.used env.listen
      if l.1 then
        (true, { r.2 with acceptors := r.2.acceptors ++ [l.2], used := r.2.used + 1 })
      else (false, r.2)
    else (false, r.2)
  else (false, r.2)

/-- The container after a sequence of calls of `receiver::listen`. -/
def listen_all (config : Config) : Acceptors → List AcceptorsEnv → Acceptors
  | a, [] => a
  | a, env :: envs => listen_all config (listen config env a).2 envs

end acceptors

/-- The acceptors of the container are numbered by their position: `_M_used`
counts them, each holds `nconnections` connections, and the connection in slot
`slot` of acceptor `i` is a new connection with number
`i * nconnections + slot`. -/
def Numbered (config : Config) (a : Acceptors) : Prop :=
  a.used = a.acceptors.length ∧
  ∀ i conns, a.acceptors[i]? = some conns →
    conns.length = config.nconnections ∧
    ∀ slot s, conns[slot]? = some s →
      ∃ filesize file_creation,
        s = armed config (i * config.nconnections + slot) filesize file_creation

/-- The text `file-<nconnection>-<nfile>.bin`. -/
def basename (nconnection nfile : Nat) : List Char :=
  "file-".toList ++ utoa nconnection ++ ['-'] ++ utoa nfile ++ ".bin".toList

/-- An environment in which every step of `listen` succeeds. -/
def sample_env : AcceptorsEnv where
  realloc_ok := true
  new_ok := true
  listen := { listen_ok := true, malloc_ok := true, connection_ok := fun _ => true,
              filesize := fun _ => 0, file_creation := fun _ => 0 }

/-- The sample configuration with two connections per acceptor. -/
def sample_config2 : Config := { sample_config with nconnections := 2 }

/-- A sample session in which 10 000 bytes arrive in chunks of 4096, 4096 and
1808 bytes, each written in full. -/
def rotating_session : List Step :=
  [{ event := .accept_done 0, outcomes := [], opens := [] },
   { event := .receive_done 0 (List.replicate 4096 7), outcomes := [], opens := [true] },
   { event := .write_done 0 4096, outcomes := [], opens := [] },
   { event := .receive_done 0 (List.replicate 4096 8), outcomes := [], opens := [true] },
   { event := .write_done 0 4096, outcomes := [], opens := [] },
   { event := .receive_done 0 (List.replicate 1808 9), outcomes := [], opens := [true] },
   { event := .write_done 0 1808, outcomes := [], opens := [] }]

end Receiver

namespace Proxy

open Socket (operation)

/-- An event delivered to a proxy connection by the thread pool. -/
inductive Event where
  /-- An operation of the socket of the given side completed; the arguments
  are those passed to `complete(op, error, transferred)`. -/
  | complete (side : Side) (op : operation) (error transferred : Nat)
  /-- The timer fired. -/
  | timer
  deriving DecidableEq, Repr

/-- The environment after an operation completed: it is no longer outstanding. -/
def settle : Side → operation → State → State
  | .server, .receive, s => { s with server_receiving := false }
  | .client, .receive, s => { s with client_receiving := false }
  | .server, .send, s => { s with server_sending := none }
  | .client, .send, s => { s with client_sending := none }
  | _, _, s => s

/-- Delivery of one event while every operation the callbacks start is
reported as pending.  The contents of the buffers are not followed here; for
those see `deliver`. -/
def handle (s : State) : Event → State
  | .complete .server op error transferred =>
    server.complete pending op error transferred (settle .server op s)
  | .complete .client op error transferred =>
    client.complete pending op error transferred (settle .client op s)
  | .timer => server.timer pending s

/-- State after a sequence of events. -/
def play : State → List Event → State
  | s, [] => s
  | s, e :: es => play (handle s e) es

/-- Number of accepts started. -/
def accepts (calls : List Call) : Nat := calls.count .accept

/-- Number of disconnects started on the socket of a side. -/
def disconnects (side : Side) (calls : List Call) : Nat := calls.count (.disconnect side)

/-- The flag `_M_open` of a side. -/
def is_open : Side → State → Bool
  | .server, s => s.server_open
  | .client, s => s.client_open

/-- An event of the data phase of a session: the completion of a receive or of
a send, with or without error, or the expiry of the timer. -/
def Event.in_session : Event → Bool
  | .complete _ .receive _ _ => true
  | .complete _ .send _ _ => true
  | .timer => true
  | _ => false

/-- The event that starts a session of a side: the accepted event for the
server side (an accept completed without error), the connected event for the
client side (a connect completed without error). -/
def Event.starts : Side → Event → Bool
  | .server, .complete .server .accept error _ => decide (error = 0)
  | .client, .complete .client .connect error _ => decide (error = 0)
  | _, _ => false

/-- The state of a session whose accept has completed successfully and whose
connect is outstanding. -/
def connecting (timeout : Nat) : State :=
  server.complete pending .accept 0 0 (idle timeout)

/-- What the timer is armed with after the given calls: the interval of the
latest `expires_in`, unless a `cancel` followed it. -/
def watchdog (calls : List Call) : Option Nat :=
  calls.foldl (fun armed call =>
    match call with
    | .timer_expires_in interval => some interval
    | .timer_cancel => none
    | _ => armed) none

end Proxy

namespace ThreadPool

/-- Constant `thread_pool::min_threads`. -/
def min_threads : Nat := 1

/-- Constant `thread_pool::max_threads`. -/
def max_threads : Nat := 256

/-- Constant `thread_pool::default_max_threads`. -/
def default_max_threads : Nat := 4

/-- What the operating system answers while a thread pool is created:
whether `CreateThreadpool` returns a pool and whether
`SetThreadpoolThreadMinimum` succeeds. -/
structure Os where
  create_threadpool_ok : Bool
  set_minimum_ok : Bool
  deriving DecidableEq, Repr

/-- Member `thread_pool::create(minthreads, maxthreads)`: the returned flag. -/
def create (os : Os) (minthreads maxthreads : Nat) : Bool :=
  if minthreads ≥ min_threads ∧ maxthreads ≤ max_threads ∧ minthreads ≤ maxthreads then
    if os.create_threadpool_ok then
      if os.set_minimum_ok then true else false
    else false
  else false

end ThreadPool

namespace Proxy

/-- Structure `proxy::configuration`. -/
structure Config where
  nconnections : Nat
  timeout : Nat
  deriving DecidableEq, Repr

/-- Constant `proxy::min_connections`. -/
def min_connections : Nat := 1

/-- Constant `proxy::max_connections`. -/
def max_connections : Nat := 4096

/-- Constant `proxy::default_connections`. -/
def default_connections : Nat := 256

/-- Constant `proxy::min_timeout`. -/
def min_timeout : Nat := 5

/-- Constant `proxy::max_timeout`. -/
def max_timeout : Nat := 24 * 60 * 60

/-- Constant `proxy::default_timeout`. -/
def default_timeout : Nat := 30

/-- Member `proxy::create(minthreads, maxthreads, nconnections, timeout)`: the
returned flag and the configuration `_M_config` afterwards. -/
def create (os : ThreadPool.Os) (minthreads maxthreads nconnections timeout : Nat)
    (config : Config) : Bool × Config :=
  if nconnections ≥ min_connections ∧ nconnections ≤ max_connections ∧
      timeout ≥ min_timeout ∧ timeout ≤ max_timeout then
    if ThreadPool.create os minthreads maxthreads then
      (true, { nconnections := nconnections, timeout := timeout })
    else (false, config)
  else (false, config)

end Proxy

namespace Socket

/-- Constant `WSA_IO_PENDING` (`ERROR_IO_PENDING`, 997). -/
def WSA_IO_PENDING : Nat := 997

/-- The four `overlapped` members of a socket. -/
inductive Overlapped where
  /-- Member `_M_overlapped`, used by accept and connect. -/
  | overlapped
  /-- Member `_M_receiveov`. -/
  | receiveov
  /-- Member `_M_sendov`. -/
  | sendov
  /-- Member `_M_disconnectov`. -/
  | disconnectov
  deriving DecidableEq, Repr

/-- What the call that starts an operation (`AcceptEx`, `ConnectEx`, `WSARecv`,
`WSASend`, `DisconnectEx`) answers. -/
inductive Answer where
  /-- The call reports success; `transferred` is the byte count it stored. -/
  | success (transferred : Nat)
  /-- The call reports failure and `WSAGetLastError()` returns `error`;
  `transferred` is what the byte-count variable holds then. -/
  | failure (error : Nat) (transferred : Nat)
  deriving DecidableEq, Repr

/-- What the operating system answers while an operation is started: the
result of `init`, the result of `bind`, the answer of the call that starts the
operation, and the result of `update_accept_context` or
`update_connect_context`. -/
structure Os where
  init_error : Nat
  bind_error : Nat
  answer : Answer
  update_error : Nat
  deriving DecidableEq, Repr

/-- One invocation `_M_callback(op, error, transferred, _M_user)`. -/
structure Callback where
  op : operation
  error : Nat
  transferred : Nat
  deriving DecidableEq, Repr

/-- State of a `socket` as far as its callbacks are concerned, and of its
environment.  The handles `_M_sock` and `_M_io` are not followed.

`operation` is `_M_overlapped._M_operation`; the four flags are the
`_M_io_pending` members of the four `overlapped` structures; `callbacks` is
the history of invocations of the user callback; `queued` lists the
overlapped structures for which the thread pool still owes a completion.  As
`init` sets `FILE_SKIP_COMPLETION_PORT_ON_SUCCESS`, the operating system owes
a completion exactly for a call that answered `WSA_IO_PENDING`. -/
structure socket where
  operation : operation
  overlapped_pending : Bool
  receiveov_pending : Bool
  sendov_pending : Bool
  disconnectov_pending : Bool
  callbacks : List Callback
  queued : List Overlapped
  deriving DecidableEq, Repr

namespace socket

/-- Statement `_M_callback(op, error, transferred, _M_user)`. -/
def callback (op : Socket.operation) (error transferred : Nat) (s : socket) : socket :=
  { s with callbacks := s.callbacks ++ [{ op := op, error := error, transferred := transferred }] }

/-- Member `socket::accept(sock, addresses, addrlen)`, as it acts on the
accepted socket `sock`. -/
def accept (os : Os) (sock : socket) : socket :=
  if os.init_error ≠ 0 then callback .accept os.init_error 0 sock
  else
    let sock1 := { sock with operation := .accept }
    match os.answer with
    | .success _ =>
      if os.update_error = 0 then callback .accept 0 0 sock1
      else callback .accept os.update_error 0 sock1
    | .failure error _ =>
      if error = WSA_IO_PENDING then
        { sock1 with overlapped_pending := true, queued := sock1.queued ++ [.overlapped] }
      else callback .accept error 0 sock1

/-- Member `socket::connect(addr)`. -/
def connect (os : Os) (s : socket) : socket :=
  if os.init_error = 0 then
    if os.bind_error ≠ 0 then callback .connect os.bind_error 0 s
    else
      let s1 := { s with operation := .connect }
      match os.answer with
      | .success _ =>
        if os.update_error = 0 then callback .connect 0 0 s1
        else callback .connect os.update_error 0 s1
      | .failure error _ =>
        if error = WSA_IO_PENDING then
          { s1 with overlapped_pending := true, queued := s1.queued ++ [.overlapped] }
        else callback .connect error 0 s1
  else callback .connect os.init_error 0 s

/-- Member `socket::receive(buf, len, flags)`. -/
def receive (os : Os) (s : socket) : socket :=
  match os.answer with
  | .success received => callback .receive 0 received s
  | .failure error received =>
    if error = WSA_IO_PENDING then
      { s with receiveov_pending := true, queued := s.queued ++ [.receiveov] }
    else callback .receive error received s

/-- Member `socket::send(buf, len, flags)`. -/
def send (os : Os) (s : socket) : socket :=
  match os.answer with
  | .success sent => callback .send 0 sent s
  | .failure error sent =>
    if error = WSA_IO_PENDING then
      { s with sendov_pending := true, queued := s.queued ++ [.sendov] }
    else callback .send error sent s

/-- Member `socket::disconnect()`. -/
def disconnect (os : Os) (s : socket) : socket :=
  match os.answer with
  | .success _ => callback .disconnect 0 0 s
  | .failure error _ =>
    if error = WSA_IO_PENDING then
      { s with disconnectov_pending := true, queued := s.queued ++ [.disconnectov] }
    else callback .disconnect error 0 s

/-- The value `static_cast<class overlapped*>(overlapped)->operation()`: the
operation stored in the given overlapped structure. -/
def operation_of (s : socket) : Overlapped → Socket.operation
  | .overlapped => s.operation
  | .receiveov => .receive
  | .sendov => .send
  | .disconnectov => .disconnect

/-- Function `socket::io_completion_callback` for a completion of the given
overlapped structure with the given result and byte count; `update_error` is
what `update_accept_context` or `update_connect_context` returns if called. -/
def io_completion_callback (ov : Overlapped) (result transferred update_error : Nat)
    (s : socket) : socket :=
  match operation_of s ov with
  | .receive => callback .receive result transferred { s with receiveov_pending := false }
  | .send => callback .send result transferred { s with sendov_pending := false }
  | .accept =>
    let result1 := if result = 0 then update_error else result
    callback .accept result1 transferred { s with overlapped_pending := false }
  | .connect =>
    let result1 := if result = 0 then update_error else result
    callback .connect result1 transferred { s with overlapped_pending := false }
  | .disconnect =>
    callback .disconnect result transferred { s with disconnectov_pending := false }

/-- A socket as built by its constructor: no operation is outstanding and no
callback has run; `_M_overlapped._M_operation` is not initialised and holds
whatever `indeterminate` stands for. -/
def fresh (indeterminate : Socket.operation) : socket where
  operation := indeterminate
  overlapped_pending := false
  receiveov_pending := false
  sendov_pending := false
  disconnectov_pending := false
  callbacks := []
  queued := []

/-- The call that starts the given operation. -/
def start : Socket.operation → Os → socket → socket
  | .accept => accept
  | .connect => connect
  | .receive => receive
  | .send => send
  | .disconnect => disconnect

/-- The overlapped structure an operation uses. -/
def overlapped_of : Socket.operation → Overlapped
  | .accept => .overlapped
  | .connect => .overlapped
  | .receive => .receiveov
  | .send => .sendov
  | .disconnect => .disconnectov

/-- The flag `_M_io_pending` of an overlapped structure. -/
def io_pending (s : socket) : Overlapped → Bool
  | .overlapped => s.overlapped_pending
  | .receiveov => s.receiveov_pending
  | .sendov => s.sendov_pending
  | .disconnectov => s.disconnectov_pending

/-- The thread pool delivers the completion it owes for an overlapped
structure, if it owes one. -/
def complete (ov : Overlapped) (result transferred update_error : Nat) (s : socket) : socket :=
  if ov ∈ s.queued then
    io_completion_callback ov result transferred update_error { s with queued := s.queued.erase ov }
  else s

end socket

/-- Whether the operation is left pending by the operating system: the steps
before the call that starts it succeed, and that call fails with
`WSA_IO_PENDING`. -/
def Os.pending (os : Os) : operation → Bool
  | .accept => decide (os.init_error = 0) &&
      (match os.answer with | .failure error _ => decide (error = WSA_IO_PENDING) | _ => false)
  | .connect => decide (os.init_error = 0) && decide (os.bind_error = 0) &&
      (match os.answer with | .failure error _ => decide (error = WSA_IO_PENDING) | _ => false)
  | _ => match os.answer with | .failure error _ => decide (error = WSA_IO_PENDING) | _ => false

/-- An answer of the operating system that leaves the operation pending. -/
def sample_pending : Os :=
  { init_error := 0, bind_error := 0, answer := .failure WSA_IO_PENDING 0, update_error := 0 }

/-- An answer of the operating system that finishes the operation at once,
100 bytes having been transferred. -/
def sample_success : Os :=
  { init_error := 0, bind_error := 0, answer := .success 100, update_error := 0 }

end Socket

namespace Libc

/-- Function `tolower` in the "C" locale: the letters `A` to `Z` are mapped to
`a` to `z`, every other character to itself. -/
def tolower (c : Char) : Char :=
  if 'A'.toNat ≤ c.toNat ∧ c.toNat ≤ 'Z'.toNat then Char.ofNat (c.toNat + 32) else c

/-- Function `_stricmp` in the "C" locale: the two strings are compared
character by character after `tolower`; the result is the difference of the
first two characters that differ (the terminating NUL counting as 0), and 0
when there is none. -/
def _stricmp : List Char → List Char → Int
  | [], [] => 0
  | [], b :: _ => - ((tolower b).toNat : Int)
  | a :: _, [] => ((tolower a).toNat : Int)
  | a :: as, b :: bs =>
    if tolower a = tolower b then _stricmp as bs
    else ((tolower a).toNat : Int) - ((tolower b).toNat : Int)

/-- Constant `_S_IFDIR`. -/
def _S_IFDIR : Nat := 0x4000

end Libc

namespace Receiver

open Libc

/-- Constant `receiver::min_connections`. -/
def min_connections : Nat := 1

/-- Constant `receiver::max_connections`. -/
def max_connections : Nat := 4096

/-- Constant `receiver::min_timeout`. -/
def min_timeout : Nat := 5

/-- Constant `receiver::max_timeout`. -/
def max_timeout : Nat := 24 * 60 * 60

/-- Constant `receiver::min_file_size`. -/
def min_file_size : Nat := 4 * 1024

/-- Constant `receiver::max_file_size`. -/
def max_file_size : Nat := 1024 * 1024 * 1024

/-- Constant `receiver::min_file_age`. -/
def min_file_age : Nat := 1

/-- Constant `receiver::max_file_age`. -/
def max_file_age : Nat := 3600

/-- What `receiver::create` meets in its environment: the file system, as
`_stat64` sees it (the field `st_mode` of a path for which it returns 0), and
the answers given while the thread pool is created. -/
structure CreateEnv where
  stat64 : List Char → Option Nat
  pool : ThreadPool.Os

/-- The test `_stat64(path, &sbuf) == 0 && (sbuf.st_mode & _S_IFDIR) != 0`. -/
def is_directory (env : CreateEnv) (path : List Char) : Bool :=
  match env.stat64 path with
  | some st_mode => decide (st_mode &&& _S_IFDIR ≠ 0)
  | none => false

/-- Member `receiver::create(tmpdir, finaldir, minthreads, maxthreads,
nconnections, timeout, maxfilesize, maxfileage)`: the returned flag and the
configuration `_M_config` afterwards. -/
def create (env : CreateEnv) (tmpdir finaldir : List Char)
    (minthreads maxthreads nconnections timeout maxfilesize maxfileage : Nat)
    (config : Config) : Bool × Config :=
  if nconnections ≥ min_connections ∧ nconnections ≤ max_connections ∧
      timeout ≥ min_timeout ∧ timeout ≤ max_timeout ∧
      maxfilesize ≥ min_file_size ∧ maxfilesize ≤ max_file_size ∧
      maxfileage ≥ min_file_age ∧ maxfileage ≤ max_file_age then
    let tmpdirlen := tmpdir.length
    if tmpdirlen < MAX_PATH then
      let finaldirlen := finaldir.length
      if finaldirlen < MAX_PATH ∧ _stricmp tmpdir finaldir ≠ 0 ∧
          is_directory env tmpdir = true ∧ is_directory env finaldir = true then
        if ThreadPool.create env.pool minthreads maxthreads then
          (true, { nconnections := nconnections, tmpdir := tmpdir, finaldir := finaldir,
                   timeout := timeout, maxfilesize := maxfilesize, maxfileage := maxfileage })
        else (false, config)
      else (false, config)
    else (false, config)
  else (false, config)

/-- An environment in which every path is a directory and the thread pool can
be created. -/
def sample_create_env : CreateEnv :=
  { stat64 := fun _ => some _S_IFDIR,
    pool := { create_threadpool_ok := true, set_minimum_ok := true } }

end Receiver

namespace TestConnector

open Socket (operation)

/-- Structure `connection::buffer_view` of `test-connector.cpp`.  `data` is the
offset of the pointer from the start of the payload, the only memory a
connection sends from. -/
structure buffer_view where
  data : Nat
  length : Nat
  deriving DecidableEq, Repr

/-- The members of `configuration` that a connection reads: the values of
`number_transfers_per_connection()` and `number_loops()`, and the payload
`data()` of `length()` bytes. -/
structure Config where
  ntransfers : Nat
  nloops : Nat
  data : List Nat
  deriving DecidableEq, Repr

/-- A call made by a connection, or its decrement of the shared counter. -/
inductive Call where
  /-- Call `_M_sock.connect(_M_config.address())`. -/
  | connect
  /-- Call `_M_sock.send(buf, len)`, `buf` lying `data` bytes into the payload. -/
  | send (data : Nat) (len : Nat)
  /-- Call `_M_sock.cancel(operation::send)`. -/
  | cancel_send
  /-- Call `_M_sock.disconnect()`. -/
  | disconnect
  /-- Statement `::InterlockedDecrement(_M_nconnections)`. -/
  | decrement
  /-- Call `::SetEvent(stop_event)`. -/
  | set_event
  deriving DecidableEq, Repr

/-- One connection and its socket.  The first three fields are the data
members `_M_ntransfers`, `_M_nloops` and `_M_sendbuf`; the others are the
environment: which operation is outstanding on the socket, the bytes reported
as transferred by send completions, and the history of calls. -/
structure Conn where
  ntransfers : Nat
  nloops : Nat
  sendbuf : buffer_view
  connecting : Bool
  sending : Option buffer_view
  disconnecting : Bool
  wire : List Nat
  calls : List Call
  deriving DecidableEq, Repr

/-- What a callback of one connection can reach: the configuration, the
connection itself, the counter `connections::_M_nrunning` that
`_M_nconnections` points to, and the number of times the global `stop_event`
has been set. -/
structure State where
  config : Config
  conn : Conn
  nrunning : Nat
  stop_event : Nat
  deriving DecidableEq, Repr

/-- The socket layer as seen by the connection. -/
abbrev Layer := Call → State → State

namespace connection

/-- Member `connection::connect`. -/
def connect (io : Layer) (s : State) : State :=
  io .connect s

/-- Member `connection::send(buf, len)`. -/
def send (io : Layer) (buf : Nat) (len : Nat) (s : State) : State :=
  io (.send buf len) { s with conn := { s.conn with sendbuf := { data := buf, length := len } } }

/-- Member `connection::connected`; `_M_config.length()` is converted to
`DWORD`. -/
def connected (io : Layer) (s : State) : State :=
  send io 0 (s.config.data.length % 2 ^ 32) { s with conn := { s.conn with ntransfers := 0 } }

/-- Member `connection::close`. -/
def close (io : Layer) (s : State) : State :=
  io .disconnect (io .cancel_send s)

/-- Member `connection::sent(count)`; the counter is `unsigned` and the
subtraction is on `DWORD`. -/
def sent (io : Layer) (count : Nat) (s : State) : State :=
  if count = s.conn.sendbuf.length then
    let s1 := { s with conn := { s.conn with ntransfers := (s.conn.ntransfers + 1) % 2 ^ 32 } }
    if s1.conn.ntransfers < s1.config.ntransfers then
      send io 0 (s1.config.data.length % 2 ^ 32) s1
    else
      close io s1
  else
    send io (s.conn.sendbuf.data + count) ((s.conn.sendbuf.length + 2 ^ 32 - count) % 2 ^ 32) s

/-- Member `connection::disconnected`; the counter `_M_nloops` is `unsigned`
and `InterlockedDecrement` acts on a 32-bit counter. -/
def disconnected (io : Layer) (s : State) : State :=
  let s1 := { s with conn := { s.conn with nloops := (s.conn.nloops + 1) % 2 ^ 32 } }
  if s1.conn.nloops < s1.config.nloops then
    connect io s1
  else
    let s2 := { s1 with nrunning := (s1.nrunning + 2 ^ 32 - 1) % 2 ^ 32,
                        conn := { s1.conn with calls := s1.conn.calls ++ [.decrement] } }
    if s2.nrunning = 0 then io .set_event s2 else s2

/-- Constant `WSA_OPERATION_ABORTED` (`ERROR_OPERATION_ABORTED`, 995). -/
def WSA_OPERATION_ABORTED : Nat := 995

/-- Member `connection::complete(op, error, transferred)`. -/
def complete (io : Layer) (op : operation) (error transferred : Nat) (s : State) : State :=
  if error = 0 then
    match op with
    | .send => sent io transferred s
    | .disconnect => disconnected io s
    | .connect => connected io s
    | .accept => s
    | .receive => s
  else
    match op with
    | .send => if error ≠ WSA_OPERATION_ABORTED then close io s else s
    | .disconnect => disconnected io s
    | .accept => s
    | .connect => s
    | .receive => s

end connection

/-- The socket layer when the operating system reports every operation as
pending: the call is recorded, the operation becomes outstanding, and no
callback runs before the call returns.  Setting the event is counted. -/
def pending : Layer := fun call s =>
  let conn := { s.conn with calls := s.conn.calls ++ [call] }
  match call with
  | .connect => { s with conn := { conn with connecting := true } }
  | .send data len => { s with conn := { conn with sending := some { data := data, length := len } } }
  | .disconnect => { s with conn := { conn with disconnecting := true } }
  | .set_event => { s with conn := conn, stop_event := s.stop_event + 1 }
  | _ => { s with conn := conn }

/-- The connections of the program, the shared counter
`connections::_M_nrunning` and the number of times `stop_event` has been
set. -/
structure System where
  config : Config
  conns : List Conn
  nrunning : Nat
  stop_event : Nat
  deriving DecidableEq, Repr

/-- A connection as built by its constructor: `_M_nloops` is 0, while
`_M_ntransfers` and `_M_sendbuf` are not initialised and hold whatever the
memory held. -/
def fresh (ntransfers : Nat) (sendbuf : buffer_view) : Conn where
  ntransfers := ntransfers
  nloops := 0
  sendbuf := sendbuf
  connecting := false
  sending := none
  disconnecting := false
  wire := []
  calls := []

/-- The state a callback of the given connection works on. -/
def System.view (sys : System) (conn : Conn) : State :=
  { config := sys.config, conn := conn, nrunning := sys.nrunning, stop_event := sys.stop_event }

/-- The system after a callback of the connection with the given index has
returned in the given state. -/
def System.merge (sys : System) (index : Nat) (s : State) : System :=
  { config := sys.config, conns := sys.conns.set index s.conn, nrunning := s.nrunning,
    stop_event := s.stop_event }

/-- The loop of `connections::create` that calls `connect()` on every
connection, the connections from `index` on being still to be connected. -/
def connect_all : Nat → Nat → System → System
  | 0, _, sys => sys
  | remaining + 1, index, sys =>
    match sys.conns[index]? with
    | some conn =>
      connect_all remaining (index + 1)
        (sys.merge index (connection.connect pending (sys.view conn)))
    | none => sys

/-- Member `connections::create(config, callbackenv)` when `malloc` and every
`new` succeed: `indeterminate` gives the values the uninitialised members of
each new connection hold; `_M_nrunning` is set by a conversion to `uint32_t`. -/
def create (config : Config) (nconnections : Nat) (indeterminate : Nat → Nat × buffer_view) :
    System :=
  connect_all nconnections 0
    { config := config,
      conns := (List.range nconnections).map
        (fun i => fresh (indeterminate i).1 (indeterminate i).2),
      nrunning := nconnections % 2 ^ 32,
      stop_event := 0 }

/-- A completion delivered by the thread pool to the connection with the
given index. -/
structure Event where
  index : Nat
  op : operation
  error : Nat
  transferred : Nat
  deriving DecidableEq, Repr

/-- The environment after an operation of a connection completed: it is no
longer outstanding, and the bytes a send completion reports are those at the
start of the range the send was given. -/
def settle (config : Config) (op : operation) (transferred : Nat) (conn : Conn) : Conn :=
  match op with
  | .connect => { conn with connecting := false }
  | .disconnect => { conn with disconnecting := false }
  | .send =>
    match conn.sending with
    | some v =>
      { conn with sending := none,
                  wire := conn.wire ++ (config.data.drop v.data).take transferred }
    | none => conn
  | _ => conn

/-- Whether the completion of the given operation can be delivered to the
connection: the operation is outstanding, and a send completion reports at
least 1 byte and at most the length of the send. -/
def Conn.awaits (conn : Conn) (op : operation) (transferred : Nat) : Bool :=
  match op with
  | .connect => conn.connecting
  | .disconnect => conn.disconnecting
  | .send =>
    match conn.sending with
    | some v => decide (1 ≤ transferred) && decide (transferred ≤ v.length)
    | none => false
  | _ => false

/-- A completion without error of an operation that is outstanding on its
connection. -/
def deliverable (sys : System) (e : Event) : Bool :=
  match sys.conns[e.index]? with
  | some conn => decide (e.error = 0) && conn.awaits e.op e.transferred
  | none => false

/-- The callback of a connection runs for a completion, every operation it
starts being reported as pending. -/
def handle (s : State) (op : operation) (error transferred : Nat) : State :=
  connection.complete pending op error transferred
    { s with conn := settle s.config op transferred s.conn }

/-- Delivery of one completion to its connection. -/
def deliver (sys : System) (e : Event) : System :=
  match sys.conns[e.index]? with
  | some conn => sys.merge e.index (handle (sys.view conn) e.op e.error e.transferred)
  | none => sys

/-- A sequence of completions each of which is deliverable when its turn comes. -/
def deliverable_all : System → List Event → Bool
  | _, [] => true
  | sys, e :: es => deliverable sys e && deliverable_all (deliver sys e) es

/-- State after delivering a sequence of completions. -/
def run : System → List Event → System
  | sys, [] => sys
  | sys, e :: es => run (deliver sys e) es

/-- No operation is outstanding on the socket of the connection. -/
def Conn.quiet (conn : Conn) : Bool :=
  !conn.connecting && conn.sending.isNone && !conn.disconnecting

/-- No operation is outstanding on any socket: no further completion will be
delivered. -/
def System.quiet (sys : System) : Bool :=
  sys.conns.all Conn.quiet

/-- The payload repeated `count` times. -/
def repeated (config : Config) (count : Nat) : List Nat :=
  (List.replicate count config.data).flatten

/-- Where a connection stands between two callbacks, for a configuration of
`T` transfers, `K` loops and a payload of `L` bytes.

* `connecting`: the connect of session `nloops + 1` is outstanding; the bytes
  sent so far are `T * nloops` payloads.
* `sending`: a send of the rest of the payload from offset `data` on is
  outstanding in session `nloops + 1`, `ntransfers` payloads of the session
  having been sent in full.
* `disconnecting`: the disconnect of session `nloops + 1` is outstanding, and
  the bytes sent so far are `T * (nloops + 1)` payloads.
* `finished`: nothing is outstanding, `K` sessions were made, the bytes sent
  are `T * K` payloads, and the connection has decremented the shared counter
  once.

In each case the connection has started as many connects as it has begun
sessions and as many disconnects as it has ended sessions. -/
inductive Phase (config : Config) (conn : Conn) : Prop where
  | connecting
    (outstanding : conn.connecting = true ∧ conn.sending = none ∧ conn.disconnecting = false)
    (loops : conn.nloops < config.nloops)
    (wire : conn.wire = repeated config (config.ntransfers * conn.nloops))
    (connects : conn.calls.count .connect = conn.nloops + 1)
    (disconnects : conn.calls.count .disconnect = conn.nloops)
    (decrements : conn.calls.count .decrement = 0)
  | sending (view : buffer_view)
    (outstanding : conn.connecting = false ∧ conn.sending = some view ∧
      conn.disconnecting = false)
    (loops : conn.nloops < config.nloops)
    (transfers : conn.ntransfers < config.ntransfers)
    (saved : conn.sendbuf = view)
    (range : view.data + view.length = config.data.length ∧ 1 ≤ view.length)
    (wire : conn.wire =
      repeated config (config.ntransfers * conn.nloops + conn.ntransfers) ++
        config.data.take view.data)
    (connects : conn.calls.count .connect = conn.nloops + 1)
    (disconnects : conn.calls.count .disconnect = conn.nloops)
    (decrements : conn.calls.count .decrement = 0)
  | disconnecting
    (outstanding : conn.connecting = false ∧ conn.sending = none ∧ conn.disconnecting = true)
    (loops : conn.nloops < config.nloops)
    (wire : conn.wire = repeated config (config.ntransfers * (conn.nloops + 1)))
    (connects : conn.calls.count .connect = conn.nloops + 1)
    (disconnects : conn.calls.count .disconnect = conn.nloops + 1)
    (decrements : conn.calls.count .decrement = 0)
  | finished
    (outstanding : conn.connecting = false ∧ conn.sending = none ∧ conn.disconnecting = false)
    (loops : conn.nloops = config.nloops)
    (wire : conn.wire = repeated config (config.ntransfers * config.nloops))
    (connects : conn.calls.count .connect = config.nloops)
    (disconnects : conn.calls.count .disconnect = config.nloops)
    (decrements : conn.calls.count .decrement = 1)

/-- Whether an operation is outstanding on the socket of the connection, as a
number. -/
def Conn.active (conn : Conn) : Nat := if conn.quiet then 0 else 1

/-- How far a connection has got, counted in completions: `T * L + 2` for
every session ended, 1 for the connect of the session under way, the bytes of
the session already sent, and one more for a session whose disconnect is
outstanding.  Every completion delivered raises it by at least 1. -/
def Conn.progress (config : Config) (conn : Conn) : Nat :=
  conn.nloops * (config.ntransfers * config.data.length + 2) +
    (if conn.disconnecting then 1 + config.ntransfers * config.data.length
     else
       match conn.sending with
       | some v => 1 + conn.ntransfers * config.data.length + v.data
       | none => 0)

/-- The configuration is one that `configuration::parse` can produce, as far
as the connections depend on it: at least one transfer, one loop and one byte,
each number fitting its 32-bit type. -/
def Config.valid (config : Config) : Prop :=
  1 ≤ config.ntransfers ∧ config.ntransfers < 2 ^ 32 ∧
  1 ≤ config.nloops ∧ config.nloops < 2 ^ 32 ∧
  1 ≤ config.data.length ∧ config.data.length < 2 ^ 32

/-- Invariant of the program between two callbacks: every connection is in
one of its phases, the shared counter is the number of connections with an
operation outstanding, and the stop event has been set once if that number is
0 and never otherwise. -/
structure Invariant (config : Config) (nconnections : Nat) (sys : System) : Prop where
  config_eq : sys.config = config
  length_eq : sys.conns.length = nconnections
  phases : ∀ conn ∈ sys.conns, Phase config conn
  running : sys.nrunning = (sys.conns.map Conn.active).sum
  stop : sys.stop_event = if sys.nrunning = 0 then 1 else 0

/-- The events of one connection that sends every payload in one piece: for
each loop a connect completion, `ntransfers` send completions of `length`
bytes and a disconnect completion. -/
def whole_sessions (index ntransfers nloops length : Nat) : List Event :=
  (List.replicate nloops
    ([{ index := index, op := .connect, error := 0, transferred := 0 }] ++
     List.replicate ntransfers { index := index, op := .send, error := 0, transferred := length } ++
     [{ index := index, op := .disconnect, error := 0, transferred := 0 }])).flatten

/-- A sample configuration: 3 transfers per connection, 2 loops, a payload of
1024 bytes `'0'`. -/
def sample_config : Config :=
  { ntransfers := 3, nloops := 2, data := List.replicate 1024 48 }

/-- A sample run of 4 connections with the sample configuration, each
connection finishing before the next one starts. -/
def sample_run : List Event :=
  whole_sessions 0 3 2 1024 ++ whole_sessions 1 3 2 1024 ++ whole_sessions 2 3 2 1024 ++
    whole_sessions 3 3 2 1024

end TestConnector

namespace TestConnector

open Address (is_digit)

/-- Constant `ULLONG_MAX`, the default of the parameter `max` of
`configuration::parse`. -/
def ULLONG_MAX : Nat := 2 ^ 64 - 1

namespace configuration

/-- The loop of `configuration::parse(s, n, min, max)`, started with the
accumulator `res`.  The assignment `tmp = (res * 10) + (*s - '0')` is carried
out on `uint64_t`, hence modulo `2 ^ 64`.  `none` is the early
`return false`. -/
def parse_loop (max : Nat) : List Char → Nat → Option Nat
  | [], res => some res
  | c :: s, res =>
    if is_digit c then
      let tmp := (res * 10 + (c.toNat - 48)) % 2 ^ 64
      if tmp ≥ res ∧ tmp ≤ max then parse_loop max s tmp else none
    else none

/-- Function `configuration::parse(const char* s, uint64_t& n, uint64_t min,
uint64_t max)`.  The second argument is the value of `n` on entry; the result
is the returned flag and the value of `n` on exit. -/
def parse (s : List Char) (n min max : Nat) : Bool × Nat :=
  match s with
  | [] => (false, n)
  | _ :: _ =>
    match parse_loop max s 0 with
    | some res => if res ≥ min then (true, res) else (false, n)
    | none => (false, n)

end configuration

end TestConnector

namespace Proxy

open Socket (operation)

/-- What a socket reports when an operation is started on it: either the
operation is pending (its completion arrives later through the thread pool),
or the call that starts it has finished at once, with or without error, and
`_M_callback(op, error, transferred, _M_user)` runs before the call returns. -/
inductive Outcome where
  | pending
  | completed (error transferred : Nat)
  deriving DecidableEq, Repr

/-- The socket layer when the operating system may finish an operation at
once: `answer` tells what each call reports, and the completion callback of an
operation that finished at once runs inside the call, with the same layer
below it.  `depth` bounds the nesting of such callbacks: operations started
`depth` callbacks deep are reported as pending.  The contents of the buffers
are not followed here; for those see `deliver`. -/
def inline (answer : Call → Outcome) : Nat → Layer
  | 0 => pending
  | depth + 1 => fun call s =>
    match answer call with
    | .pending => pending call s
    | .completed error transferred =>
      let s1 := { s with calls := s.calls ++ [call] }
      match call with
      | .accept => server.complete (inline answer depth) .accept error 0 s1
      | .connect => client.complete (inline answer depth) .connect error 0 s1
      | .receive .server => server.complete (inline answer depth) .receive error transferred s1
      | .receive .client => client.complete (inline answer depth) .receive error transferred s1
      | .send .server _ _ => server.complete (inline answer depth) .send error transferred s1
      | .send .client _ _ => client.complete (inline answer depth) .send error transferred s1
      | .disconnect .server => server.complete (inline answer depth) .disconnect error 0 s1
      | .disconnect .client => client.complete (inline answer depth) .disconnect error 0 s1
      | .cancel _ _ => s1
      | .timer_expires_in _ => s1
      | .timer_cancel => s1

/-- Constant `WSAENETUNREACH` (10051). -/
def WSAENETUNREACH : Nat := 10051

/-- An operating system on which `DisconnectEx` and `AcceptEx` finish at once
with success and `ConnectEx` fails at once with `WSAENETUNREACH`; receives and
sends are pending. -/
def unreachable_remote : Call → Outcome
  | .disconnect _ => .completed 0 0
  | .accept => .completed 0 0
  | .connect => .completed WSAENETUNREACH 0
  | _ => .pending

/-- An operating system on which `DisconnectEx`, `AcceptEx` and `ConnectEx`
finish at once with success; receives and sends are pending. -/
def instant_remote : Call → Outcome
  | .disconnect _ => .completed 0 0
  | .accept => .completed 0 0
  | .connect => .completed 0 0
  | _ => .pending

/-- The state of an established session with a timeout of 30 seconds in which
three bytes have arrived from the accepted peer and are being sent to the
remote peer: the timer is armed. -/
def relaying : State :=
  deliver (established 30) (.received .server [1, 2, 3])

end Proxy

namespace Receiver

/-- A session in which the connection is closed by its timer while a file
write is outstanding: the connection is accepted, three bytes are received and
their write to a new file is started, the connection timer fires, the
disconnect completes and the next connection is accepted. -/
def write_overtaken_session : List Step :=
  [{ event := .accept_done 0, outcomes := [], opens := [] },
   { event := .receive_done 0 [1, 2, 3], outcomes := [], opens := [true] },
   { event := .connection_timer_fired, outcomes := [], opens := [] },
   { event := .disconnect_done 0, outcomes := [], opens := [] },
   { event := .accept_done 0, outcomes := [], opens := [] }]

end Receiver

namespace Proxy

/-- Class `proxy::acceptors`: the capacity `_M_size` of the array and the
number `_M_used` of acceptors stored in it.  The acceptors themselves are not
followed here. -/
structure Acceptors where
  size : Nat
  used : Nat
  deriving DecidableEq, Repr

/-- What `proxy::acceptors::listen` meets in its environment: whether
`realloc` returns memory, whether the acceptor can be allocated, and what
`acceptor->listen(local, remote, callbackenv)` returns. -/
structure AcceptorsEnv where
  realloc_ok : Bool
  new_ok : Bool
  listen_ok : Bool
  deriving DecidableEq, Repr

namespace acceptors

/-- Constant `acceptors::allocation`. -/
def allocation : Nat := 8

/-- The container built by the default constructor. -/
def empty : Acceptors := { size := 0, used := 0 }

/-- Member `acceptors::allocate`. -/
def allocate (realloc_ok : Bool) (a : Acceptors) : Bool × Acceptors :=
  if a.used < a.size then (true, a)
  else
    let size := if a.size > 0 then a.size * 2 else allocation
    if realloc_ok then (true, { a with size := size }) else (false, a)

/-- Member `acceptors::listen(local, remote, config, callbackenv)`. -/
def listen (env : AcceptorsEnv) (a : Acceptors) : Bool × Acceptors :=
  let r := allocate env.realloc_ok a
  if r.1 then
    if env.new_ok then
      if env.listen_ok then (true, { r.2 with used := r.2.used + 1 })
      else (false, r.2)
    else (false, r.2)
  else (false, r.2)

/-- The container after a sequence of calls of `acceptors::listen`. -/
def listen_all : Acceptors → List AcceptorsEnv → Acceptors
  | a, [] => a
  | a, env :: envs => listen_all (listen env a).2 envs

end acceptors

end Proxy

namespace Tcp

/-- Shape of the capacity of a container of acceptors: the capacity is 0 or
8 times a power of 2, the number of stored acceptors does not exceed it, and
the capacity is at most 8 or at most twice the number of stored acceptors (so
that doubling it stays far below `2 ^ 64` for any number of acceptors a
process can hold). -/
def Geometric (size used : Nat) : Prop :=
  (size = 0 ∨ ∃ j, size = 8 * 2 ^ j) ∧ used ≤ size ∧ (size ≤ 8 ∨ size ≤ 2 * used)

/-- What one call of `listen` may do to the capacity and to the number of
stored acceptors: the capacity changes only when the container is full, and
then from 0 to 8 or to its double; a failed call keeps the number of stored
acceptors and a successful call adds one. -/
def Grows (size used : Nat) (ok : Bool) (size_after used_after : Nat) : Prop :=
  (size_after ≠ size →
    used = size ∧ ((size = 0 ∧ size_after = 8) ∨ (0 < size ∧ size_after = 2 * size))) ∧
  (ok = false → used_after = used) ∧
  (ok = true → used_after = used + 1)

end Tcp

namespace Address

/-- What a call of `to_string` does with memory: whether it returns `dst`
(rather than `nullptr`), how many leading bytes of `sun_path` it reads, and how
many leading bytes of `dst` it writes. -/
structure Access where
  returned : Bool
  read : Nat
  written : Nat
  deriving DecidableEq, Repr

/-- The `AF_UNIX` branch of `address::to_string(dst, size)`, followed at the
level of memory.  `sun_path` is the content of the array `sin->sun_path`, of
which the first `pathlen = _M_length - offsetof(struct sockaddr_un, sun_path)`
bytes were stored by `build` and the others are whatever the object held
before.  The test reads `sun_path[0]`.  In the first branch `memcpy` reads and
writes `pathlen` bytes.  In the second branch one byte is stored at `dst`,
`memcpy` moves `pathlen - 1` bytes (a `size_t` difference) from `sun_path + 1`
to `dst + 1`, and one byte is stored at `dst[pathlen]`. -/
def to_string_unix (sun_path : Nat → Char) (pathlen size : Nat) : Access :=
  if sun_path 0 ≠ NUL then
    if pathlen ≤ size then
      { returned := true, read := max 1 pathlen, written := pathlen }
    else
      { returned := false, read := 1, written := 0 }
  else
    if pathlen < size then
      let count := (pathlen + 2 ^ 64 - 1) % 2 ^ 64
      { returned := true, read := 1 + count, written := max (1 + count) (pathlen + 1) }
    else
      { returned := false, read := 1, written := 0 }

/-- The array `sun_path` of an address object that was zeroed before the given
bytes were stored at its start. -/
def zeroed (stored : List Char) : Nat → Char :=
  fun i => stored.getD i NUL

end Address

/-! ## Theorems -/

namespace Address

open Libc

theorem is_digit_iff (c : Char) : is_digit c = true ↔ 48 ≤ c.toNat ∧ c.toNat ≤ 57 := by
  simp [is_digit]

theorem decimal_value_from_cons (n : Nat) (c : Char) (s : List Char) :
    decimal_value_from n (c :: s) = decimal_value_from (n * 10 + (c.toNat - 48)) s := rfl

theorem le_decimal_value_from (s : List Char) : ∀ n, n ≤ decimal_value_from n s := by
  induction s with
  | nil => intro n; exact Nat.le_refl _
  | cons c s ih =>
    intro n
    rw [decimal_value_from_cons]
    have := ih (n * 10 + (c.toNat - 48))
    omega

/-- The loop of `parse_port` succeeds exactly on digit strings whose value stays
within 65535, and then returns that value. -/
theorem parse_port_loop_spec (s : List Char) : ∀ n, n ≤ 65535 →
    (parse_port_loop s n = some (decimal_value_from n s) ∧ all_digits s ∧
        decimal_value_from n s ≤ 65535) ∨
    (parse_port_loop s n = none ∧ ¬ (all_digits s ∧ decimal_value_from n s ≤ 65535)) := by
  induction s with
  | nil =>
    intro n hn
    left
    refine ⟨rfl, ?_, hn⟩
    intro c hc
    cases hc
  | cons c s ih =>
    intro n hn
    by_cases hd : is_digit c = true
    · have hc := (is_digit_iff c).1 hd
      have hsmall : n * 10 + (c.toNat - 48) < 2 ^ 32 := by omega
      have hmod : (n * 10 + (c.toNat - 48)) % 2 ^ 32 = n * 10 + (c.toNat - 48) :=
        Nat.mod_eq_of_lt hsmall
      by_cases hle : n * 10 + (c.toNat - 48) ≤ 65535
      · rcases ih _ hle with ⟨h1, h2, h3⟩ | ⟨h1, h2⟩
        · left
          refine ⟨?_, ?_, ?_⟩
          · simp only [parse_port_loop, hd, hmod, hle, if_true]
            rw [decimal_value_from_cons]; exact h1
          · intro x hx
            rcases List.mem_cons.1 hx with rfl | hx
            · exact hd
            · exact h2 x hx
          · rw [decimal_value_from_cons]; exact h3
        · right
          refine ⟨?_, ?_⟩
          · simp only [parse_port_loop, hd, hmod, hle, if_true]
            exact h1
          · rintro ⟨ha, hv⟩
            apply h2
            refine ⟨fun x hx => ha x (List.mem_cons_of_mem _ hx), ?_⟩
            rw [decimal_value_from_cons] at hv; exact hv
      · right
        refine ⟨?_, ?_⟩
        · simp only [parse_port_loop, hd, hmod, hle, if_true, if_false]
        · rintro ⟨_, hv⟩
          rw [decimal_value_from_cons] at hv
          have := le_decimal_value_from s (n * 10 + (c.toNat - 48))
          omega
    · right
      refine ⟨?_, ?_⟩
      · simp [parse_port_loop, hd]
      · rintro ⟨ha, _⟩
        exact hd (ha c (List.mem_cons_self _ _))

/-- Every value the accumulator of `parse_port` takes fits in 32 bits. -/
theorem parse_port_accs_lt (s : List Char) : ∀ n, n ≤ 65535 →
    ∀ v ∈ parse_port_accs s n, v < 2 ^ 32 := by
  induction s with
  | nil => intro n _ v hv; cases hv
  | cons c s ih =>
    intro n hn v hv
    by_cases hd : is_digit c = true
    · have hc := (is_digit_iff c).1 hd
      have hsmall : n * 10 + (c.toNat - 48) < 2 ^ 32 := by omega
      have hmod : (n * 10 + (c.toNat - 48)) % 2 ^ 32 = n * 10 + (c.toNat - 48) :=
        Nat.mod_eq_of_lt hsmall
      by_cases hle : n * 10 + (c.toNat - 48) ≤ 65535
      · simp only [parse_port_accs, hd, hmod, hle, if_true, List.mem_cons] at hv
        rcases hv with rfl | hv
        · exact hsmall
        · exact ih _ hle v hv
      · simp only [parse_port_accs, hd, hmod, hle, if_true, if_false, List.mem_singleton] at hv
        subst hv; exact hsmall
    · simp [parse_port_accs, hd] at hv

/-- C5. `parse_port(s, port)` returns `true` if and only if `s` is a non-empty
string of decimal digits whose numeric value lies in 1..65535; on `true` the
output port is that value, on `false` the output port keeps its value on entry;
and no value assigned to the `unsigned` accumulator exceeds the 32-bit range. -/
theorem parse_port_correct (s : List Char) (port : Nat) :
    ((parse_port s port).1 = true ↔
      (s ≠ [] ∧ all_digits s ∧ 1 ≤ decimal_value s ∧ decimal_value s ≤ 65535)) ∧
    ((parse_port s port).1 = true → (parse_port s port).2 = decimal_value s) ∧
    ((parse_port s port).1 = false → (parse_port s port).2 = port) ∧
    (∀ v ∈ parse_port_accs s 0, v < 2 ^ 32) := by
  have hne : decimal_value s ≥ 1 → s ≠ [] := by
    intro h hs
    subst hs
    simp [decimal_value, decimal_value_from] at h
  refine ⟨?_, ?_, ?_, parse_port_accs_lt s 0 (by omega)⟩
  · rcases parse_port_loop_spec s 0 (by omega) with ⟨h1, h2, h3⟩ | ⟨h1, h2⟩
    · unfold parse_port decimal_value
      rw [h1]
      by_cases hpos : decimal_value_from 0 s > 0
      · simp only [hpos, if_true, true_iff]
        exact ⟨hne hpos, h2, hpos, h3⟩
      · simp only [hpos, if_false, Bool.false_eq_true, false_iff]
        rintro ⟨_, _, h, _⟩
        exact hpos h
    · unfold parse_port
      rw [h1]
      simp only [Bool.false_eq_true, false_iff]
      rintro ⟨_, ha, _, hv⟩
      exact h2 ⟨ha, hv⟩
  · rcases parse_port_loop_spec s 0 (by omega) with ⟨h1, h2, h3⟩ | ⟨h1, h2⟩
    · unfold parse_port decimal_value
      rw [h1]
      by_cases hpos : decimal_value_from 0 s > 0
      · simp only [hpos, if_true, true_implies]
        exact Nat.mod_eq_of_lt (by omega)
      · simp [hpos]
    · unfold parse_port
      rw [h1]
      simp
  · rcases parse_port_loop_spec s 0 (by omega) with ⟨h1, h2, h3⟩ | ⟨h1, h2⟩
    · unfold parse_port
      rw [h1]
      by_cases hpos : decimal_value_from 0 s > 0
      · simp [hpos]
      · simp [hpos]
    · unfold parse_port
      rw [h1]
      intro _
      rfl

theorem digitChar_toNat (d : Nat) (h : d < 10) : (Nat.digitChar d).toNat = 48 + d := by
  interval_cases d <;> rfl

theorem is_digit_digitChar (d : Nat) (h : d < 10) : is_digit (Nat.digitChar d) = true := by
  rw [is_digit_iff, digitChar_toNat d h]; omega

theorem parse_port_loop_toDigitsCore (fuel : Nat) : ∀ (n : Nat) (acc : List Char),
    n < fuel → n ≤ 65535 →
    parse_port_loop (Nat.toDigitsCore 10 fuel n acc) 0 = parse_port_loop acc n := by
  induction fuel with
  | zero => intro n acc h; omega
  | succ fuel ih =>
    intro n acc hf hn
    have hd : n % 10 < 10 := Nat.mod_lt _ (by omega)
    have hstep : parse_port_loop (Nat.digitChar (n % 10) :: acc) (n / 10) =
        parse_port_loop acc n := by
      have h1 : (n / 10 * 10 + ((Nat.digitChar (n % 10)).toNat - 48)) % 2 ^ 32 = n := by
        rw [digitChar_toNat _ hd]
        have : n / 10 * 10 + (48 + n % 10 - 48) = n := by omega
        rw [this]; exact Nat.mod_eq_of_lt (by omega)
      simp only [parse_port_loop, is_digit_digitChar _ hd, h1, hn, if_true]
    by_cases h0 : n / 10 = 0
    · simp only [Nat.toDigitsCore, h0, if_true]
      rw [← hstep, h0]
    · simp only [Nat.toDigitsCore, h0, if_false]
      rw [ih (n / 10) _ (by omega) (by omega)]
      exact hstep

theorem parse_port_utoa (p port : Nat) (h1 : 1 ≤ p) (h2 : p ≤ 65535) :
    parse_port (utoa p) port = (true, p) := by
  have h := parse_port_loop_toDigitsCore (p + 1) p [] (by omega) h2
  unfold parse_port utoa Nat.toDigits
  rw [h]
  have hp : p > 0 := h1
  simp only [parse_port_loop, hp, if_true]
  rw [Nat.mod_eq_of_lt (by omega)]

theorem toDigitsCore_digits (fuel : Nat) : ∀ (n : Nat) (acc : List Char),
    (∀ c ∈ acc, is_digit c = true) →
    ∀ c ∈ Nat.toDigitsCore 10 fuel n acc, is_digit c = true := by
  induction fuel with
  | zero => intro n acc h c hc; exact h c hc
  | succ fuel ih =>
    intro n acc h
    have hd : n % 10 < 10 := Nat.mod_lt _ (by omega)
    have hacc : ∀ c ∈ Nat.digitChar (n % 10) :: acc, is_digit c = true := by
      intro c hc
      rcases List.mem_cons.1 hc with rfl | hc
      · exact is_digit_digitChar _ hd
      · exact h c hc
    by_cases h0 : n / 10 = 0
    · simp only [Nat.toDigitsCore, h0, if_true]; exact hacc
    · simp only [Nat.toDigitsCore, h0, if_false]; exact ih _ _ hacc

theorem utoa_digits (n : Nat) : ∀ c ∈ utoa n, is_digit c = true :=
  toDigitsCore_digits _ _ _ (by intro c hc; cases hc)

theorem strrchr_eq_none (c : Char) (s : List Char) (h : c ∉ s) : strrchr s c = none := by
  induction s with
  | nil => rfl
  | cons x s ih =>
    have hx : x ≠ c := fun e => h (e ▸ List.mem_cons_self _ _)
    have hs : c ∉ s := fun e => h (List.mem_cons_of_mem _ e)
    simp [strrchr, ih hs, hx]

theorem strrchr_append (c : Char) (xs ys : List Char) (h : c ∉ ys) :
    strrchr (xs ++ c :: ys) c = some xs.length := by
  induction xs with
  | nil => simp [strrchr, strrchr_eq_none c ys h]
  | cons x xs ih => simp [strrchr, ih]

theorem c_str_append (t : List Char) (h : NUL ∉ t) : c_str (t ++ [NUL]) = some t := by
  induction t with
  | nil => simp [c_str]
  | cons x t ih =>
    have hx : x ≠ NUL := fun e => h (e ▸ List.mem_cons_self _ _)
    have ht : NUL ∉ t := fun e => h (List.mem_cons_of_mem _ e)
    simp [c_str, hx, ih ht]

theorem not_digit_colon : is_digit ':' = false := by decide
theorem not_digit_NUL : is_digit NUL = false := by decide


theorem extract_ip_port_inet (P : Platform) (ip : List Char) (p port : Nat)
    (h0 : ip ≠ []) (hb : ip.head? ≠ some '[') (hl : ip.length < P.INET6_ADDRSTRLEN)
    (h1 : 1 ≤ p) (h2 : p ≤ 65535) :
    extract_ip_port P (ip ++ ':' :: utoa p) port = some (ip, p) := by
  have hc : ':' ∉ utoa p := by
    intro h
    have := utoa_digits p _ h
    rw [not_digit_colon] at this
    cases this
  have hlen : ip.length > 0 := List.length_pos.2 h0
  have hhead : (ip ++ ':' :: utoa p).head? = ip.head? := by
    cases ip with
    | nil => exact absurd rfl h0
    | cons x xs => rfl
  unfold extract_ip_port
  rw [strrchr_append _ _ _ hc]
  simp only [hlen, if_true, hhead, hb, decide_False, Bool.false_and, if_false, hl,
    Bool.false_eq_true]
  have hd : (ip ++ ':' :: utoa p).drop (ip.length + 1) = utoa p := by
    rw [List.drop_append_eq_append_drop]
    simp
  rw [hd, parse_port_utoa p port h1 h2]
  simp


theorem extract_ip_port_inet6 (P : Platform) (ip : List Char) (p port : Nat)
    (h0 : ip ≠ []) (hl : ip.length < P.INET6_ADDRSTRLEN)
    (h1 : 1 ≤ p) (h2 : p ≤ 65535) :
    extract_ip_port P ('[' :: ip ++ ']' :: ':' :: utoa p) port = some (ip, p) := by
  have hc : ':' ∉ utoa p := by
    intro h
    have := utoa_digits p _ h
    rw [not_digit_colon] at this
    cases this
  have hlen : ip.length > 0 := List.length_pos.2 h0
  have hsplit : '[' :: ip ++ ']' :: ':' :: utoa p = ('[' :: ip ++ [']']) ++ ':' :: utoa p := by
    simp
  have hget : ('[' :: ip ++ ']' :: ':' :: utoa p).get? (ip.length + 1) = some ']' := by
    rw [List.get?_eq_getElem?, List.cons_append, List.getElem?_cons_succ,
      List.getElem?_append_right (Nat.le_refl _)]
    simp
  have hd : ('[' :: ip ++ ']' :: ':' :: utoa p).drop (ip.length + 2 + 1) = utoa p := by
    rw [hsplit, List.drop_append_eq_append_drop]
    simp
  have htake : (('[' :: ip ++ ']' :: ':' :: utoa p).drop 1).take (ip.length + 2 - 2) = ip := by
    simp
  unfold extract_ip_port
  rw [hsplit, strrchr_append _ _ _ hc, ← hsplit]
  have hl2 : ('[' :: ip ++ [']']).length = ip.length + 2 := by simp
  rw [hl2]
  have e1 : ip.length + 2 - 1 = ip.length + 1 := by omega
  have e2 : ip.length + 2 > 2 := by omega
  have e3 : ip.length + 2 > 0 := by omega
  simp only [e1, e2, e3, hget, if_true, List.head?_cons, decide_True, Bool.and_self,
    Bool.not_true, Bool.and_false, Bool.false_eq_true, if_false, Nat.add_sub_cancel, hl]
  rw [hd, parse_port_utoa p port h1 h2]
  simp only [htake]
  simp [hl]

/-- C3 (amended). For every endpoint `E` that is an IPv4 address with a port in
1..65535, an IPv6 address with a port in 1..65535 and zero flow information and
scope, or a non-abstract local-domain address with a non-empty NUL-terminated
path that `extract_ip_port` does not split (`round_trips`), whenever
`to_string` renders `E`, `build(const char*)` applied to the rendered text
succeeds and yields `E` itself. -/
theorem build_to_string (P : Platform) (E : Addr) (size : Nat) (dst : List Char)
    (hE : round_trips P size E) (hr : to_string P E size = .written dst) :
    ∃ text, c_str dst = some text ∧ build P text = some E := by
  have hnul : ∀ p, NUL ∉ utoa p := by
    intro p h
    have := utoa_digits p _ h
    rw [not_digit_NUL] at this
    cases this
  cases E with
  | inet a port =>
    obtain ⟨h1, h2, hip⟩ := hE
    have hport : port % 65536 = port := Nat.mod_eq_of_lt (by omega)
    unfold to_string at hr
    cases hn : P.inet_ntop4 a size with
    | none => simp [hn] at hr
    | some ip =>
      obtain ⟨i0, ib, inul, il, ipt⟩ := hip ip hn
      simp only [hn, hport] at hr
      split at hr
      · injection hr with hr
        refine ⟨ip ++ ':' :: utoa port, ?_, ?_⟩
        · rw [← hr]
          apply c_str_append
          intro hm
          rcases List.mem_append.1 hm with hm | hm
          · exact inul hm
          · rcases List.mem_cons.1 hm with hm | hm
            · revert hm; decide
            · exact hnul _ hm
        · unfold build
          rw [extract_ip_port_inet P ip port 0 i0 ib il h1 h2]
          simp [build_port, ipt]
      · cases hr
  | inet6 a port flowinfo scope_id =>
    obtain ⟨h1, h2, hf, hs, hip⟩ := hE
    subst hf hs
    have hport : port % 65536 = port := Nat.mod_eq_of_lt (by omega)
    unfold to_string at hr
    by_cases hsz : size > 2
    · cases hn : P.inet_ntop6 a (size - 1) with
      | none => simp [hn, hsz] at hr
      | some ip =>
        obtain ⟨i0, inul, il, ip4, ip6⟩ := hip ip hn
        simp only [hn, hport, hsz, if_true] at hr
        split at hr
        · injection hr with hr
          refine ⟨'[' :: ip ++ ']' :: ':' :: utoa port, ?_, ?_⟩
          · rw [← hr]
            apply c_str_append
            intro hm
            rcases List.mem_append.1 hm with hm | hm
            · rcases List.mem_cons.1 hm with hm | hm
              · revert hm; decide
              · exact inul hm
            · rcases List.mem_cons.1 hm with hm | hm
              · revert hm; decide
              · rcases List.mem_cons.1 hm with hm | hm
                · revert hm; decide
                · exact hnul _ hm
          · unfold build
            rw [extract_ip_port_inet6 P ip port 0 i0 il h1 h2]
            simp [build_port, ip4, ip6]
        · cases hr
    · simp [hsz] at hr
  | unix sun_path =>
    obtain ⟨path, hp, h0, hn, hl, hx⟩ := hE
    subst hp
    cases path with
    | nil => exact absurd rfl h0
    | cons c rest =>
      have hc : c ≠ NUL := fun e => hn (e ▸ List.mem_cons_self _ _)
      simp only [to_string, List.cons_append, ne_eq, hc, not_false_eq_true, if_true] at hr
      split at hr
      · injection hr with hr
        refine ⟨c :: rest, ?_, ?_⟩
        · rw [← hr]
          exact c_str_append (c :: rest) hn
        · unfold build
          rw [hx]
          have : (c :: rest).length + 1 ≤ UNIX_PATH_MAX := by
            simp only [UNIX_PATH_MAX]; omega
          rw [if_pos this]
      · cases hr


/-- Witness of `build_to_string`: the IPv4 endpoint 1.2.3.4:80. -/
theorem build_to_string_witness :
    round_trips sample_platform 108 (.inet 16909060 80) ∧
    to_string sample_platform (.inet 16909060 80) 108 =
      .written ("1.2.3.4:80".toList ++ [NUL]) ∧
    ∃ text, c_str ("1.2.3.4:80".toList ++ [NUL]) = some text ∧
      build sample_platform text = some (.inet 16909060 80) :=
  have hrt : round_trips sample_platform 108 (.inet 16909060 80) := by
    refine ⟨by decide, by decide, ?_⟩
    intro ip h
    have h1 : sample_platform.inet_ntop4 16909060 108 = some "1.2.3.4".toList := by decide
    rw [h1] at h
    injection h with h
    subst h
    decide
  ⟨hrt, by decide, build_to_string sample_platform _ 108 _ hrt (by decide)⟩

/-- C3 (counterexample). An abstract local-domain address does not survive the
round trip: the address with path bytes `NUL 'a'` is rendered as `@a`, and
`build("@a")` yields the ordinary path `@a` (three path bytes, first byte `@`).
Likewise the IPv4 endpoint 1.2.3.4 with port 0 is rendered as `1.2.3.4:0`,
which `build` turns into a local-domain path. -/
theorem round_trip_fails :
    (build_abstract [NUL, 'a'] = some (.unix [NUL, 'a']) ∧
     to_string sample_platform (.unix [NUL, 'a']) 108 = .written ['@', 'a', NUL] ∧
     c_str ['@', 'a', NUL] = some ['@', 'a'] ∧
     build sample_platform ['@', 'a'] = some (.unix ['@', 'a', NUL]) ∧
     Addr.unix ['@', 'a', NUL] ≠ Addr.unix [NUL, 'a']) ∧
    (build_port sample_platform "1.2.3.4".toList 0 = some (.inet 16909060 0) ∧
     to_string sample_platform (.inet 16909060 0) 108 =
       .written ("1.2.3.4:0".toList ++ [NUL]) ∧
     c_str ("1.2.3.4:0".toList ++ [NUL]) = some "1.2.3.4:0".toList ∧
     build sample_platform "1.2.3.4:0".toList =
       some (.unix ("1.2.3.4:0".toList ++ [NUL]))) := by
  decide

/-- C4 (amended). For every string `s` of at most 107 characters: if
`extract_ip_port` does not split `s` into a text and a port, `build(s)` returns
`true` and yields a local-domain (`AF_UNIX`) address whose path is `s` followed
by NUL and whose length is `offsetof(sun_path) + strlen(s) + 1`; if it does
split `s`, `build(s)` is `build(text, port)` and never yields a local-domain
address. -/
theorem build_local (P : Platform) (s : List Char) (hlen : s.length ≤ 107) :
    (extract_ip_port P s 0 = none →
      build P s = some (.unix (s ++ [NUL])) ∧
      family (.unix (s ++ [NUL])) = .AF_UNIX ∧
      length P (.unix (s ++ [NUL])) = P.sun_path_offset + s.length + 1) ∧
    (∀ ip port, extract_ip_port P s 0 = some (ip, port) →
      build P s = build_port P ip port ∧
      ∀ a, build P s = some a → family a ≠ .AF_UNIX) := by
  constructor
  · intro hx
    refine ⟨?_, rfl, ?_⟩
    · unfold build
      rw [hx]
      have : s.length + 1 ≤ UNIX_PATH_MAX := by simp only [UNIX_PATH_MAX]; omega
      simp only [this, if_true]
    · simp [length, Nat.add_assoc]
  · intro ip port hx
    have hb : build P s = build_port P ip port := by
      unfold build
      rw [hx]
    refine ⟨hb, ?_⟩
    intro a ha
    rw [hb] at ha
    unfold build_port at ha
    cases h4 : P.inet_pton4 ip with
    | some x =>
      rw [h4] at ha
      injection ha with ha
      subst ha
      simp [family]
    | none =>
      rw [h4] at ha
      cases h6 : P.inet_pton6 ip with
      | some x =>
        rw [h6] at ha
        injection ha with ha
        subst ha
        simp [family]
      | none =>
        rw [h6] at ha
        cases ha

/-- Witness of `build_local`: the path `/tmp/sock`. -/
theorem build_local_witness :
    "/tmp/sock".toList.length ≤ 107 ∧
    ((extract_ip_port sample_platform "/tmp/sock".toList 0 = none →
      build sample_platform "/tmp/sock".toList = some (.unix ("/tmp/sock".toList ++ [NUL])) ∧
      family (.unix ("/tmp/sock".toList ++ [NUL])) = .AF_UNIX ∧
      length sample_platform (.unix ("/tmp/sock".toList ++ [NUL])) =
        sample_platform.sun_path_offset + "/tmp/sock".toList.length + 1) ∧
    (∀ ip port, extract_ip_port sample_platform "/tmp/sock".toList 0 = some (ip, port) →
      build sample_platform "/tmp/sock".toList = build_port sample_platform ip port ∧
      ∀ a, build sample_platform "/tmp/sock".toList = some a → family a ≠ .AF_UNIX)) :=
  ⟨by decide, build_local sample_platform "/tmp/sock".toList (by decide)⟩

/-- C4 (counterexample). The four-character string `a:80` is neither an IPv4
endpoint text nor a bracketed IPv6 endpoint text, yet `build` returns `false`
for it instead of producing the local-domain path `a:80`. -/
theorem build_colon_text_fails :
    "a:80".toList.length ≤ 107 ∧
    ¬ is_ipv4_endpoint sample_platform "a:80".toList ∧
    ¬ is_ipv6_endpoint sample_platform "a:80".toList ∧
    build sample_platform "a:80".toList = none := by
  refine ⟨by decide, ?_, ?_, by decide⟩
  · rintro ⟨ip, ps, hs, h4, _⟩
    have hs2 : ['a', ':', '8', '0'] = ip ++ ':' :: ps := hs
    match ip, hs2, h4 with
    | [], hs2, _ => simp at hs2
    | [x], hs2, h4 =>
      simp only [List.singleton_append, List.cons.injEq] at hs2
      obtain ⟨hx, -⟩ := hs2
      subst hx
      revert h4
      decide
    | x :: y :: rest, hs2, _ =>
      simp only [List.cons_append, List.cons.injEq] at hs2
      obtain ⟨-, hy, hrest⟩ := hs2
      subst hy
      cases rest with
      | nil => simp at hrest
      | cons z rest =>
        simp only [List.cons_append, List.cons.injEq] at hrest
        obtain ⟨-, hrest⟩ := hrest
        cases rest with
        | nil => simp at hrest
        | cons w rest =>
          simp only [List.cons_append, List.cons.injEq] at hrest
          obtain ⟨-, hrest⟩ := hrest
          simp at hrest
  · rintro ⟨ip, ps, hs, _⟩
    have hs2 : ['a', ':', '8', '0'] = '[' :: (ip ++ ']' :: ':' :: ps) := hs
    simp at hs2

end Address

namespace Proxy

theorem load_add (buf : Nat → Nat) (data a b : Nat) :
    load buf data (a + b) = load buf data a ++ load buf (data + a) b := by
  unfold load
  rw [List.range_add, List.map_append, List.map_map]
  congr 1
  apply List.map_congr_left
  intro i _
  simp [Nat.add_assoc]

theorem dword_sub (L c : Nat) (hL : L < 2 ^ 32) (hc : c ≤ L) :
    (L + 2 ^ 32 - c) % 2 ^ 32 = L - c := by
  have : L + 2 ^ 32 - c = (L - c) + 2 ^ 32 := by omega
  rw [this, Nat.add_mod_right]
  exact Nat.mod_eq_of_lt (by omega)

theorem deliver_sent_client_last (s : State) (v : buffer_view)
    (ho : s.client_sending = some v) (hv : s.client_sendbuf = v) :
    deliver s (.sent .client v.length) =
      { s with client_sending := none,
               client_wire := s.client_wire ++ load s.server_recvbuf v.data v.length,
               calls := s.calls ++ [.timer_cancel] ++ [.receive .server],
               server_receiving := true } := by
  simp [deliver, ho, client.complete, client.sent, hv, server.receive, server.stop_timer, pending]

theorem deliver_sent_client_part (s : State) (v : buffer_view) (c : Nat)
    (ho : s.client_sending = some v) (hv : s.client_sendbuf = v) (hc : c ≠ v.length) :
    deliver s (.sent .client c) =
      { s with client_sending := some ⟨v.data + c, (v.length + 2 ^ 32 - c) % 2 ^ 32⟩,
               client_sendbuf := ⟨v.data + c, (v.length + 2 ^ 32 - c) % 2 ^ 32⟩,
               client_wire := s.client_wire ++ load s.server_recvbuf v.data c,
               calls := s.calls ++ [.send .client (v.data + c) ((v.length + 2 ^ 32 - c) % 2 ^ 32)] } := by
  simp [deliver, ho, client.complete, client.sent, hv, hc, client.send, pending]

theorem deliver_sent_server_last (s : State) (v : buffer_view)
    (ho : s.server_sending = some v) (hv : s.server_sendbuf = v) :
    deliver s (.sent .server v.length) =
      { s with server_sending := none,
               server_wire := s.server_wire ++ load s.client_recvbuf v.data v.length,
               calls := s.calls ++ [.timer_cancel] ++ [.receive .client],
               client_receiving := true } := by
  simp [deliver, ho, server.complete, server.sent, hv, client.receive, server.stop_timer, pending]

theorem deliver_sent_server_part (s : State) (v : buffer_view) (c : Nat)
    (ho : s.server_sending = some v) (hv : s.server_sendbuf = v) (hc : c ≠ v.length) :
    deliver s (.sent .server c) =
      { s with server_sending := some ⟨v.data + c, (v.length + 2 ^ 32 - c) % 2 ^ 32⟩,
               server_sendbuf := ⟨v.data + c, (v.length + 2 ^ 32 - c) % 2 ^ 32⟩,
               server_wire := s.server_wire ++ load s.client_recvbuf v.data c,
               calls := s.calls ++ [.timer_expires_in (s.timeout * 1000 * 1000 % 2 ^ 64)] ++
                 [.send .server (v.data + c) ((v.length + 2 ^ 32 - c) % 2 ^ 32)] } := by
  simp [deliver, ho, server.complete, server.sent, hv, hc, server.send, server.start_timer, pending]

theorem sum_eq_zero_of_pos (cs : List Nat) (hpos : ∀ c ∈ cs, 1 ≤ c) (h : cs.sum = 0) :
    cs = [] := by
  cases cs with
  | nil => rfl
  | cons c cs =>
    have := hpos c (List.mem_cons_self _ _)
    simp only [List.sum_cons] at h
    omega

theorem drain_client (counts : List Nat) : ∀ (s : State) (data L : Nat),
    L < 2 ^ 32 → (∀ c ∈ counts, 1 ≤ c) → counts.sum = L → 1 ≤ L →
    s.client_sendbuf = ⟨data, L⟩ → s.client_sending = some ⟨data, L⟩ →
    deliverable_all s (counts.map (Transfer.sent .client)) = true ∧
    (run s (counts.map (Transfer.sent .client))).client_wire =
      s.client_wire ++ load s.server_recvbuf data L ∧
    (run s (counts.map (Transfer.sent .client))).client_sending = none ∧
    (run s (counts.map (Transfer.sent .client))).server_receiving = true ∧
    ∃ mid, (run s (counts.map (Transfer.sent .client))).calls =
        s.calls ++ mid ++ [.receive .server] ∧
      mid.countP is_receive = 0 ∧
      mid.filterMap send_view = (resend_views data L counts).map (fun v => (Side.client, v)) := by
  induction counts with
  | nil =>
    intro s data L _ _ hsum hL
    simp at hsum
    omega
  | cons c cs ih =>
    intro s data L hL32 hpos hsum hL hv ho
    have hc1 : 1 ≤ c := hpos c (List.mem_cons_self _ _)
    have hpos' : ∀ x ∈ cs, 1 ≤ x := fun x hx => hpos x (List.mem_cons_of_mem _ hx)
    simp only [List.sum_cons] at hsum
    have hdel : deliverable s (.sent .client c) = true := by
      simp only [deliverable, ho, Bool.and_eq_true, decide_eq_true_eq]
      exact ⟨hc1, by omega⟩
    by_cases hcL : c = L
    · have hcs : cs = [] := sum_eq_zero_of_pos cs hpos' (by omega)
      subst hcs
      subst hcL
      have hd := deliver_sent_client_last s ⟨data, c⟩ ho hv
      simp only at hd
      simp only [List.map_cons, List.map_nil, deliverable_all, run, hdel, hd, Bool.and_self,
        true_and]
      exact ⟨[.timer_cancel], rfl, by decide, by simp [send_view, resend_views]⟩
    · have hlt : c < L := by
        have : 0 ≤ cs.sum := Nat.zero_le _
        omega
      have hsub := dword_sub L c hL32 (by omega)
      have hd := deliver_sent_client_part s ⟨data, L⟩ c ho hv hcL
      simp only [hsub] at hd
      obtain ⟨c2, cs2, hcs⟩ : ∃ c2 cs2, cs = c2 :: cs2 := by
        cases cs with
        | nil => simp at hsum; omega
        | cons c2 cs2 => exact ⟨c2, cs2, rfl⟩
      have ih' := ih (deliver s (.sent .client c)) (data + c) (L - c) (by omega) hpos'
        (by omega) (by omega) (by rw [hd]) (by rw [hd])
      obtain ⟨i1, i2, i3, i4, mid, i5, i6, i7⟩ := ih'
      simp only [List.map_cons, deliverable_all, run, hdel, Bool.true_and]
      refine ⟨i1, ?_, i3, i4, ?_⟩
      · rw [i2, hd]
        simp only [List.append_assoc]
        have : L = c + (L - c) := by omega
        conv_rhs => rw [this, load_add]
      · refine ⟨.send .client (data + c) (L - c) :: mid, ?_, ?_, ?_⟩
        · rw [i5, hd]; simp
        · simp [List.countP_cons, is_receive, i6]
        · subst hcs
          simp [List.filterMap_cons, send_view, resend_views, i7]

theorem drain_server (counts : List Nat) : ∀ (s : State) (data L : Nat),
    L < 2 ^ 32 → (∀ c ∈ counts, 1 ≤ c) → counts.sum = L → 1 ≤ L →
    s.server_sendbuf = ⟨data, L⟩ → s.server_sending = some ⟨data, L⟩ →
    deliverable_all s (counts.map (Transfer.sent .server)) = true ∧
    (run s (counts.map (Transfer.sent .server))).server_wire =
      s.server_wire ++ load s.client_recvbuf data L ∧
    (run s (counts.map (Transfer.sent .server))).server_sending = none ∧
    (run s (counts.map (Transfer.sent .server))).client_receiving = true ∧
    ∃ mid, (run s (counts.map (Transfer.sent .server))).calls =
        s.calls ++ mid ++ [.receive .client] ∧
      mid.countP is_receive = 0 ∧
      mid.filterMap send_view = (resend_views data L counts).map (fun v => (Side.server, v)) := by
  induction counts with
  | nil =>
    intro s data L _ _ hsum hL
    simp at hsum
    omega
  | cons c cs ih =>
    intro s data L hL32 hpos hsum hL hv ho
    have hc1 : 1 ≤ c := hpos c (List.mem_cons_self _ _)
    have hpos' : ∀ x ∈ cs, 1 ≤ x := fun x hx => hpos x (List.mem_cons_of_mem _ hx)
    simp only [List.sum_cons] at hsum
    have hdel : deliverable s (.sent .server c) = true := by
      simp only [deliverable, ho, Bool.and_eq_true, decide_eq_true_eq]
      exact ⟨hc1, by omega⟩
    by_cases hcL : c = L
    · have hcs : cs = [] := sum_eq_zero_of_pos cs hpos' (by omega)
      subst hcs
      subst hcL
      have hd := deliver_sent_server_last s ⟨data, c⟩ ho hv
      simp only at hd
      simp only [List.map_cons, List.map_nil, deliverable_all, run, hdel, hd, Bool.and_self,
        true_and]
      exact ⟨[.timer_cancel], rfl, by decide, by simp [send_view, resend_views]⟩
    · have hlt : c < L := by
        have : 0 ≤ cs.sum := Nat.zero_le _
        omega
      have hsub := dword_sub L c hL32 (by omega)
      have hd := deliver_sent_server_part s ⟨data, L⟩ c ho hv hcL
      simp only [hsub] at hd
      obtain ⟨c2, cs2, hcs⟩ : ∃ c2 cs2, cs = c2 :: cs2 := by
        cases cs with
        | nil => simp at hsum; omega
        | cons c2 cs2 => exact ⟨c2, cs2, rfl⟩
      have ih' := ih (deliver s (.sent .server c)) (data + c) (L - c) (by omega) hpos'
        (by omega) (by omega) (by rw [hd]) (by rw [hd])
      obtain ⟨i1, i2, i3, i4, mid, i5, i6, i7⟩ := ih'
      simp only [List.map_cons, deliverable_all, run, hdel, Bool.true_and]
      refine ⟨i1, ?_, i3, i4, ?_⟩
      · rw [i2, hd]
        simp only [List.append_assoc]
        have : L = c + (L - c) := by omega
        conv_rhs => rw [this, load_add]
      · refine ⟨.timer_expires_in (s.timeout * 1000 * 1000 % 2 ^ 64) ::
          .send .server (data + c) (L - c) :: mid, ?_, ?_, ?_⟩
        · rw [i5, hd]; simp
        · simp [List.countP_cons, is_receive, i6]
        · subst hcs
          simp [List.filterMap_cons, send_view, resend_views, i7]

theorem issued_append (s s' : State) (l : List Call) (h : s'.calls = s.calls ++ l) :
    issued s s' = l := by
  simp [issued, h]

/-- C2. Let a side hold the saved send view `(data, L)` with that send
outstanding.  Then `sent(n)` of that side, for `n < L`, issues exactly one send,
of `(data + n, L - n)` on the same side, and no receive; `sent(L)` issues no
send and exactly one receive, on the opposite side.  Consequently, for every
split of `L` into counts `c1..ck`, each at least 1, delivering the completions
in turn transfers exactly the `L` bytes at `data`, in order and once, the sends
issued in between are the consecutive remainders, and the opposite side's
receive is issued exactly once, as the very last call. -/
theorem sent_short_send_loop (side : Side) (s : State) (data L : Nat) (counts : List Nat)
    (hL : L < 2 ^ 32) (hv : sendbuf side s = ⟨data, L⟩)
    (ho : sending side s = some ⟨data, L⟩)
    (hpos : ∀ c ∈ counts, 1 ≤ c) (hsum : counts.sum = L) (hL1 : 1 ≤ L) :
    (∀ n, n < L →
      (issued s (sent side pending n s)).filterMap send_view =
        [(side, ⟨data + n, L - n⟩)] ∧
      (issued s (sent side pending n s)).filter is_receive = []) ∧
    ((issued s (sent side pending L s)).filterMap send_view = [] ∧
      (issued s (sent side pending L s)).filter is_receive = [.receive side.peer]) ∧
    (deliverable_all s (counts.map (Transfer.sent side)) = true ∧
      wire side (run s (counts.map (Transfer.sent side))) =
        wire side s ++ load (recvbuf side.peer s) data L ∧
      sending side (run s (counts.map (Transfer.sent side))) = none ∧
      receiving side.peer (run s (counts.map (Transfer.sent side))) = true ∧
      ∃ mid, issued s (run s (counts.map (Transfer.sent side))) =
          mid ++ [.receive side.peer] ∧
        mid.countP is_receive = 0 ∧
        mid.filterMap send_view = (resend_views data L counts).map (fun v => (side, v))) := by
  cases side with
  | server =>
    simp only [sendbuf] at hv
    simp only [sending] at ho
    refine ⟨?_, ?_, ?_⟩
    · intro n hn
      have hne : n ≠ L := by omega
      have hsub := dword_sub L n hL (by omega)
      have hc : (sent .server pending n s).calls = s.calls ++
          [.timer_expires_in (s.timeout * 1000 * 1000 % 2 ^ 64),
           .send .server (data + n) (L - n)] := by
        simp only [sent, server.sent, hv, hne, hsub, server.send, server.start_timer, pending,
          if_false]
        simp
      rw [issued_append _ _ _ hc]
      simp [send_view, is_receive]
    · have hc : (sent .server pending L s).calls = s.calls ++
          [.timer_cancel, .receive .client] := by
        simp [sent, server.sent, hv, client.receive, server.stop_timer, pending]
      rw [issued_append _ _ _ hc]
      simp [send_view, is_receive, Side.peer]
    · obtain ⟨d1, d2, d3, d4, mid, d5, d6, d7⟩ :=
        drain_server counts s data L hL hpos hsum hL1 hv ho
      refine ⟨d1, d2, d3, d4, mid, ?_, d6, d7⟩
      apply issued_append
      rw [d5]
      simp [Side.peer]
  | client =>
    simp only [sendbuf] at hv
    simp only [sending] at ho
    refine ⟨?_, ?_, ?_⟩
    · intro n hn
      have hne : n ≠ L := by omega
      have hsub := dword_sub L n hL (by omega)
      have hc : (sent .client pending n s).calls = s.calls ++
          [.send .client (data + n) (L - n)] := by
        simp only [sent, client.sent, hv, hne, hsub, client.send, pending, if_false]
      rw [issued_append _ _ _ hc]
      simp [send_view, is_receive]
    · have hc : (sent .client pending L s).calls = s.calls ++
          [.timer_cancel, .receive .server] := by
        simp [sent, client.sent, hv, server.receive, server.stop_timer, pending]
      rw [issued_append _ _ _ hc]
      simp [send_view, is_receive, Side.peer]
    · obtain ⟨d1, d2, d3, d4, mid, d5, d6, d7⟩ :=
        drain_client counts s data L hL hpos hsum hL1 hv ho
      refine ⟨d1, d2, d3, d4, mid, ?_, d6, d7⟩
      apply issued_append
      rw [d5]
      simp [Side.peer]

/-- Witness of `sent_short_send_loop`: 32768 bytes sent as 1024 then 31744. -/
theorem sent_short_send_loop_witness :
    sendbuf .client sending_32k = ⟨0, 32768⟩ ∧
    sending .client sending_32k = some ⟨0, 32768⟩ ∧
    (∀ c ∈ [1024, 31744], 1 ≤ c) ∧ [1024, 31744].sum = 32768 ∧
    wire .client (run sending_32k [.sent .client 1024, .sent .client 31744]) =
      wire .client sending_32k ++ load (recvbuf .server sending_32k) 0 32768 ∧
    ∃ mid, issued sending_32k (run sending_32k [.sent .client 1024, .sent .client 31744]) =
        mid ++ [.receive .server] ∧
      mid.countP is_receive = 0 ∧
      mid.filterMap send_view = [(Side.client, ⟨1024, 31744⟩)] :=
  have h := sent_short_send_loop .client sending_32k 0 32768 [1024, 31744]
    (by decide) rfl rfl (by decide) rfl (by decide)
  ⟨rfl, rfl, by decide, rfl, h.2.2.2.1, h.2.2.2.2.2.2⟩

theorem load_store (chunk : List Nat) (buf : Nat → Nat) :
    load (store chunk buf) 0 chunk.length = chunk := by
  apply List.ext_getElem
  · simp [load]
  · intro i h1 h2
    simp only [load, List.getElem_map, List.getElem_range, store, Nat.zero_add]
    rw [if_pos h2]
    simp [List.getD_eq_getElem?_getD, h2]

theorem deliver_received_server (s : State) (chunk : List Nat) (h : 1 ≤ chunk.length) :
    deliver s (.received .server chunk) =
      { s with server_receiving := false,
               server_recvbuf := store chunk s.server_recvbuf,
               server_arrived := s.server_arrived ++ [chunk],
               client_sendbuf := ⟨0, chunk.length⟩,
               client_sending := some ⟨0, chunk.length⟩,
               calls := s.calls ++ [.timer_expires_in (s.timeout * 1000 * 1000 % 2 ^ 64)] ++
                 [.send .client 0 chunk.length] } := by
  have h0 : chunk.length > 0 := h
  have h1 : ¬ chunk = [] := by
    intro e; subst e; simp at h
  simp [deliver, server.complete, server.received, h0, h1, client.send, server.start_timer, pending]

theorem deliver_received_client (s : State) (chunk : List Nat) (h : 1 ≤ chunk.length) :
    deliver s (.received .client chunk) =
      { s with client_receiving := false,
               client_recvbuf := store chunk s.client_recvbuf,
               client_arrived := s.client_arrived ++ [chunk],
               server_sendbuf := ⟨0, chunk.length⟩,
               server_sending := some ⟨0, chunk.length⟩,
               calls := s.calls ++ [.timer_expires_in (s.timeout * 1000 * 1000 % 2 ^ 64)] ++
                 [.send .server 0 chunk.length] } := by
  have h0 : chunk.length > 0 := h
  have h1 : ¬ chunk = [] := by
    intro e; subst e; simp at h
  simp [deliver, client.complete, client.received, h0, h1, server.send, server.start_timer, pending]

theorem relay_step (s : State) (t : Transfer)
    (hi : Relay .server s ∧ Relay .client s) (hd : deliverable s t = true) :
    Relay .server (deliver s t) ∧ Relay .client (deliver s t) := by
  obtain ⟨⟨hb, hq⟩, ⟨hb', hq'⟩⟩ := hi
  simp only [Side.peer, wire, unsent, sending, recvbuf, arrived, receiving, sendbuf]
    at hb hq hb' hq'
  match t with
  | .received .server chunk =>
    simp only [deliverable, Bool.and_eq_true, decide_eq_true_eq] at hd
    obtain ⟨⟨hr, h1⟩, h2⟩ := hd
    have hnone : s.client_sending = none := by
      cases hs : s.client_sending with
      | none => rfl
      | some v => have := (hq v hs).1; rw [hr] at this; cases this
    rw [hnone] at hb
    rw [deliver_received_server s chunk h1]
    refine ⟨⟨?_, ?_⟩, ⟨?_, ?_⟩⟩
    · simp only [Side.peer, wire, unsent, sending, recvbuf, arrived]
      rw [load_store]
      simp only [List.append_nil] at hb
      simp [hb]
    · intro v hv
      simp only [Side.peer, sending, Option.some.injEq] at hv
      subst hv
      simp only [Side.peer, receiving, sendbuf, true_and]
      simp only [buffer_size] at h2
      omega
    · simpa only [Side.peer, wire, unsent, sending, recvbuf, arrived] using hb'
    · simpa only [Side.peer, sending, receiving, sendbuf] using hq'
  | .received .client chunk =>
    simp only [deliverable, Bool.and_eq_true, decide_eq_true_eq] at hd
    obtain ⟨⟨hr, h1⟩, h2⟩ := hd
    have hnone : s.server_sending = none := by
      cases hs : s.server_sending with
      | none => rfl
      | some v => have := (hq' v hs).1; rw [hr] at this; cases this
    rw [hnone] at hb'
    rw [deliver_received_client s chunk h1]
    refine ⟨⟨?_, ?_⟩, ⟨?_, ?_⟩⟩
    · simpa only [Side.peer, wire, unsent, sending, recvbuf, arrived] using hb
    · simpa only [Side.peer, sending, receiving, sendbuf] using hq
    · simp only [Side.peer, wire, unsent, sending, recvbuf, arrived]
      rw [load_store]
      simp only [List.append_nil] at hb'
      simp [hb']
    · intro v hv
      simp only [Side.peer, sending, Option.some.injEq] at hv
      subst hv
      simp only [Side.peer, receiving, sendbuf, true_and]
      simp only [buffer_size] at h2
      omega
  | .sent .client count =>
    cases hs : s.client_sending with
    | none => simp [deliverable, hs] at hd
    | some v =>
      simp only [deliverable, hs, Bool.and_eq_true, decide_eq_true_eq] at hd
      obtain ⟨hc1, hc2⟩ := hd
      obtain ⟨q1, q2, q3⟩ := hq v hs
      rw [hs] at hb
      simp only at hb
      by_cases hcl : count = v.length
      · subst hcl
        rw [deliver_sent_client_last s v hs q2]
        refine ⟨⟨?_, ?_⟩, ⟨?_, ?_⟩⟩
        · simp only [Side.peer, wire, unsent, sending, recvbuf, arrived, List.append_nil]
          exact hb
        · intro w hw
          simp [Side.peer, sending] at hw
        · simpa only [Side.peer, wire, unsent, sending, recvbuf, arrived] using hb'
        · simpa only [Side.peer, sending, receiving, sendbuf] using hq'
      · rw [deliver_sent_client_part s v count hs q2 hcl, dword_sub v.length count q3 hc2]
        refine ⟨⟨?_, ?_⟩, ⟨?_, ?_⟩⟩
        · simp only [Side.peer, wire, unsent, sending, recvbuf, arrived]
          rw [← hb, List.append_assoc]
          have : v.length = count + (v.length - count) := by omega
          conv_rhs => rw [this, load_add]
        · intro w hw
          simp only [Side.peer, sending, Option.some.injEq] at hw
          subst hw
          simp only [Side.peer, receiving, sendbuf, q1, true_and]
          omega
        · simpa only [Side.peer, wire, unsent, sending, recvbuf, arrived] using hb'
        · simpa only [Side.peer, sending, receiving, sendbuf] using hq'
  | .sent .server count =>
    cases hs : s.server_sending with
    | none => simp [deliverable, hs] at hd
    | some v =>
      simp only [deliverable, hs, Bool.and_eq_true, decide_eq_true_eq] at hd
      obtain ⟨hc1, hc2⟩ := hd
      obtain ⟨q1, q2, q3⟩ := hq' v hs
      rw [hs] at hb'
      simp only at hb'
      by_cases hcl : count = v.length
      · subst hcl
        rw [deliver_sent_server_last s v hs q2]
        refine ⟨⟨?_, ?_⟩, ⟨?_, ?_⟩⟩
        · simpa only [Side.peer, wire, unsent, sending, recvbuf, arrived] using hb
        · simpa only [Side.peer, sending, receiving, sendbuf] using hq
        · simp only [Side.peer, wire, unsent, sending, recvbuf, arrived, List.append_nil]
          exact hb'
        · intro w hw
          simp [Side.peer, sending] at hw
      · rw [deliver_sent_server_part s v count hs q2 hcl, dword_sub v.length count q3 hc2]
        refine ⟨⟨?_, ?_⟩, ⟨?_, ?_⟩⟩
        · simpa only [Side.peer, wire, unsent, sending, recvbuf, arrived] using hb
        · simpa only [Side.peer, sending, receiving, sendbuf] using hq
        · simp only [Side.peer, wire, unsent, sending, recvbuf, arrived]
          rw [← hb', List.append_assoc]
          have : v.length = count + (v.length - count) := by omega
          conv_rhs => rw [this, load_add]
        · intro w hw
          simp only [Side.peer, sending, Option.some.injEq] at hw
          subst hw
          simp only [Side.peer, receiving, sendbuf, q1, true_and]
          omega

theorem arrived_step (s : State) (t : Transfer) (side : Side)
    (hi : Relay .server s ∧ Relay .client s) (hd : deliverable s t = true) :
    arrived side (deliver s t) = arrived side s ++ chunks side [t] := by
  obtain ⟨⟨-, hq⟩, ⟨-, hq'⟩⟩ := hi
  simp only [Side.peer, sending, receiving, sendbuf] at hq hq'
  match t with
  | .received .server chunk =>
    simp only [deliverable, Bool.and_eq_true, decide_eq_true_eq] at hd
    rw [deliver_received_server s chunk hd.1.2]
    cases side <;> simp [arrived, chunks]
  | .received .client chunk =>
    simp only [deliverable, Bool.and_eq_true, decide_eq_true_eq] at hd
    rw [deliver_received_client s chunk hd.1.2]
    cases side <;> simp [arrived, chunks]
  | .sent .client count =>
    cases hs : s.client_sending with
    | none => simp [deliverable, hs] at hd
    | some v =>
      simp only [deliverable, hs, Bool.and_eq_true, decide_eq_true_eq] at hd
      obtain ⟨q1, q2, q3⟩ := hq v hs
      by_cases hcl : count = v.length
      · subst hcl
        rw [deliver_sent_client_last s v hs q2]
        cases side <;> simp [arrived, chunks]
      · rw [deliver_sent_client_part s v count hs q2 hcl]
        cases side <;> simp [arrived, chunks]
  | .sent .server count =>
    cases hs : s.server_sending with
    | none => simp [deliverable, hs] at hd
    | some v =>
      simp only [deliverable, hs, Bool.and_eq_true, decide_eq_true_eq] at hd
      obtain ⟨q1, q2, q3⟩ := hq' v hs
      by_cases hcl : count = v.length
      · subst hcl
        rw [deliver_sent_server_last s v hs q2]
        cases side <;> simp [arrived, chunks]
      · rw [deliver_sent_server_part s v count hs q2 hcl]
        cases side <;> simp [arrived, chunks]

theorem chunks_cons (side : Side) (t : Transfer) (ts : List Transfer) :
    chunks side (t :: ts) = chunks side [t] ++ chunks side ts := by
  cases t with
  | received o c =>
    by_cases h : o = side <;> simp [chunks, h]
  | sent o c => simp [chunks]

theorem relay_run (ts : List Transfer) : ∀ (s : State),
    Relay .server s ∧ Relay .client s → deliverable_all s ts = true →
    (Relay .server (run s ts) ∧ Relay .client (run s ts)) ∧
    ∀ side, arrived side (run s ts) = arrived side s ++ chunks side ts := by
  induction ts with
  | nil =>
    intro s hi _
    exact ⟨hi, fun side => by simp [run, chunks]⟩
  | cons t ts ih =>
    intro s hi hd
    simp only [deliverable_all, Bool.and_eq_true] at hd
    obtain ⟨h1, h2⟩ := ih (deliver s t) (relay_step s t hi hd.1) hd.2
    refine ⟨h1, fun side => ?_⟩
    simp only [run]
    rw [h2 side, arrived_step s t side hi hd.1, chunks_cons side t ts, List.append_assoc]

theorem relay_established (timeout : Nat) :
    Relay .server (established timeout) ∧ Relay .client (established timeout) := by
  refine ⟨⟨rfl, ?_⟩, ⟨rfl, ?_⟩⟩
  · intro v hv; cases hv
  · intro v hv; cases hv

/-- C1. In an established proxy session, for every sequence of successful
non-empty receive completions (chunks of 1..32768 bytes) and send completions
(each count at least 1 and at most the length of the outstanding send), in any
interleaving of the two directions, and for either side: the bytes handed to
the opposite side's sends and reported as transferred, followed by the bytes of
the send still outstanding there, are exactly the concatenation of the chunks
received on this side, in order.  In particular, whenever no send is
outstanding on the opposite side, the transferred bytes equal the received
bytes; and while a send is outstanding, no receive is outstanding on the buffer
it reads from. -/
theorem relay_preserves_stream (timeout : Nat) (ts : List Transfer) (side : Side)
    (h : deliverable_all (established timeout) ts = true) :
    wire side.peer (run (established timeout) ts) ++ unsent side (run (established timeout) ts)
      = (chunks side ts).flatten ∧
    (sending side.peer (run (established timeout) ts) = none →
      wire side.peer (run (established timeout) ts) = (chunks side ts).flatten) ∧
    (∀ v, sending side.peer (run (established timeout) ts) = some v →
      receiving side (run (established timeout) ts) = false) := by
  obtain ⟨⟨hs, hc⟩, ha⟩ := relay_run ts (established timeout) (relay_established timeout) h
  have harr : arrived side (established timeout) = [] := by cases side <;> rfl
  have hr : Relay side (run (established timeout) ts) := by cases side <;> assumption
  have hb := hr.bytes
  rw [ha side, harr, List.nil_append] at hb
  refine ⟨hb, ?_, fun v hv => (hr.quiet v hv).1⟩
  intro hn
  simp only [unsent, hn, List.append_nil] at hb
  exact hb

/-- Witness of `relay_preserves_stream`: the sample exchange relays the bytes
1, 2, 3, 4, 5 received from the accepted peer. -/
theorem relay_preserves_stream_witness :
    deliverable_all (established 30) sample_exchange = true ∧
    (chunks .server sample_exchange).flatten = [1, 2, 3, 4, 5] ∧
    sending .client (run (established 30) sample_exchange) = none ∧
    wire .client (run (established 30) sample_exchange) =
      (chunks .server sample_exchange).flatten :=
  ⟨by decide, by decide, by decide,
    (relay_preserves_stream 30 sample_exchange .server (by decide)).2.1 (by decide)⟩

end Proxy

namespace Receiver

open Libc
open connection

theorem layer_zero_accept (s : State) :
    layer 0 .accept s = { s with calls := s.calls ++ [.accept], accept_pending := true } := rfl

theorem layer_zero_receive (s : State) :
    layer 0 .receive s = { s with calls := s.calls ++ [.receive], receive_pending := true } := rfl

theorem layer_zero_disconnect (s : State) :
    layer 0 .disconnect s =
      { s with calls := s.calls ++ [.disconnect], disconnect_pending := true } := rfl

theorem layer_zero_cancel_receive (s : State) :
    layer 0 .cancel_receive s = { s with calls := s.calls ++ [.cancel_receive] } := rfl

theorem layer_zero_connection_timer_expires_in (s : State) (t : Nat) :
    layer 0 (.connection_timer_expires_in t) s =
      { s with calls := s.calls ++ [.connection_timer_expires_in t] } := rfl

theorem layer_zero_connection_timer_cancel (s : State) :
    layer 0 .connection_timer_cancel s =
      { s with calls := s.calls ++ [.connection_timer_cancel] } := rfl

theorem layer_zero_file_timer_cancel (s : State) :
    layer 0 .file_timer_cancel s = { s with calls := s.calls ++ [.file_timer_cancel] } := rfl

theorem layer_zero_file_close (s : State) :
    layer 0 .file_close s =
      { s with calls := s.calls ++ [.file_close], file_is_open := false } := rfl

theorem layer_zero_move_file (s : State) (o p : List Char) :
    layer 0 (.move_file o p) s =
      { s with calls := s.calls ++ [.move_file o p],
               staging := none,
               final := s.final ++ s.staging.toList.map (fun content => (p, content)) } := by
  simp only [layer, effect]
  cases h : s.staging <;> simp

/-- C7. For every state and every count `n`, `written(n)` sets the size counter
to `filesize + n` (a `uint64_t` sum); if and only if the new size is at least
`maxfilesize` or `file_creation + maxfileage <= now` it cancels the file timer,
closes the file and moves it from the staging to the final directory; in both
cases it then releases the file mutex (which becomes 0 when it was held) and
issues exactly one receive, preceded by the re-arming of the connection
timer.  The calls are listed in program order. -/
theorem written_rotates (s : State) (n : Nat) :
    (written (layer 0) n s).filesize = (s.filesize + n) % 2 ^ 64 ∧
    (((s.filesize + n) % 2 ^ 64 ≥ s.config.maxfilesize ∨
        (s.file_creation + s.config.maxfileage) % 2 ^ 64 ≤ s.clock % 2 ^ 64) →
      (written (layer 0) n s).calls = s.calls ++
        [.file_timer_cancel, .file_close,
         .move_file (pathname s.config.tmpdir s.nconnection s.nfile)
           (pathname s.config.finaldir s.nconnection s.nfile),
         .file_mutex_release,
         .connection_timer_expires_in (s.config.timeout * 1000 * 1000 % 2 ^ 64),
         .receive] ∧
      (written (layer 0) n s).file_is_open = false ∧
      (written (layer 0) n s).staging = none ∧
      (written (layer 0) n s).final = s.final ++ (s.staging.toList.map
        (fun content => (pathname s.config.finaldir s.nconnection s.nfile, content)))) ∧
    (¬ ((s.filesize + n) % 2 ^ 64 ≥ s.config.maxfilesize ∨
        (s.file_creation + s.config.maxfileage) % 2 ^ 64 ≤ s.clock % 2 ^ 64) →
      (written (layer 0) n s).calls = s.calls ++
        [.file_mutex_release,
         .connection_timer_expires_in (s.config.timeout * 1000 * 1000 % 2 ^ 64),
         .receive] ∧
      (written (layer 0) n s).file_is_open = s.file_is_open ∧
      (written (layer 0) n s).staging = s.staging ∧
      (written (layer 0) n s).final = s.final) ∧
    (written (layer 0) n s).file_mutex = decrement s.file_mutex ∧
    (s.file_mutex = 1 → (written (layer 0) n s).file_mutex = 0) ∧
    (written (layer 0) n s).receive_pending = true ∧
    (s.filesize + n < 2 ^ 64 → (written (layer 0) n s).filesize = s.filesize + n) := by
  by_cases h : ((s.filesize + n) % 2 ^ 64 ≥ s.config.maxfilesize ∨
        (s.file_creation + s.config.maxfileage) % 2 ^ 64 ≤ s.clock % 2 ^ 64)
  · have e : written (layer 0) n s =
        { s with filesize := (s.filesize + n) % 2 ^ 64,
                 file_is_open := false,
                 staging := none,
                 final := s.final ++ (s.staging.toList.map
                   (fun content => (pathname s.config.finaldir s.nconnection s.nfile, content))),
                 file_mutex := decrement s.file_mutex,
                 receive_pending := true,
                 calls := s.calls ++
                   [.file_timer_cancel, .file_close,
                    .move_file (pathname s.config.tmpdir s.nconnection s.nfile)
                      (pathname s.config.finaldir s.nconnection s.nfile),
                    .file_mutex_release,
                    .connection_timer_expires_in (s.config.timeout * 1000 * 1000 % 2 ^ 64),
                    .receive] } := by
      unfold written
      simp only [h, if_true, receive, unlock_file, move_file, close_file,
        layer_zero_receive, layer_zero_connection_timer_expires_in, layer_zero_move_file,
        layer_zero_file_close, layer_zero_file_timer_cancel, List.append_assoc,
        List.cons_append, List.nil_append]
    rw [e]
    refine ⟨rfl, fun _ => ⟨rfl, rfl, rfl, rfl⟩, fun h' => absurd h h', rfl, ?_, rfl, ?_⟩
    · intro h1; simp only [h1]; decide
    · intro h2; exact Nat.mod_eq_of_lt h2
  · have e : written (layer 0) n s =
        { s with filesize := (s.filesize + n) % 2 ^ 64,
                 file_mutex := decrement s.file_mutex,
                 receive_pending := true,
                 calls := s.calls ++
                   [.file_mutex_release,
                    .connection_timer_expires_in (s.config.timeout * 1000 * 1000 % 2 ^ 64),
                    .receive] } := by
      unfold written
      simp only [h, if_false, receive, unlock_file,
        layer_zero_receive, layer_zero_connection_timer_expires_in, List.append_assoc,
        List.cons_append, List.nil_append]
    rw [e]
    refine ⟨rfl, fun h' => absurd h' h, fun _ => ⟨rfl, rfl, rfl, rfl⟩, rfl, ?_, rfl, ?_⟩
    · intro h1; simp only [h1]; decide
    · intro h2; exact Nat.mod_eq_of_lt h2

/-- C6 (failing input). A receive of the bytes 1, 2, 3 is delivered by the pool;
the file write it starts completes synchronously with all three bytes, so
`written` runs inside `write_file` and issues the next receive; that receive
completes synchronously with the bytes 4, 5, so `complete` runs again while the
outer `complete` still holds the connection mutex, and skips the chunk.  Both
chunks have been received, only the first is in the file, and no receive and no
write is outstanding afterwards. -/
theorem inline_receive_dropped :
    (run (armed sample_config 0 0 0) inline_session).arrived = [[1, 2, 3], [4, 5]] ∧
    persisted (run (armed sample_config 0 0 0) inline_session) = [1, 2, 3] ∧
    (run (armed sample_config 0 0 0) inline_session).receive_pending = false ∧
    (run (armed sample_config 0 0 0) inline_session).write_pending = none ∧
    (run (armed sample_config 0 0 0) inline_session).blocked = false ∧
    (run (armed sample_config 0 0 0) inline_session).calls =
      [.accept, .connection_timer_expires_in 30000000, .receive,
       .file_open (pathname "tmp".toList 0 1), .file_timer_expires_in 300000000,
       .file_write 3, .file_mutex_release, .connection_timer_expires_in 30000000,
       .receive, .connection_mutex_release] := by
  decide!

/-- C9 (counterexample). A connection with an open staging file holding three
bytes receives 0 bytes (clean close by the peer).  The teardown cancels the
connection timer and the receive and disconnects; after the disconnect
completes the next accept is issued.  The file is still open, its three bytes
are still in the staging file, and nothing has been moved to the final
directory. -/
theorem clean_close_keeps_file :
    (run (armed sample_config 0 0 0) (clean_close_session.take 3)).file_is_open = true ∧
    (run (armed sample_config 0 0 0) (clean_close_session.take 3)).filesize = 3 ∧
    (run (armed sample_config 0 0 0) (clean_close_session.take 3)).receive_pending = true ∧
    (run (armed sample_config 0 0 0) clean_close_session).calls =
      (run (armed sample_config 0 0 0) (clean_close_session.take 3)).calls ++
        [.connection_timer_cancel, .cancel_receive, .disconnect, .connection_mutex_release] ∧
    (run (armed sample_config 0 0 0) clean_close_session).file_is_open = true ∧
    (run (armed sample_config 0 0 0) clean_close_session).staging = some [1, 2, 3] ∧
    (run (armed sample_config 0 0 0) clean_close_session).final = [] ∧
    (run (armed sample_config 0 0 0)
      (clean_close_session ++ [{ event := .disconnect_done 0, outcomes := [], opens := [] }])).calls =
      (run (armed sample_config 0 0 0) clean_close_session).calls ++ [.accept] ∧
    (run (armed sample_config 0 0 0)
      (clean_close_session ++ [{ event := .disconnect_done 0, outcomes := [], opens := [] }])).file_is_open
      = true ∧
    (run (armed sample_config 0 0 0)
      (clean_close_session ++ [{ event := .disconnect_done 0, outcomes := [], opens := [] }])).final
      = [] := by
  decide!

theorem close_connection_zero (s : State) :
    close_connection (layer 0) true s =
      { s with calls := s.calls ++ [.connection_timer_cancel, .cancel_receive, .disconnect],
               disconnect_pending := true } := by
  simp only [close_connection, if_true, layer_zero_disconnect, layer_zero_cancel_receive,
    layer_zero_connection_timer_cancel, List.append_assoc, List.cons_append, List.nil_append]

/-- C9 (amended). In every state in which the connection mutex is free, a
successful receive completion of 0 bytes makes exactly these calls: cancel of
the connection timer, cancel of the receive, disconnect (and the release of the
connection mutex); the completion of that disconnect, with or without error,
issues exactly one accept.  Neither step closes or moves the staging file: the
open flag, the staging file, the final directory, the size counter and the
file sequence number are unchanged. -/
theorem clean_close_teardown (s : State) (error : Nat) (h : s.connection_mutex = 0) :
    (complete (layer 0) .receive 0 0 s).calls = s.calls ++
      [.connection_timer_cancel, .cancel_receive, .disconnect, .connection_mutex_release] ∧
    (complete (layer 0) .receive 0 0 s).disconnect_pending = true ∧
    (complete (layer 0) .disconnect error 0 (complete (layer 0) .receive 0 0 s)).calls =
      (complete (layer 0) .receive 0 0 s).calls ++ [.accept] ∧
    (complete (layer 0) .disconnect error 0 (complete (layer 0) .receive 0 0 s)).accept_pending
      = true ∧
    (complete (layer 0) .receive 0 0 s).file_is_open = s.file_is_open ∧
    (complete (layer 0) .receive 0 0 s).staging = s.staging ∧
    (complete (layer 0) .receive 0 0 s).final = s.final ∧
    (complete (layer 0) .receive 0 0 s).filesize = s.filesize ∧
    (complete (layer 0) .receive 0 0 s).nfile = s.nfile ∧
    (complete (layer 0) .disconnect error 0 (complete (layer 0) .receive 0 0 s)).file_is_open
      = s.file_is_open ∧
    (complete (layer 0) .disconnect error 0 (complete (layer 0) .receive 0 0 s)).staging
      = s.staging ∧
    (complete (layer 0) .disconnect error 0 (complete (layer 0) .receive 0 0 s)).final
      = s.final := by
  have e1 : complete (layer 0) .receive 0 0 s =
      { s with calls := s.calls ++
                 [.connection_timer_cancel, .cancel_receive, .disconnect,
                  .connection_mutex_release],
               disconnect_pending := true,
               connection_mutex := decrement 1 } := by
    simp only [complete, h, if_true, received, Nat.lt_irrefl, gt_iff_lt, if_false,
      close_connection_zero, unlock_connection, List.append_assoc, List.cons_append,
      List.nil_append]
  have e2 : ∀ t : State, complete (layer 0) .disconnect error 0 t =
      { t with calls := t.calls ++ [.accept], accept_pending := true } := by
    intro t
    by_cases he : error = 0
    · simp only [complete, he, if_true, disconnected, accept, layer_zero_accept]
    · simp only [complete, he, if_false, disconnected, accept, layer_zero_accept]
  rw [e2, e1]
  exact ⟨rfl, rfl, rfl, rfl, rfl, rfl, rfl, rfl, rfl, rfl, rfl, rfl⟩

/-- Witness of `clean_close_teardown`: the state reached after three bytes were
written to a new file. -/
theorem clean_close_teardown_witness :
    (run (armed sample_config 0 0 0) (clean_close_session.take 3)).connection_mutex = 0 ∧
    (complete (layer 0) .receive 0 0
        (run (armed sample_config 0 0 0) (clean_close_session.take 3))).file_is_open =
      (run (armed sample_config 0 0 0) (clean_close_session.take 3)).file_is_open ∧
    (complete (layer 0) .receive 0 0
        (run (armed sample_config 0 0 0) (clean_close_session.take 3))).final =
      (run (armed sample_config 0 0 0) (clean_close_session.take 3)).final :=
  have h := clean_close_teardown (run (armed sample_config 0 0 0) (clean_close_session.take 3))
    0 (by decide!)
  ⟨by decide!, h.2.2.2.2.1, h.2.2.2.2.2.2.1⟩

theorem layer_cancel_receive (fuel : Nat) (s : State) :
    layer fuel .cancel_receive s = { s with calls := s.calls ++ [.cancel_receive] } := by
  cases fuel <;> rfl

theorem layer_connection_timer_expires_in (fuel : Nat) (s : State) (t : Nat) :
    layer fuel (.connection_timer_expires_in t) s =
      { s with calls := s.calls ++ [.connection_timer_expires_in t] } := by
  cases fuel <;> rfl

theorem layer_connection_timer_cancel (fuel : Nat) (s : State) :
    layer fuel .connection_timer_cancel s =
      { s with calls := s.calls ++ [.connection_timer_cancel] } := by
  cases fuel <;> rfl

theorem layer_file_timer_expires_in (fuel : Nat) (s : State) (t : Nat) :
    layer fuel (.file_timer_expires_in t) s =
      { s with calls := s.calls ++ [.file_timer_expires_in t] } := by
  cases fuel <;> rfl

theorem layer_file_timer_cancel (fuel : Nat) (s : State) :
    layer fuel .file_timer_cancel s = { s with calls := s.calls ++ [.file_timer_cancel] } := by
  cases fuel <;> rfl

theorem layer_file_close (fuel : Nat) (s : State) :
    layer fuel .file_close s =
      { s with calls := s.calls ++ [.file_close], file_is_open := false } := by
  cases fuel <;> rfl

theorem layer_delete_file (fuel : Nat) (s : State) (p : List Char) :
    layer fuel (.delete_file p) s =
      { s with calls := s.calls ++ [.delete_file p], staging := none } := by
  cases fuel <;> rfl

theorem layer_file_open (fuel : Nat) (s : State) (p : List Char) :
    layer fuel (.file_open p) s =
      { s with calls := s.calls ++ [.file_open p],
               opens := s.opens.tail,
               opened := s.opens.headD true,
               file_is_open := s.opens.headD true,
               staging := if s.opens.headD true then some [] else s.staging } := by
  cases fuel <;> rfl

theorem layer_move_file_some (fuel : Nat) (s : State) (o p : List Char) (c : List Nat)
    (h : s.staging = some c) :
    layer fuel (.move_file o p) s =
      { s with calls := s.calls ++ [.move_file o p],
               staging := none,
               final := s.final ++ [(p, c)] } := by
  cases fuel <;> simp only [layer, effect, h]

theorem layer_move_file_none (fuel : Nat) (s : State) (o p : List Char)
    (h : s.staging = none) :
    layer fuel (.move_file o p) s = { s with calls := s.calls ++ [.move_file o p] } := by
  cases fuel <;> simp only [layer, effect, h]

/-- States that agree on the fields the invariant reads satisfy it together. -/
theorem Invariant.of_eq {config : Config} {n : Nat} {s : State} (h : Invariant config n s)
    (t : State) (e1 : t.config = s.config) (e2 : t.nconnection = s.nconnection)
    (e3 : t.nfile = s.nfile)
    (e4 : t.calls.filterMap open_path = s.calls.filterMap open_path)
    (e5 : t.file_is_open = s.file_is_open) (e6 : t.staging = s.staging)
    (e7 : t.filesize = s.filesize) (e8 : t.final = s.final)
    (e9 : t.write_pending = s.write_pending) (e10 : t.file_mutex = s.file_mutex) :
    Invariant config n t where
  config_eq := e1.trans h.config_eq
  nconnection_eq := e2.trans h.nconnection_eq
  names := by rw [e4, e3]; exact h.names
  open_size := by rw [e5, e6, e7]; exact h.open_size
  closed := by rw [e5, e6]; exact h.closed
  final_size := by rw [e8]; exact h.final_size
  writing := by rw [e9, e5, e10]; exact h.writing

/-- The invariant does not depend on the mutex when no write is outstanding. -/
theorem Invariant.set_mutex {config : Config} {n : Nat} {s : State} (h : Invariant config n s)
    (hw : s.write_pending = none)
    (t : State) (e1 : t.config = s.config) (e2 : t.nconnection = s.nconnection)
    (e3 : t.nfile = s.nfile)
    (e4 : t.calls.filterMap open_path = s.calls.filterMap open_path)
    (e5 : t.file_is_open = s.file_is_open) (e6 : t.staging = s.staging)
    (e7 : t.filesize = s.filesize) (e8 : t.final = s.final)
    (e9 : t.write_pending = s.write_pending) :
    Invariant config n t where
  config_eq := e1.trans h.config_eq
  nconnection_eq := e2.trans h.nconnection_eq
  names := by rw [e4, e3]; exact h.names
  open_size := by rw [e5, e6, e7]; exact h.open_size
  closed := by rw [e5, e6]; exact h.closed
  final_size := by rw [e8]; exact h.final_size
  writing := by
    intro len hl
    rw [e9, hw] at hl
    cases hl

theorem filterMap_open_path_append (l : List Call) (c : Call) (h : open_path c = none) :
    (l ++ [c]).filterMap open_path = l.filterMap open_path := by
  simp [List.filterMap_append, h]

variable {config : Config} {n : Nat} {fuel : Nat}

theorem layer_move_file (fuel : Nat) (s : State) (o p : List Char) :
    layer fuel (.move_file o p) s =
      { s with calls := s.calls ++ [.move_file o p],
               staging := none,
               final := s.final ++ s.staging.toList.map (fun content => (p, content)) } := by
  cases hs : s.staging with
  | none =>
    rw [layer_move_file_none fuel s o p hs]
    simp [hs]
  | some c =>
    rw [layer_move_file_some fuel s o p c hs]
    simp

/-- Recording a call that opens no file keeps the invariant. -/
theorem Invariant.log {s : State} (h : Invariant config n s) (c : Call)
    (hc : open_path c = none) :
    Invariant config n { s with calls := s.calls ++ [c] } :=
  h.of_eq _ rfl rfl rfl (filterMap_open_path_append _ _ hc) rfl rfl rfl rfl rfl rfl

theorem inv_accept (ok : LayerOk config n fuel) {s : State} (h : Invariant config n s) :
    Invariant config n (accept (layer fuel) s) :=
  ok.accept s h

theorem inv_receive (ok : LayerOk config n fuel) {s : State} (h : Invariant config n s) :
    Invariant config n (receive (layer fuel) s) := by
  unfold receive
  rw [layer_connection_timer_expires_in]
  exact ok.receive _ (h.log (.connection_timer_expires_in _) rfl)

theorem inv_close_connection (ok : LayerOk config n fuel) (b : Bool) {s : State}
    (h : Invariant config n s) :
    Invariant config n (close_connection (layer fuel) b s) := by
  unfold close_connection
  apply ok.disconnect
  rw [layer_cancel_receive]
  cases b
  · exact h.log .cancel_receive rfl
  · simp only [if_true]
    rw [layer_connection_timer_cancel]
    exact (h.log .connection_timer_cancel rfl).log .cancel_receive rfl

theorem inv_unlock_connection {s : State} (h : Invariant config n s) :
    Invariant config n (unlock_connection s) := by
  unfold unlock_connection
  exact (h.log .connection_mutex_release rfl).of_eq _ rfl rfl rfl rfl rfl rfl rfl rfl rfl rfl

theorem inv_unlock_file {s : State} (h : Invariant config n s) (hw : s.write_pending = none) :
    Invariant config n (unlock_file s) := by
  unfold unlock_file
  exact (h.log .file_mutex_release rfl).set_mutex hw _ rfl rfl rfl rfl rfl rfl rfl rfl rfl

theorem close_move_eq (b : Bool) (s : State) :
    move_file (layer fuel) (close_file (layer fuel) b s) =
      { s with calls := s.calls ++ (if b then [Call.file_timer_cancel] else []) ++
                 [.file_close,
                  .move_file (pathname s.config.tmpdir s.nconnection s.nfile)
                    (pathname s.config.finaldir s.nconnection s.nfile)],
               file_is_open := false,
               staging := none,
               final := s.final ++ s.staging.toList.map
                 (fun content => (pathname s.config.finaldir s.nconnection s.nfile, content)) } := by
  cases b
  · simp only [move_file, close_file, layer_file_close, layer_move_file, Bool.false_eq_true,
      if_false, List.append_nil, List.append_assoc, List.cons_append, List.nil_append]
  · simp only [move_file, close_file, layer_file_close, layer_move_file, layer_file_timer_cancel,
      if_true, List.append_assoc, List.cons_append, List.nil_append]

theorem filterMap_open_path_close_move (l : List Call) (b : Bool) (o p : List Char) :
    (l ++ (if b then [Call.file_timer_cancel] else []) ++
      [Call.file_close, Call.move_file o p]).filterMap open_path = l.filterMap open_path := by
  cases b <;> simp [List.filterMap_append, open_path]

/-- Closing the file and moving it establishes the invariant, provided the
staging file is short enough. -/
theorem inv_close_move (b : Bool) {s : State} (h : Base config n s)
    (hs : ∀ c, s.staging = some c → c.length < config.maxfilesize + buffer_size) :
    Invariant config n (move_file (layer fuel) (close_file (layer fuel) b s)) ∧
    (move_file (layer fuel) (close_file (layer fuel) b s)).write_pending = none := by
  rw [close_move_eq]
  refine ⟨?_, h.idle⟩
  exact {
    config_eq := h.config_eq
    nconnection_eq := h.nconnection_eq
    names := (filterMap_open_path_close_move _ _ _ _).trans h.names
    open_size := by intro hf; cases hf
    closed := fun _ => rfl
    final_size := by
      intro f hf
      rcases List.mem_append.1 hf with hf | hf
      · exact h.final_size f hf
      · cases hc : s.staging with
        | none => simp [hc] at hf
        | some c =>
          simp only [hc, Option.toList_some, List.map_cons, List.map_nil,
            List.mem_singleton] at hf
          subst hf
          exact hs c hc
    writing := fun len hl => Option.noConfusion (h.idle.symm.trans hl) }

theorem Invariant.base {s : State} (h : Invariant config n s) (hw : s.write_pending = none) :
    Base config n s :=
  ⟨h.config_eq, h.nconnection_eq, h.names, h.final_size, hw⟩

theorem load_length (buf : Nat → Nat) (data len : Nat) : (load buf data len).length = len := by
  simp [load]

theorem written_eq (io : Layer) (count : Nat) (s : State) :
    written io count s =
      receive io (unlock_file
        (if (s.filesize + count) % 2 ^ 64 ≥ s.config.maxfilesize ∨
            (s.file_creation + s.config.maxfileage) % 2 ^ 64 ≤ s.clock % 2 ^ 64 then
          move_file io (close_file io true { s with filesize := (s.filesize + count) % 2 ^ 64 })
        else { s with filesize := (s.filesize + count) % 2 ^ 64 })) := rfl

theorem inv_written (ok : LayerOk config n fuel) (hmax : config.maxfilesize + buffer_size ≤ 2 ^ 64)
    {s : State} (hw : Writable config n s) (count : Nat) (hc : count ≤ buffer_size) :
    Invariant config n (written (layer fuel) count (appended count s)) := by
  obtain ⟨hi, hopen, hmutex, hidle⟩ := hw
  obtain ⟨c, hst, hlen, hlt⟩ := hi.open_size hopen
  have hsum : (s.filesize + count) % 2 ^ 64 = s.filesize + count :=
    Nat.mod_eq_of_lt (by omega)
  have hbase : Base config n
      { appended count s with filesize := ((appended count s).filesize + count) % 2 ^ 64 } :=
    ⟨hi.config_eq, hi.nconnection_eq, hi.names, hi.final_size, hidle⟩
  have hstag : ({ appended count s with
      filesize := ((appended count s).filesize + count) % 2 ^ 64 } : State).staging =
      some (c ++ load s.buf 0 count) := by
    simp [appended, hst]
  rw [written_eq]
  by_cases hrot : ((appended count s).filesize + count) % 2 ^ 64 ≥
      (appended count s).config.maxfilesize ∨
      ((appended count s).file_creation + (appended count s).config.maxfileage) % 2 ^ 64 ≤
        (appended count s).clock % 2 ^ 64
  · rw [if_pos hrot]
    obtain ⟨h1, h2⟩ := @inv_close_move config n fuel true _ hbase (by
      intro c' hc'
      rw [hstag] at hc'
      injection hc' with hc'
      subst hc'
      rw [List.length_append, load_length]
      omega)
    exact inv_receive ok (inv_unlock_file h1 h2)
  · rw [if_neg hrot]
    have hsmall : s.filesize + count < config.maxfilesize := by
      have : ¬ ((s.filesize + count) % 2 ^ 64 ≥ s.config.maxfilesize) := fun hge =>
        hrot (Or.inl hge)
      rw [hsum, hi.config_eq] at this
      omega
    have hinv : Invariant config n
        { appended count s with filesize := ((appended count s).filesize + count) % 2 ^ 64 } := {
      config_eq := hi.config_eq
      nconnection_eq := hi.nconnection_eq
      names := hi.names
      open_size := by
        intro _
        refine ⟨c ++ load s.buf 0 count, hstag, ?_, ?_⟩
        · show _ = (s.filesize + count) % 2 ^ 64
          rw [hsum, List.length_append, load_length, hlen]
        · show (s.filesize + count) % 2 ^ 64 < _
          rw [hsum]; exact hsmall
      closed := fun hf => Bool.noConfusion (hopen.symm.trans hf)
      final_size := hi.final_size
      writing := fun len hl => Option.noConfusion (hidle.symm.trans hl) }
    exact inv_receive ok (inv_unlock_file hinv hidle)

theorem close_delete_eq (s : State) (p : List Char) :
    layer fuel (.delete_file p) (close_file (layer fuel) true s) =
      { s with calls := s.calls ++ [.file_timer_cancel, .file_close, .delete_file p],
               file_is_open := false,
               staging := none } := by
  simp only [close_file, layer_file_close, layer_delete_file, layer_file_timer_cancel,
    if_true, List.append_assoc, List.cons_append, List.nil_append]

theorem close_file_filesize (b : Bool) (s : State) :
    (close_file (layer fuel) b s).filesize = s.filesize ∧
    (close_file (layer fuel) b s).config = s.config ∧
    (close_file (layer fuel) b s).nconnection = s.nconnection ∧
    (close_file (layer fuel) b s).nfile = s.nfile := by
  cases b
  · simp only [close_file, layer_file_close, Bool.false_eq_true, if_false, and_self]
  · simp only [close_file, layer_file_close, layer_file_timer_cancel, if_true, and_self]

theorem inv_error_writing_file (ok : LayerOk config n fuel)
    {s : State} (hw : Writable config n s) :
    Invariant config n (error_writing_file (layer fuel) s) := by
  obtain ⟨hi, hopen, hmutex, hidle⟩ := hw
  obtain ⟨c, hst, hlen, hlt⟩ := hi.open_size hopen
  unfold error_writing_file
  simp only [(@close_file_filesize fuel true s).1,
    (@close_file_filesize fuel true s).2.1,
    (@close_file_filesize fuel true s).2.2.1,
    (@close_file_filesize fuel true s).2.2.2]
  split
  · obtain ⟨h1, h2⟩ := @inv_close_move config n fuel true _ (hi.base hidle) (by
      intro c' hc'
      rw [hst] at hc'
      injection hc' with hc'
      subst hc'
      omega)
    exact inv_close_connection ok true (inv_unlock_file h1 h2)
  · rw [close_delete_eq]
    have hinv : Invariant config n
        { s with calls := s.calls ++ [.file_timer_cancel, .file_close,
                   .delete_file (pathname s.config.tmpdir s.nconnection s.nfile)],
                 file_is_open := false,
                 staging := none } := {
      config_eq := hi.config_eq
      nconnection_eq := hi.nconnection_eq
      names := by
        show (s.calls ++ [Call.file_timer_cancel, Call.file_close, Call.delete_file _]).filterMap
          open_path = _
        rw [List.filterMap_append]
        simp only [List.filterMap_cons, open_path, List.filterMap_nil, List.append_nil]
        exact hi.names
      open_size := by intro hf; cases hf
      closed := fun _ => rfl
      final_size := hi.final_size
      writing := fun len hl => Option.noConfusion (hidle.symm.trans hl) }
    exact inv_close_connection ok true (inv_unlock_file hinv hidle)

theorem inv_complete_file (ok : LayerOk config n fuel)
    (hmax : config.maxfilesize + buffer_size ≤ 2 ^ 64)
    {s : State} (hw : Writable config n s) (error count : Nat) (hc : count ≤ buffer_size) :
    Invariant config n
      (if error = 0 then complete_file (layer fuel) 0 count (appended count s)
       else complete_file (layer fuel) error 0 s) := by
  by_cases he : error = 0
  · simp only [he, if_true, complete_file]
    exact inv_written ok hmax hw count hc
  · simp only [he, if_false, complete_file]
    exact inv_error_writing_file ok hw

theorem range_succ_map_names (dir : List Char) (n k : Nat) :
    (List.range k).map (fun j => pathname dir n (j + 1)) ++ [pathname dir n (k + 1)] =
      (List.range (k + 1)).map (fun j => pathname dir n (j + 1)) := by
  rw [List.range_succ, List.map_append]
  rfl

theorem inv_blocked {s : State} (h : Invariant config n s) :
    Invariant config n { s with blocked := true } :=
  h.of_eq _ rfl rfl rfl rfl rfl rfl rfl rfl rfl rfl

theorem inv_write_file (ok : LayerOk config n fuel) (hpos : 0 < config.maxfilesize)
    {s : State} (h : Invariant config n s) (len : Nat) (hl : len ≤ buffer_size) :
    Invariant config n (write_file (layer fuel) len s) := by
  unfold write_file
  by_cases hm : s.file_mutex ≠ 0
  · rw [if_pos hm]
    exact inv_blocked h
  · rw [if_neg hm]
    have hm0 : s.file_mutex = 0 := by omega
    have hidle : s.write_pending = none := by
      cases hw : s.write_pending with
      | none => rfl
      | some l =>
        have := (h.writing l hw).2.2
        omega
    cases hopen : s.file_is_open with
    | true =>
      simp only [hopen, Bool.not_true, Bool.false_eq_true, if_false]
      exact ok.file_write len _
        ⟨h.set_mutex hidle _ rfl rfl rfl rfl hopen.symm rfl rfl rfl rfl, rfl, rfl, hidle⟩ hl
    | false =>
      simp only [hopen, Bool.not_false, if_true]
      have hstag : s.staging = none := h.closed hopen
      unfold open_file
      simp only [layer_file_open, layer_file_timer_expires_in]
      cases hok : s.opens.headD true with
      | false =>
        simp only [Bool.false_eq_true, if_false, Bool.not_false, if_true]
        have hinv : Invariant config n
            { s with file_mutex := 1, nfile := s.nfile + 1,
                     calls := s.calls ++
                       [.file_open (pathname s.config.tmpdir s.nconnection (s.nfile + 1))],
                     opens := s.opens.tail, opened := false, file_is_open := false,
                     staging := s.staging } := {
          config_eq := h.config_eq
          nconnection_eq := h.nconnection_eq
          names := by
            show (s.calls ++ [Call.file_open _]).filterMap open_path = _
            rw [List.filterMap_append, h.names, ← range_succ_map_names, h.config_eq,
              h.nconnection_eq]
            rfl
          open_size := by intro hf; cases hf
          closed := fun _ => hstag
          final_size := h.final_size
          writing := fun len hl => Option.noConfusion (hidle.symm.trans hl) }
        exact inv_close_connection ok true (inv_unlock_file hinv hidle)
      | true =>
        simp only [if_true, Bool.not_true, Bool.false_eq_true, if_false]
        have hinv : Invariant config n
            { s with file_mutex := 1, nfile := s.nfile + 1,
                     calls := s.calls ++
                       [.file_open (pathname s.config.tmpdir s.nconnection (s.nfile + 1))] ++
                       [.file_timer_expires_in (s.config.maxfileage * 1000 * 1000 % 2 ^ 64)],
                     opens := s.opens.tail, opened := true, file_is_open := true,
                     staging := some [], filesize := 0, file_creation := s.clock } := {
          config_eq := h.config_eq
          nconnection_eq := h.nconnection_eq
          names := by
            show ((s.calls ++ [Call.file_open _]) ++ [Call.file_timer_expires_in _]).filterMap
              open_path = _
            rw [filterMap_open_path_append _ (Call.file_timer_expires_in _) rfl,
              List.filterMap_append, h.names,
              ← range_succ_map_names, h.config_eq, h.nconnection_eq]
            rfl
          open_size := fun _ => ⟨[], rfl, rfl, hpos⟩
          closed := by intro hf; cases hf
          final_size := h.final_size
          writing := fun len hl => Option.noConfusion (hidle.symm.trans hl) }
        exact ok.file_write len _ ⟨hinv, rfl, rfl, hidle⟩ hl

theorem inv_complete (ok : LayerOk config n fuel) (hpos : 0 < config.maxfilesize)
    {s : State} (h : Invariant config n s) (op : Socket.operation) (error transferred : Nat)
    (ht : transferred ≤ buffer_size) :
    Invariant config n (complete (layer fuel) op error transferred s) := by
  unfold complete
  by_cases he : error = 0
  · rw [if_pos he]
    cases op with
    | receive =>
      simp only
      by_cases hm : s.connection_mutex = 0
      · rw [if_pos hm]
        apply inv_unlock_connection
        unfold received
        have h1 : Invariant config n { s with connection_mutex := 1 } :=
          h.of_eq _ rfl rfl rfl rfl rfl rfl rfl rfl rfl rfl
        by_cases hpos' : transferred > 0
        · rw [if_pos hpos']
          exact inv_write_file ok hpos h1 transferred ht
        · rw [if_neg hpos']
          exact inv_close_connection ok true h1
      · rw [if_neg hm]
        exact h
    | disconnect => exact inv_accept ok h
    | accept => exact inv_receive ok h
    | connect => exact h
    | send => exact h
  · rw [if_neg he]
    cases op with
    | receive =>
      simp only
      by_cases ha : error ≠ WSA_OPERATION_ABORTED
      · rw [if_pos ha]
        exact inv_close_connection ok true h
      · rw [if_neg ha]
        exact h
    | disconnect => exact inv_accept ok h
    | accept => exact inv_accept ok h
    | connect => exact h
    | send => exact h

theorem inv_connection_timer (ok : LayerOk config n fuel)
    {s : State} (h : Invariant config n s) :
    Invariant config n (connection_timer (layer fuel) s) := by
  unfold connection_timer
  by_cases hm : s.connection_mutex = 0
  · rw [if_pos hm]
    apply inv_unlock_connection
    apply inv_close_connection ok false
    exact h.of_eq _ rfl rfl rfl rfl rfl rfl rfl rfl rfl rfl
  · rw [if_neg hm]
    exact h

theorem inv_file_timer {s : State} (h : Invariant config n s) :
    Invariant config n (file_timer (layer fuel) s) := by
  unfold file_timer
  by_cases hm : s.file_mutex = 0
  · rw [if_pos hm]
    have hidle : s.write_pending = none := by
      cases hw : s.write_pending with
      | none => rfl
      | some l =>
        have := (h.writing l hw).2.2
        omega
    have hb : Base config n { s with file_mutex := 1 } :=
      ⟨h.config_eq, h.nconnection_eq, h.names, h.final_size, hidle⟩
    obtain ⟨h1, h2⟩ := @inv_close_move config n fuel false _ hb (by
      intro c hc
      have hc' : s.staging = some c := hc
      cases hopen : s.file_is_open with
      | true =>
        obtain ⟨c', e1, e2, e3⟩ := h.open_size hopen
        rw [hc'] at e1
        injection e1 with e1
        subst e1
        omega
      | false =>
        rw [h.closed hopen] at hc'
        cases hc')
    exact inv_unlock_file h1 h2
  · rw [if_neg hm]
    exact h

theorem Writable.transfer {s : State} (h : Writable config n s)
    (t : State) (e1 : t.config = s.config) (e2 : t.nconnection = s.nconnection)
    (e3 : t.nfile = s.nfile)
    (e4 : t.calls.filterMap open_path = s.calls.filterMap open_path)
    (e5 : t.file_is_open = s.file_is_open) (e6 : t.staging = s.staging)
    (e7 : t.filesize = s.filesize) (e8 : t.final = s.final)
    (e9 : t.write_pending = s.write_pending) (e10 : t.file_mutex = s.file_mutex) :
    Writable config n t :=
  ⟨h.1.of_eq t e1 e2 e3 e4 e5 e6 e7 e8 e9 e10, e5.trans h.2.1, e10.trans h.2.2.1,
    e9.trans h.2.2.2⟩

theorem inv_write_pending {s : State} (h : Writable config n s) (len : Nat)
    (hl : len ≤ buffer_size) (t : State) (e1 : t.config = s.config)
    (e2 : t.nconnection = s.nconnection) (e3 : t.nfile = s.nfile)
    (e4 : t.calls.filterMap open_path = s.calls.filterMap open_path)
    (e5 : t.file_is_open = s.file_is_open) (e6 : t.staging = s.staging)
    (e7 : t.filesize = s.filesize) (e8 : t.final = s.final)
    (e9 : t.write_pending = some len) (e10 : t.file_mutex = s.file_mutex) :
    Invariant config n t where
  config_eq := e1.trans h.1.config_eq
  nconnection_eq := e2.trans h.1.nconnection_eq
  names := by rw [e4, e3]; exact h.1.names
  open_size := by rw [e5, e6, e7]; exact h.1.open_size
  closed := by rw [e5, e6]; exact h.1.closed
  final_size := by rw [e8]; exact h.1.final_size
  writing := by
    intro l hl'
    rw [e9] at hl'
    injection hl' with hl'
    subst hl'
    exact ⟨e5.trans h.2.1, hl, e10.trans h.2.2.1⟩

theorem layer_ok_zero : LayerOk config n 0 where
  accept := fun _ h =>
    h.of_eq _ rfl rfl rfl (filterMap_open_path_append _ Call.accept rfl) rfl rfl rfl rfl rfl rfl
  receive := fun _ h =>
    h.of_eq _ rfl rfl rfl (filterMap_open_path_append _ Call.receive rfl) rfl rfl rfl rfl rfl rfl
  disconnect := fun _ h =>
    h.of_eq _ rfl rfl rfl (filterMap_open_path_append _ Call.disconnect rfl) rfl rfl rfl rfl
      rfl rfl
  file_write := fun len _ h hl =>
    inv_write_pending h len hl _ rfl rfl rfl
      (filterMap_open_path_append _ (Call.file_write len) rfl) rfl rfl rfl rfl rfl rfl

theorem layer_ok_succ (hpos : 0 < config.maxfilesize)
    (hmax : config.maxfilesize + buffer_size ≤ 2 ^ 64) (ok : LayerOk config n fuel) :
    LayerOk config n (fuel + 1) where
  accept := by
    intro s h
    have h1 : Invariant config n
        { s with calls := s.calls ++ [.accept], outcomes := s.outcomes.tail } :=
      h.of_eq _ rfl rfl rfl (filterMap_open_path_append _ Call.accept rfl) rfl rfl rfl rfl rfl rfl
    have hp : Invariant config n
        { s with calls := s.calls ++ [.accept], outcomes := s.outcomes.tail,
                 accept_pending := true } :=
      h1.of_eq _ rfl rfl rfl rfl rfl rfl rfl rfl rfl rfl
    simp only [layer]
    cases ho : s.outcomes.head? with
    | none => exact hp
    | some o =>
      cases o with
      | done error => exact inv_complete ok hpos h1 .accept error 0 (Nat.zero_le _)
      | pending => exact hp
      | received e c => exact hp
      | wrote e c => exact hp
  disconnect := by
    intro s h
    have h1 : Invariant config n
        { s with calls := s.calls ++ [.disconnect], outcomes := s.outcomes.tail } :=
      h.of_eq _ rfl rfl rfl (filterMap_open_path_append _ Call.disconnect rfl) rfl rfl rfl rfl
        rfl rfl
    have hp : Invariant config n
        { s with calls := s.calls ++ [.disconnect], outcomes := s.outcomes.tail,
                 disconnect_pending := true } :=
      h1.of_eq _ rfl rfl rfl rfl rfl rfl rfl rfl rfl rfl
    simp only [layer]
    cases ho : s.outcomes.head? with
    | none => exact hp
    | some o =>
      cases o with
      | done error => exact inv_complete ok hpos h1 .disconnect error 0 (Nat.zero_le _)
      | pending => exact hp
      | received e c => exact hp
      | wrote e c => exact hp
  receive := by
    intro s h
    have h1 : Invariant config n
        { s with calls := s.calls ++ [.receive], outcomes := s.outcomes.tail } :=
      h.of_eq _ rfl rfl rfl (filterMap_open_path_append _ Call.receive rfl) rfl rfl rfl rfl
        rfl rfl
    have hp : Invariant config n
        { s with calls := s.calls ++ [.receive], outcomes := s.outcomes.tail,
                 receive_pending := true } :=
      h1.of_eq _ rfl rfl rfl rfl rfl rfl rfl rfl rfl rfl
    simp only [layer]
    cases ho : s.outcomes.head? with
    | none => exact hp
    | some o =>
      cases o with
      | received error chunk =>
        simp only
        by_cases he : error = 0
        · rw [if_pos he]
          have h2 : Invariant config n (stored chunk
              { s with calls := s.calls ++ [.receive], outcomes := s.outcomes.tail }) :=
            h1.of_eq _ rfl rfl rfl rfl rfl rfl rfl rfl rfl rfl
          exact inv_complete ok hpos h2 .receive 0 _ (List.length_take_le _ _)
        · rw [if_neg he]
          exact inv_complete ok hpos h1 .receive error 0 (Nat.zero_le _)
      | pending => exact hp
      | done e => exact hp
      | wrote e c => exact hp
  file_write := by
    intro len s h hl
    have h1 : Writable config n
        { s with calls := s.calls ++ [.file_write len], outcomes := s.outcomes.tail } :=
      h.transfer _ rfl rfl rfl (filterMap_open_path_append _ (Call.file_write len) rfl) rfl rfl
        rfl rfl rfl rfl
    have hp : Invariant config n
        { s with calls := s.calls ++ [.file_write len], outcomes := s.outcomes.tail,
                 write_pending := some len } :=
      inv_write_pending h1 len hl _ rfl rfl rfl rfl rfl rfl rfl rfl rfl rfl
    simp only [layer]
    cases ho : s.outcomes.head? with
    | none => exact hp
    | some o =>
      cases o with
      | wrote error count =>
        exact inv_complete_file ok hmax h1 error (min count len)
          (Nat.le_trans (Nat.min_le_right _ _) hl)
      | pending => exact hp
      | done e => exact hp
      | received e c => exact hp

theorem layer_ok (hpos : 0 < config.maxfilesize)
    (hmax : config.maxfilesize + buffer_size ≤ 2 ^ 64) : ∀ fuel, LayerOk config n fuel
  | 0 => layer_ok_zero
  | fuel + 1 => layer_ok_succ hpos hmax (layer_ok hpos hmax fuel)

theorem inv_deliver (hpos : 0 < config.maxfilesize)
    (hmax : config.maxfilesize + buffer_size ≤ 2 ^ 64)
    {s : State} (h : Invariant config n s) (st : Step) :
    Invariant config n (deliver s st) := by
  have ok := @layer_ok config n hpos hmax (st.outcomes.length + 1)
  have h0 : Invariant config n { s with outcomes := st.outcomes, opens := st.opens } :=
    h.of_eq _ rfl rfl rfl rfl rfl rfl rfl rfl rfl rfl
  unfold deliver
  cases he : st.event with
  | accept_done error =>
    simp only
    by_cases hp : s.accept_pending = true
    · rw [if_pos hp]
      have ha : Invariant config n
          { s with outcomes := st.outcomes, opens := st.opens, accept_pending := false } :=
        h.of_eq _ rfl rfl rfl rfl rfl rfl rfl rfl rfl rfl
      exact inv_complete ok hpos ha .accept error 0 (Nat.zero_le _)
    · rw [if_neg hp]; exact h
  | disconnect_done error =>
    simp only
    by_cases hp : s.disconnect_pending = true
    · rw [if_pos hp]
      have ha : Invariant config n
          { s with outcomes := st.outcomes, opens := st.opens, disconnect_pending := false } :=
        h.of_eq _ rfl rfl rfl rfl rfl rfl rfl rfl rfl rfl
      exact inv_complete ok hpos ha .disconnect error 0 (Nat.zero_le _)
    · rw [if_neg hp]; exact h
  | receive_done error chunk =>
    simp only
    by_cases hp : s.receive_pending = true
    · rw [if_pos hp]
      have ha : Invariant config n
          { s with outcomes := st.outcomes, opens := st.opens, receive_pending := false } :=
        h.of_eq _ rfl rfl rfl rfl rfl rfl rfl rfl rfl rfl
      by_cases hz : error = 0
      · rw [if_pos hz]
        have hb : Invariant config n (stored chunk
            { s with outcomes := st.outcomes, opens := st.opens, receive_pending := false }) :=
          ha.of_eq _ rfl rfl rfl rfl rfl rfl rfl rfl rfl rfl
        exact inv_complete ok hpos hb .receive 0 _ (List.length_take_le _ _)
      · rw [if_neg hz]
        exact inv_complete ok hpos ha .receive error 0 (Nat.zero_le _)
    · rw [if_neg hp]; exact h
  | write_done error count =>
    simp only
    cases hw : s.write_pending with
    | none => exact h
    | some len =>
      obtain ⟨w1, w2, w3⟩ := h.writing len hw
      have hi : Invariant config n
          { s with outcomes := st.outcomes, opens := st.opens, write_pending := none } := {
        config_eq := h.config_eq
        nconnection_eq := h.nconnection_eq
        names := h.names
        open_size := h.open_size
        closed := h.closed
        final_size := h.final_size
        writing := by intro l hl; cases hl }
      have hwr : Writable config n
          { s with outcomes := st.outcomes, opens := st.opens, write_pending := none } :=
        ⟨hi, w1, w3, rfl⟩
      exact inv_complete_file ok hmax hwr error (min count len)
        (Nat.le_trans (Nat.min_le_right _ _) w2)
  | connection_timer_fired => exact inv_connection_timer ok h0
  | file_timer_fired => exact inv_file_timer h0
  | tick now =>
    have ha : Invariant config n { s with clock := now } :=
      h.of_eq _ rfl rfl rfl rfl rfl rfl rfl rfl rfl rfl
    exact ha

theorem inv_run (hpos : 0 < config.maxfilesize)
    (hmax : config.maxfilesize + buffer_size ≤ 2 ^ 64) (steps : List Step) :
    ∀ {s : State}, Invariant config n s → Invariant config n (run s steps) := by
  induction steps with
  | nil => intro s h; exact h
  | cons st steps ih => intro s h; exact ih (inv_deliver hpos hmax h st)

theorem inv_armed (config : Config) (n filesize file_creation : Nat) :
    Invariant config n (armed config n filesize file_creation) where
  config_eq := rfl
  nconnection_eq := rfl
  names := rfl
  open_size := by intro hf; cases hf
  closed := fun _ => rfl
  final_size := by intro f hf; cases hf
  writing := by intro len hl; cases hl

end Receiver

namespace Receiver

open Libc
open connection

/-- The loop of `acceptor::listen`, when it succeeds, appends one new connection
per slot, numbered consecutively. -/
theorem listen_loop_spec (config : Config) (env : ListenEnv) (remaining : Nat) :
    ∀ (slot nconnection : Nat) (stored out : List State),
      acceptor.listen_loop config env remaining slot nconnection stored = (true, out) →
      out = stored ++ (List.range remaining).map (fun j =>
        armed config (nconnection + j) (env.filesize (slot + j)) (env.file_creation (slot + j))) := by
  induction remaining with
  | zero =>
    intro slot nconnection stored out h
    simp only [acceptor.listen_loop, Prod.mk.injEq, true_and] at h
    simp [h]
  | succ k ih =>
    intro slot nconnection stored out h
    unfold acceptor.listen_loop at h
    by_cases hc : env.connection_ok slot = true
    · rw [if_pos hc] at h
      have hf : (fun j => armed config (nconnection + 1 + j) (env.filesize (slot + 1 + j))
            (env.file_creation (slot + 1 + j))) =
          ((fun j => armed config (nconnection + j) (env.filesize (slot + j))
            (env.file_creation (slot + j))) ∘ Nat.succ) := by
        funext j
        simp only [Function.comp, Nat.succ_eq_add_one]
        rw [show nconnection + 1 + j = nconnection + (j + 1) by omega,
          show slot + 1 + j = slot + (j + 1) by omega]
      rw [ih _ _ _ _ h, List.range_succ_eq_map, List.map_cons, List.map_map, List.append_assoc,
        hf]
      rfl
    · rw [if_neg hc] at h
      cases h

/-- Every connection stored by `acceptor::listen` has the number
`nacceptor * nconnections + slot` and has opened no file yet. -/
theorem acceptor_listen_spec (config : Config) (nacceptor : Nat) (env : ListenEnv)
    (out : List State) (h : acceptor.listen config nacceptor env = (true, out)) :
    out.length = config.nconnections ∧
    ∀ slot s, out[slot]? = some s →
      s = armed config (nacceptor * config.nconnections + slot) (env.filesize slot)
        (env.file_creation slot) := by
  unfold acceptor.listen at h
  by_cases h1 : env.listen_ok = true
  · rw [if_pos h1] at h
    by_cases h2 : env.malloc_ok = true
    · rw [if_pos h2] at h
      have := listen_loop_spec config env _ _ _ _ _ h
      simp only [List.nil_append, Nat.zero_add] at this
      subst this
      refine ⟨by simp, ?_⟩
      intro slot s hs
      rw [List.getElem?_map] at hs
      cases hr : (List.range config.nconnections)[slot]? with
      | none => rw [hr] at hs; cases hs
      | some j =>
        rw [hr] at hs
        simp only [Option.map_some', Option.some.injEq] at hs
        rw [List.getElem?_range] at hr
        · injection hr with hr
          subst hr
          exact hs.symm
        · by_contra hlt
          rw [List.getElem?_eq_none (by simpa using hlt)] at hr
          cases hr
    · rw [if_neg h2] at h
      cases h
  · rw [if_neg h1] at h
    cases h

/-- One call of `acceptors::listen` keeps the numbering. -/
theorem numbered_listen (config : Config) (env : AcceptorsEnv) (a : Acceptors)
    (h : Numbered config a) : Numbered config (acceptors.listen config env a).2 := by
  obtain ⟨hu, hn⟩ := h
  have halloc : (acceptors.allocate env.realloc_ok a).2.used = a.used ∧
      (acceptors.allocate env.realloc_ok a).2.acceptors = a.acceptors := by
    simp only [acceptors.allocate]
    split_ifs <;> exact ⟨rfl, rfl⟩
  have hbase : Numbered config (acceptors.allocate env.realloc_ok a).2 := by
    refine ⟨?_, ?_⟩
    · rw [halloc.1, halloc.2]; exact hu
    · rw [halloc.2]; exact hn
  unfold acceptors.listen
  simp only
  split
  · split
    · cases hl : acceptor.listen config (acceptors.allocate env.realloc_ok a).2.used env.listen with
      | mk ok out =>
        cases ok with
        | false => simpa [hl] using hbase
        | true =>
          simp only [if_true]
          obtain ⟨s1, s2⟩ := acceptor_listen_spec config _ env.listen out hl
          refine ⟨?_, ?_⟩
          · simp only [List.length_append, List.length_singleton, halloc.1, halloc.2, hu]
          · intro i conns hi
            simp only at hi
            rw [halloc.2] at hi
            by_cases hlt : i < a.acceptors.length
            · rw [List.getElem?_append_left hlt] at hi
              exact hn i conns hi
            · rw [List.getElem?_append_right (by omega)] at hi
              have hi0 : i - a.acceptors.length = 0 := by
                by_contra hne
                rw [List.getElem?_eq_none (by simp; omega)] at hi
                cases hi
              rw [hi0] at hi
              simp only [List.getElem?_cons_zero, Option.some.injEq] at hi
              subst hi
              have hi' : i = a.used := by omega
              subst hi'
              refine ⟨s1, ?_⟩
              intro slot s hs
              rw [halloc.1] at s2
              exact ⟨_, _, s2 slot s hs⟩
    · exact hbase
  · exact hbase

/-- Any sequence of calls of `acceptors::listen` keeps the numbering. -/
theorem numbered_listen_all (config : Config) (envs : List AcceptorsEnv) :
    ∀ a, Numbered config a → Numbered config (acceptors.listen_all config a envs) := by
  induction envs with
  | nil => intro a h; exact h
  | cons env envs ih => intro a h; exact ih _ (numbered_listen config env a h)

/-- The empty container is numbered. -/
theorem numbered_empty (config : Config) : Numbered config acceptors.empty := by
  refine ⟨rfl, ?_⟩
  intro i conns hi
  simp [acceptors.empty] at hi


/-- C10.  For the connection `s0` in slot `slot` of the acceptor with index `a`
of a container filled by calls of `acceptors::listen`: `slot < nconnections`,
the connection number is `a * nconnections + slot`, the sequence counter
`_M_nfile` starts at 0, and in every run of the connection the `k`-th file
opened (`k ≥ 1`) is named by the text `tmpdir\file-<a*N+slot>-<k>.bin` as
`snprintf` leaves it in a buffer of `MAX_PATH` characters, which is the whole
text whenever it is shorter than `MAX_PATH`. -/
theorem open_file_names (config : Config) (envs : List AcceptorsEnv) (a slot k : Nat)
    (conns : List State) (s0 : State) (steps : List Step) (path : List Char)
    (hcfg : file_size_in_range config)
    (ha : (acceptors.listen_all config acceptors.empty envs).acceptors[a]? = some conns)
    (hs : conns[slot]? = some s0)
    (hk : 1 ≤ k)
    (hp : ((run s0 steps).calls.filterMap open_path)[k - 1]? = some path) :
    slot < config.nconnections ∧
    s0.nconnection = a * config.nconnections + slot ∧
    s0.nfile = 0 ∧
    path = (config.tmpdir ++ [Char.ofNat 92] ++
      basename (a * config.nconnections + slot) k).take (MAX_PATH - 1) ∧
    ((config.tmpdir ++ [Char.ofNat 92] ++
        basename (a * config.nconnections + slot) k).length < MAX_PATH →
      path = config.tmpdir ++ [Char.ofNat 92] ++
        basename (a * config.nconnections + slot) k) := by
  obtain ⟨h1, h2⟩ := hcfg
  have hpos : 0 < config.maxfilesize := by omega
  have hmax : config.maxfilesize + buffer_size ≤ 2 ^ 64 := by simp only [buffer_size]; omega
  obtain ⟨hlen, hslot⟩ :=
    (numbered_listen_all config envs _ (numbered_empty config)).2 a conns ha
  obtain ⟨filesize, file_creation, hs0⟩ := hslot slot s0 hs
  subst hs0
  have hinv := inv_run hpos hmax steps
    (inv_armed config (a * config.nconnections + slot) filesize file_creation)
  have hlt : slot < config.nconnections := by
    rw [← hlen]
    by_contra hge
    rw [List.getElem?_eq_none (by omega)] at hs
    cases hs
  have hpath : path = (config.tmpdir ++ [Char.ofNat 92] ++
      basename (a * config.nconnections + slot) k).take (MAX_PATH - 1) := by
    rw [hinv.names, List.getElem?_map] at hp
    cases hr : (List.range (run (armed config (a * config.nconnections + slot) filesize
        file_creation) steps).nfile)[k - 1]? with
    | none => rw [hr] at hp; cases hp
    | some j =>
      rw [hr] at hp
      simp only [Option.map_some', Option.some.injEq] at hp
      have hj : j = k - 1 := by
        by_cases hb : k - 1 < (run (armed config (a * config.nconnections + slot) filesize
            file_creation) steps).nfile
        · rw [List.getElem?_range hb] at hr
          injection hr with hr
          exact hr.symm
        · rw [List.getElem?_eq_none (by simpa using hb)] at hr
          cases hr
      subst hj
      rw [← hp, Nat.sub_add_cancel hk]
      simp only [pathname, basename, List.append_assoc]
  refine ⟨hlt, rfl, rfl, hpath, ?_⟩
  intro hfits
  rw [hpath]
  exact List.take_of_length_le (by simp only [MAX_PATH]; simp only [MAX_PATH] at hfits; omega)

/-- Two acceptors of two connections each: the second file opened by the
connection in slot 1 of acceptor 1 is `tmp\file-3-2.bin`. -/
theorem open_file_names_witness :
    file_size_in_range sample_config2 ∧
    (acceptors.listen_all sample_config2 acceptors.empty [sample_env, sample_env]).acceptors[1]? =
      some [armed sample_config2 2 0 0, armed sample_config2 3 0 0] ∧
    ((run (armed sample_config2 3 0 0) rotating_session).calls.filterMap open_path)[2 - 1]? =
      some ("tmp".toList ++ [Char.ofNat 92] ++ "file-3-2.bin".toList) ∧
    "tmp".toList ++ [Char.ofNat 92] ++ "file-3-2.bin".toList =
      sample_config2.tmpdir ++ [Char.ofNat 92] ++ basename (1 * sample_config2.nconnections + 1) 2 :=
  ⟨by unfold file_size_in_range; decide, rfl, by decide!,
    (open_file_names sample_config2 [sample_env, sample_env] 1 1 2
      [armed sample_config2 2 0 0, armed sample_config2 3 0 0] (armed sample_config2 3 0 0)
      rotating_session ("tmp".toList ++ [Char.ofNat 92] ++ "file-3-2.bin".toList)
      (by unfold file_size_in_range; decide) rfl rfl (by decide) (by decide!)).2.2.2.2 (by decide!)⟩

end Receiver

namespace Proxy

open Socket (operation)

/-- The pending layer records the call and nothing else in the history. -/
theorem pending_calls (c : Call) (s : State) : (pending c s).calls = s.calls ++ [c] := by
  cases c with
  | receive side => cases side <;> rfl
  | send side d l => cases side <;> rfl
  | _ => rfl

/-- The pending layer leaves `_M_nconnections` alone. -/
theorem pending_nconnections (c : Call) (s : State) :
    (pending c s).server_nconnections = s.server_nconnections := by
  cases c with
  | receive side => cases side <;> rfl
  | send side d l => cases side <;> rfl
  | _ => rfl

/-- The pending layer leaves the flag `_M_open` of the server side alone. -/
theorem pending_server_open (c : Call) (s : State) :
    (pending c s).server_open = s.server_open := by
  cases c with
  | receive side => cases side <;> rfl
  | send side d l => cases side <;> rfl
  | _ => rfl

/-- The pending layer leaves the flag `_M_open` of the client side alone. -/
theorem pending_client_open (c : Call) (s : State) :
    (pending c s).client_open = s.client_open := by
  cases c with
  | receive side => cases side <;> rfl
  | send side d l => cases side <;> rfl
  | _ => rfl

/-- An event of the data phase neither changes `_M_nconnections` nor starts an
accept. -/
theorem in_session_frame (s : State) (e : Event) (h : e.in_session = true) :
    (handle s e).server_nconnections = s.server_nconnections ∧
    accepts (handle s e).calls = accepts s.calls := by
  cases e with
  | timer =>
    simp only [handle, server.timer, server.close_connections, server.close, client.close,
      server.stop_timer]
    split_ifs <;> simp [pending_calls, pending_nconnections, accepts]
  | complete side op error transferred =>
    cases op <;> simp only [Event.in_session] at h <;> try cases h
    all_goals
      cases side <;>
      simp only [handle, settle, server.complete, client.complete, server.received,
        client.received, server.sent, client.sent, server.send, client.send, server.receive,
        client.receive, server.close_connections, server.close, client.close,
        server.stop_timer, server.start_timer] <;>
      split_ifs <;>
      simp [pending_calls, pending_nconnections, pending_server_open, pending_client_open,
        accepts]


/-- A sequence of events of the data phase neither changes `_M_nconnections`
nor starts an accept. -/
theorem play_in_session (es : List Event) :
    ∀ (s : State), (∀ e ∈ es, e.in_session = true) →
      (play s es).server_nconnections = s.server_nconnections ∧
      accepts (play s es).calls = accepts s.calls := by
  induction es with
  | nil => intro s _; exact ⟨rfl, rfl⟩
  | cons e es ih =>
    intro s h
    obtain ⟨a, b⟩ := ih (handle s e) (fun x hx => h x (List.mem_cons_of_mem e hx))
    obtain ⟨c, d⟩ := in_session_frame s e (h e (List.mem_cons_self e es))
    exact ⟨a.trans c, b.trans d⟩

/-- A disconnect completion of either side, with or without error, runs
`server::disconnected`. -/
theorem handle_disconnect (s : State) (side : Side) (error transferred : Nat) :
    handle s (.complete side .disconnect error transferred) = server.disconnected pending s := by
  cases side <;> simp only [handle, settle, server.complete, client.complete,
    client.disconnected] <;> split_ifs <;> rfl

/-- With two open connections `server::disconnected` only counts down. -/
theorem disconnected_two (s : State) (h : s.server_nconnections = 2) :
    server.disconnected pending s = { s with server_nconnections := 1 } := by
  simp [server.disconnected, h]

/-- With one open connection `server::disconnected` starts an accept. -/
theorem disconnected_one (s : State) (h : s.server_nconnections = 1) :
    (server.disconnected pending s).calls = s.calls ++ [.accept] := by
  simp [server.disconnected, h, server.accept, pending_calls]

/-- C11.  Every operation being reported as pending, take a session whose accept
and connect succeeded, any events of the data phase (receive and send
completions with or without error, timer expiries), a disconnect completion of
either side with or without error, more events of the data phase, and a second
disconnect completion: no accept has been started before the second disconnect
completion, and that completion starts exactly one.  In a session whose
connect failed, no accept is started until the disconnect of the server side
completes, and that completion starts exactly one. -/
theorem accept_after_second_disconnect (timeout : Nat) (es1 es2 es3 : List Event)
    (d1 d2 : Side) (e1 e2 e3 t1 t2 t3 connect_error : Nat)
    (h1 : ∀ e ∈ es1, e.in_session = true) (h2 : ∀ e ∈ es2, e.in_session = true)
    (h3 : ∀ e ∈ es3, e.in_session = true) (hc : connect_error ≠ 0) :
    (accepts (play (handle (play (established timeout) es1)
        (.complete d1 .disconnect e1 t1)) es2).calls = 0 ∧
      (handle (play (handle (play (established timeout) es1)
          (.complete d1 .disconnect e1 t1)) es2) (.complete d2 .disconnect e2 t2)).calls =
        (play (handle (play (established timeout) es1)
          (.complete d1 .disconnect e1 t1)) es2).calls ++ [.accept]) ∧
    (accepts (play (handle (connecting timeout)
        (.complete .client .connect connect_error 0)) es3).calls = 0 ∧
      (handle (play (handle (connecting timeout)
          (.complete .client .connect connect_error 0)) es3)
          (.complete .server .disconnect e3 t3)).calls =
        (play (handle (connecting timeout)
          (.complete .client .connect connect_error 0)) es3).calls ++ [.accept]) := by
  constructor
  · obtain ⟨a1, b1⟩ := play_in_session es1 (established timeout) h1
    have hd : handle (play (established timeout) es1) (.complete d1 .disconnect e1 t1) =
        { play (established timeout) es1 with server_nconnections := 1 } := by
      rw [handle_disconnect]
      exact disconnected_two _ (a1.trans rfl)
    obtain ⟨a2, b2⟩ := play_in_session es2
      (handle (play (established timeout) es1) (.complete d1 .disconnect e1 t1)) h2
    have he : (established timeout).calls =
        [.timer_expires_in (timeout * 1000 * 1000 % 2 ^ 64), .connect, .timer_cancel,
          .receive .server, .receive .client] := rfl
    refine ⟨?_, ?_⟩
    · rw [b2, hd]
      show accepts (play (established timeout) es1).calls = 0
      rw [b1, he]
      simp [accepts]
    · rw [handle_disconnect]
      refine disconnected_one _ (a2.trans ?_)
      rw [hd]
  · have hf : (handle (connecting timeout) (.complete .client .connect connect_error 0)).server_nconnections = 1 ∧
        accepts (handle (connecting timeout) (.complete .client .connect connect_error 0)).calls = 0 := by
      have hh : handle (connecting timeout) (.complete .client .connect connect_error 0) =
          server.close pending true (connecting timeout) := by
        simp only [handle, settle, client.complete, if_neg hc]
      have hk : (server.close pending true (connecting timeout)).calls =
          [.timer_expires_in (timeout * 1000 * 1000 % 2 ^ 64), .connect, .timer_cancel,
            .cancel .server .receive, .cancel .server .send, .disconnect .server] := rfl
      rw [hh, hk]
      exact ⟨rfl, by simp [accepts]⟩
    obtain ⟨a3, b3⟩ := play_in_session es3 _ h3
    refine ⟨b3.trans hf.2, ?_⟩
    rw [handle_disconnect]
    exact disconnected_one _ (a3.trans hf.1)


/-- An event that does not start a session of a side keeps the number of
disconnects started on that side plus its flag `_M_open`. -/
theorem handle_balance (side : Side) (s : State) (e : Event) (h : e.starts side = false) :
    disconnects side (handle s e).calls + (is_open side (handle s e)).toNat =
      disconnects side s.calls + (is_open side s).toNat := by
  cases e with
  | timer =>
    cases side <;>
    simp only [handle, server.timer, server.close_connections, server.close, client.close,
      server.stop_timer, is_open] <;>
    split_ifs <;>
    simp_all [pending_calls, pending_server_open, pending_client_open, disconnects]
  | complete on_side op error transferred =>
    by_cases he : error = 0 <;>
    cases op <;> cases on_side <;> cases side <;>
    simp only [Event.starts, he, decide_True, decide_False] at h <;>
    simp only [handle, settle, server.complete, client.complete, server.received,
      client.received, server.sent, client.sent, server.send, client.send, server.receive,
      client.receive, server.close_connections, server.close, client.close,
      server.stop_timer, server.start_timer, server.accepted, server.accept, server.connect,
      client.connect, client.connected, server.connected, server.disconnected,
      client.disconnected, is_open, he, if_true, if_false] <;>
    (try split_ifs) <;>
    simp_all [pending_calls, pending_server_open, pending_client_open, disconnects]


/-- After `server::close` the server side is closed. -/
theorem server_close_closed (s : State) (cancel_timer : Bool) :
    (server.close pending cancel_timer s).server_open = false := by
  simp only [server.close, server.stop_timer]
  split_ifs <;> simp_all [pending_server_open]

/-- After `client::close` the client side is closed. -/
theorem client_close_closed (s : State) :
    (client.close pending s).client_open = false := by
  simp only [client.close]
  split_ifs <;> simp_all [pending_client_open]

/-- On a closed server side `server::close` does nothing, whatever the layer. -/
theorem server_close_of_closed (io : Layer) (s : State) (cancel_timer : Bool)
    (h : s.server_open = false) : server.close io cancel_timer s = s := by
  simp [server.close, h]

/-- On a closed client side `client::close` does nothing, whatever the layer. -/
theorem client_close_of_closed (io : Layer) (s : State)
    (h : s.client_open = false) : client.close io s = s := by
  simp [client.close, h]

/-- A sequence of events none of which starts a session of a side keeps the
number of disconnects started on that side plus its flag `_M_open`. -/
theorem play_balance (side : Side) (es : List Event) :
    ∀ (s : State), (∀ e ∈ es, e.starts side = false) →
      disconnects side (play s es).calls + (is_open side (play s es)).toNat =
        disconnects side s.calls + (is_open side s).toNat := by
  induction es with
  | nil => intro s _; rfl
  | cons e es ih =>
    intro s h
    exact (ih (handle s e) (fun x hx => h x (List.mem_cons_of_mem e hx))).trans
      (handle_balance side s e (h e (List.mem_cons_self e es)))

/-- C12.  Every operation being reported as pending: `server::close` called
twice equals `server::close` called once, whatever the state and the two
arguments, and likewise `client::close`; on a closed side `close` returns the
state unchanged, history of calls included, whatever the layer; and in any
sequence of events that contains no accepted event (for the server side) or
connected event (for the client side), at most one disconnect is started on
that side. -/
theorem close_twice (side : Side) (s : State) (cancel_timer again : Bool) (es : List Event)
    (h : ∀ e ∈ es, e.starts side = false) :
    server.close pending again (server.close pending cancel_timer s) =
      server.close pending cancel_timer s ∧
    client.close pending (client.close pending s) = client.close pending s ∧
    (∀ io : Layer, s.server_open = false → server.close io again s = s) ∧
    (∀ io : Layer, s.client_open = false → client.close io s = s) ∧
    disconnects side (play s es).calls ≤ disconnects side s.calls + 1 := by
  refine ⟨server_close_of_closed _ _ _ (server_close_closed s cancel_timer),
    client_close_of_closed _ _ (client_close_closed s),
    fun io hs => server_close_of_closed io s again hs,
    fun io hs => client_close_of_closed io s hs, ?_⟩
  have hb := play_balance side es s h
  have h1 : (is_open side s).toNat ≤ 1 := by cases is_open side s <;> simp
  omega

/-- In an established session the timer fires twice and a receive fails in
between: the server side starts one disconnect. -/
theorem close_twice_witness :
    disconnects .server (play (established 5)
      [.timer, .complete .server .receive 5 0, .complete .client .disconnect 0 0, .timer]).calls
      = 1 ∧
    disconnects .server (play (established 5)
      [.timer, .complete .server .receive 5 0, .complete .client .disconnect 0 0, .timer]).calls ≤
      disconnects .server (established 5).calls + 1 :=
  ⟨by decide, (close_twice .server (established 5) true true
    [.timer, .complete .server .receive 5 0, .complete .client .disconnect 0 0, .timer]
    (by decide)).2.2.2.2⟩

/-- Timeout 5: the timer closes both legs, the client side disconnects first, a
cancelled receive completes, then the server side disconnects and the accept
is started. -/
theorem accept_after_second_disconnect_witness :
    (handle (play (handle (play (established 5) [.timer]) (.complete .client .disconnect 0 0))
        [.complete .server .receive 995 0]) (.complete .server .disconnect 0 0)).calls =
      (play (handle (play (established 5) [.timer]) (.complete .client .disconnect 0 0))
        [.complete .server .receive 995 0]).calls ++ [.accept] :=
  (accept_after_second_disconnect 5 [.timer] [.complete .server .receive 995 0] []
    .client .server 0 0 0 0 0 0 10061 (by decide) (by decide) (by decide) (by decide)).1.2

end Proxy

namespace Proxy
open Socket (operation)

/-- C14 (counterexample).  With a timeout of 5 seconds, in the state reached
after a successful accept and a successful connect with no data received, the
timer is not armed: the last call to the timer is the `cancel` made by
`server::receive`. -/
theorem established_watchdog_cancelled :
    watchdog (established 5).calls = none ∧
    (established 5).calls =
      [.timer_expires_in 5000000, .connect, .timer_cancel, .receive .server, .receive .client] :=
  ⟨rfl, rfl⟩

/-- C14 (amended).  While the connect is outstanding the timer is armed with
`timeout * 1000 * 1000` microseconds (a `uint64_t` product); once the connect
has succeeded and nothing has been received, the timer has been cancelled;
it is armed again with the same interval when data arrives from the accepted
peer; and whenever the timer callback runs with both sides open it cancels
the receive and the send of each side and disconnects each side, the client
side first, without cancelling the timer. -/
theorem watchdog_armed_while_connecting (timeout : Nat) (s : State) (transferred : Nat)
    (hs : s.server_open = true) (hc : s.client_open = true) (ht : 0 < transferred) :
    watchdog (connecting timeout).calls = some (timeout * 1000 * 1000 % 2 ^ 64) ∧
    watchdog (established timeout).calls = none ∧
    watchdog (handle (established timeout) (.complete .server .receive 0 transferred)).calls =
      some (timeout * 1000 * 1000 % 2 ^ 64) ∧
    (server.timer pending s).calls = s.calls ++
      [.cancel .client .receive, .cancel .client .send, .disconnect .client,
       .cancel .server .receive, .cancel .server .send, .disconnect .server] := by
  refine ⟨rfl, rfl, ?_, ?_⟩
  · simp only [handle, settle, server.complete, server.received, if_true, ht]
    rfl
  · simp [server.timer, server.close_connections, server.close, client.close, hs, hc,
      pending_calls, pending_server_open]

/-- Timeout 5: the timer is armed with 5 000 000 microseconds during the
connect, and the timer callback in the established session closes both
legs. -/
theorem watchdog_armed_while_connecting_witness :
    watchdog (connecting 5).calls = some 5000000 ∧
    (server.timer pending (established 5)).calls = (established 5).calls ++
      [.cancel .client .receive, .cancel .client .send, .disconnect .client,
       .cancel .server .receive, .cancel .server .send, .disconnect .server] :=
  ⟨(watchdog_armed_while_connecting 5 (established 5) 1 rfl rfl (by decide)).1,
   (watchdog_armed_while_connecting 5 (established 5) 1 rfl rfl (by decide)).2.2.2⟩

/-- C18.  For all arguments and every answer of the operating system,
`proxy::create` returns false and leaves the configuration as it was when
`nconnections` is outside 1..4096, `timeout` is outside 5..86400 or the thread
pool cannot be created; when it returns true the stored configuration holds
the two arguments, which are then in range; and with the default arguments
(1 and 4 threads, 256 connections, 30 seconds) it returns true whenever the
operating system creates the pool. -/
theorem create_checks (os : ThreadPool.Os) (minthreads maxthreads nconnections timeout : Nat)
    (config : Config) :
    ((nconnections < 1 ∨ 4096 < nconnections ∨ timeout < 5 ∨ 86400 < timeout ∨
        ThreadPool.create os minthreads maxthreads = false) →
      create os minthreads maxthreads nconnections timeout config = (false, config)) ∧
    ((create os minthreads maxthreads nconnections timeout config).1 = true →
      (create os minthreads maxthreads nconnections timeout config).2 =
        { nconnections := nconnections, timeout := timeout } ∧
      1 ≤ nconnections ∧ nconnections ≤ 4096 ∧ 5 ≤ timeout ∧ timeout ≤ 86400) ∧
    (os.create_threadpool_ok = true → os.set_minimum_ok = true →
      create os ThreadPool.min_threads ThreadPool.default_max_threads default_connections
        default_timeout config = (true, { nconnections := 256, timeout := 30 })) := by
  refine ⟨?_, ?_, ?_⟩
  · intro h
    unfold create
    simp only [min_connections, max_connections, min_timeout, max_timeout]
    split_ifs with h1 h2
    · rcases h with h | h | h | h | h
      · omega
      · omega
      · omega
      · omega
      · rw [h] at h2; cases h2
    · rfl
    · rfl
  · unfold create
    simp only [min_connections, max_connections, min_timeout, max_timeout]
    split_ifs with h1 h2
    · intro _; exact ⟨rfl, by omega⟩
    · intro h; cases h
    · intro h; cases h
  · intro h1 h2
    simp [create, ThreadPool.create, h1, h2, ThreadPool.min_threads, ThreadPool.max_threads, ThreadPool.default_max_threads, min_connections, max_connections, min_timeout, max_timeout, default_connections, default_timeout]

/-- With 0 connections `create` fails and keeps the configuration; with the
default arguments it succeeds and stores 256 connections and 30 seconds. -/
theorem create_checks_witness :
    create { create_threadpool_ok := true, set_minimum_ok := true } 1 4 0 30
        { nconnections := 7, timeout := 9 } = (false, { nconnections := 7, timeout := 9 }) ∧
    create { create_threadpool_ok := true, set_minimum_ok := true } ThreadPool.min_threads
        ThreadPool.default_max_threads default_connections default_timeout
        { nconnections := 7, timeout := 9 } = (true, { nconnections := 256, timeout := 30 }) :=
  ⟨(create_checks { create_threadpool_ok := true, set_minimum_ok := true } 1 4 0 30
      { nconnections := 7, timeout := 9 }).1 (Or.inl (by decide)),
   (create_checks { create_threadpool_ok := true, set_minimum_ok := true } 1 4 0 30
      { nconnections := 7, timeout := 9 }).2.2 rfl rfl⟩

end Proxy

namespace Receiver

open Libc
open Socket (operation)
open connection

/-- C16.  For every state, when every operation started is reported as
pending, a file-write completion with a nonzero error makes exactly these
calls, in this order: cancel of the file timer, close of the file, then either
the move of the staging file of the current connection number and sequence to
the final directory (when `_M_filesize > 0`) or the delete of that staging
file (otherwise), release of the file mutex, cancel of the connection timer,
cancel of the receive, disconnect.  So it never both moves and deletes and
starts no receive; the file is closed and the file mutex decremented. -/
theorem write_error_teardown (s : State) (error transferred : Nat) (he : error ≠ 0) :
    complete_file (layer 0) error transferred s =
      { s with
        calls := s.calls ++
          [.file_timer_cancel, .file_close,
           if 0 < s.filesize then
             .move_file (pathname s.config.tmpdir s.nconnection s.nfile)
               (pathname s.config.finaldir s.nconnection s.nfile)
           else .delete_file (pathname s.config.tmpdir s.nconnection s.nfile),
           .file_mutex_release, .connection_timer_cancel, .cancel_receive, .disconnect],
        file_is_open := false,
        staging := none,
        final :=
          if 0 < s.filesize then
            s.final ++ s.staging.toList.map
              (fun content => (pathname s.config.finaldir s.nconnection s.nfile, content))
          else s.final,
        file_mutex := decrement s.file_mutex,
        disconnect_pending := true } := by
  simp only [complete_file, if_neg he, error_writing_file]
  rw [(@close_file_filesize 0 true s).1, (@close_file_filesize 0 true s).2.1,
    (@close_file_filesize 0 true s).2.2.1, (@close_file_filesize 0 true s).2.2.2]
  by_cases hf : 0 < s.filesize
  · rw [if_pos hf, if_pos hf, if_pos hf]
    rw [close_move_eq, close_connection_zero]
    simp [unlock_file]
  · rw [if_neg hf, if_neg hf, if_neg hf, close_delete_eq, close_connection_zero]
    simp [unlock_file]

/-- A write fails with error 5 after three bytes were written to the first
file of connection 0: the file is moved to the final directory. -/
theorem write_error_teardown_witness :
    (complete_file (layer 0) 5 0
      { armed sample_config 0 0 0 with
        filesize := 3, file_is_open := true, file_mutex := 1, nfile := 1,
        staging := some [1, 2, 3] }).calls =
      [.accept, .file_timer_cancel, .file_close,
       .move_file (pathname sample_config.tmpdir 0 1) (pathname sample_config.finaldir 0 1),
       .file_mutex_release, .connection_timer_cancel, .cancel_receive, .disconnect] ∧
    (complete_file (layer 0) 5 0
      { armed sample_config 0 0 0 with
        filesize := 3, file_is_open := true, file_mutex := 1, nfile := 1,
        staging := some [1, 2, 3] }).final =
      [(pathname sample_config.finaldir 0 1, [1, 2, 3])] :=
  ⟨congrArg State.calls (write_error_teardown
      { armed sample_config 0 0 0 with
        filesize := 3, file_is_open := true, file_mutex := 1, nfile := 1,
        staging := some [1, 2, 3] } 5 0 (by decide)),
   congrArg State.final (write_error_teardown
      { armed sample_config 0 0 0 with
        filesize := 3, file_is_open := true, file_mutex := 1, nfile := 1,
        staging := some [1, 2, 3] } 5 0 (by decide))⟩

/-- C13 (failing input).  The watchdog of an accepted session expires, and
the receive that was outstanding then completes with 0 bytes (the peer closed
at the same moment): `close_connection` runs twice in the session and starts
a cancel and a disconnect each time.  Likewise `close_connection` called
twice in succession appends its three calls twice. -/
theorem close_connection_twice_disconnects_twice :
    (run (armed sample_config 0 0 0)
      [{ event := .accept_done 0, outcomes := [], opens := [] },
       { event := .connection_timer_fired, outcomes := [], opens := [] },
       { event := .receive_done 0 [], outcomes := [], opens := [] }]).calls =
      [.accept, .connection_timer_expires_in 30000000, .receive,
       .cancel_receive, .disconnect, .connection_mutex_release,
       .connection_timer_cancel, .cancel_receive, .disconnect, .connection_mutex_release] ∧
    (close_connection (layer 0) true
        (close_connection (layer 0) true (armed sample_config 0 0 0))).calls =
      (close_connection (layer 0) true (armed sample_config 0 0 0)).calls ++
        [.connection_timer_cancel, .cancel_receive, .disconnect] := by
  constructor
  · decide!
  · decide!

/-- C17.  For a receive or send completion with a nonzero error code,
whatever the layer and the state: with the cancelled code
`WSA_OPERATION_ABORTED`, the handlers of the proxy server side, of the proxy
client side and of the receiver connection return the state unchanged, history
of calls included; with any other error code, the two proxy handlers run
`server::close_connections()` and the receiver handler runs
`close_connection()`.  A receiver connection starts no send (its calls have
none), so the completion of a data transfer that reaches its handler is that
of a receive. -/
theorem failed_transfer (pio : Proxy.Layer) (rio : Layer) (p : Proxy.State) (r : State)
    (op : operation) (error transferred : Nat)
    (hop : op = .receive ∨ op = .send) (he : error ≠ 0) :
    (error = WSA_OPERATION_ABORTED →
      Proxy.server.complete pio op error transferred p = p ∧
      Proxy.client.complete pio op error transferred p = p ∧
      complete rio op error transferred r = r) ∧
    (error ≠ WSA_OPERATION_ABORTED →
      Proxy.server.complete pio op error transferred p =
        Proxy.server.close_connections pio true p ∧
      Proxy.client.complete pio op error transferred p =
        Proxy.server.close_connections pio true p ∧
      complete rio .receive error transferred r = close_connection rio true r) := by
  constructor
  · intro ha
    have h1 : ¬ error ≠ WSA_OPERATION_ABORTED := fun h => h ha
    have h2 : ¬ error ≠ Proxy.WSA_OPERATION_ABORTED := fun h => h ha
    rcases hop with rfl | rfl <;>
    simp only [Proxy.server.complete, Proxy.client.complete, complete, if_neg he, if_neg h1,
      if_neg h2, and_self]
  · intro ha
    have ha' : error ≠ Proxy.WSA_OPERATION_ABORTED := ha
    rcases hop with rfl | rfl <;>
    simp [Proxy.server.complete, Proxy.client.complete, complete, he, ha, ha']

/-- Error 10054 (connection reset): a failed receive closes the receiver
connection and a failed send closes both legs of the proxy; the cancelled
code 995 leaves the receiver connection as it was. -/
theorem failed_transfer_witness :
    complete (layer 0) .receive 10054 0 (armed sample_config 0 0 0) =
      close_connection (layer 0) true (armed sample_config 0 0 0) ∧
    Proxy.server.complete Proxy.pending .send 10054 0 (Proxy.established 5) =
      Proxy.server.close_connections Proxy.pending true (Proxy.established 5) ∧
    complete (layer 0) .receive 995 0 (armed sample_config 0 0 0) =
      armed sample_config 0 0 0 :=
  ⟨((failed_transfer Proxy.pending (layer 0) (Proxy.established 5) (armed sample_config 0 0 0)
      .receive 10054 0 (Or.inl rfl) (by decide)).2 (by decide)).2.2,
   ((failed_transfer Proxy.pending (layer 0) (Proxy.established 5) (armed sample_config 0 0 0)
      .send 10054 0 (Or.inr rfl) (by decide)).2 (by decide)).1,
   ((failed_transfer Proxy.pending (layer 0) (Proxy.established 5) (armed sample_config 0 0 0)
      .receive 995 0 (Or.inl rfl) (by decide)).1 rfl).2.2⟩

end Receiver

namespace Socket
open socket

/-- An operation the operating system does not leave pending: the call that
starts it runs the callback exactly once, owes no completion and leaves the
flag alone. -/
theorem start_not_pending (op : operation) (os : Os) (s : socket)
    (h : os.pending op = false) :
    (∃ error transferred,
      (start op os s).callbacks =
        s.callbacks ++ [{ op := op, error := error, transferred := transferred }]) ∧
    (start op os s).queued = s.queued ∧
    io_pending (start op os s) (overlapped_of op) = io_pending s (overlapped_of op) := by
  cases op <;> rcases os with ⟨ie, be, ans, ue⟩ <;> cases ans <;>
    simp only [Os.pending, Bool.and_eq_false_iff, decide_eq_false_iff_not, Bool.and_eq_true,
      decide_eq_true_eq] at h <;>
    simp only [start, accept, connect, receive, send, disconnect, callback, overlapped_of,
      io_pending] <;>
    (try split_ifs) <;> simp_all

/-- An operation the operating system leaves pending: the call that starts
it runs no callback, sets the flag and is owed one completion. -/
theorem start_pending (op : operation) (os : Os) (s : socket)
    (h : os.pending op = true) :
    (start op os s).callbacks = s.callbacks ∧
    (start op os s).queued = s.queued ++ [overlapped_of op] ∧
    io_pending (start op os s) (overlapped_of op) = true ∧
    operation_of (start op os s) (overlapped_of op) = op := by
  cases op <;> rcases os with ⟨ie, be, ans, ue⟩ <;> cases ans <;>
    simp only [Os.pending, Bool.and_eq_true, decide_eq_true_eq] at h <;>
    simp only [start, accept, connect, receive, send, disconnect, callback, overlapped_of,
      io_pending, operation_of] <;>
    (try split_ifs) <;> simp_all

/-- Function `io_completion_callback` runs the callback exactly once and
clears the flag of the operation. -/
theorem io_completion_callback_once (op : operation) (result transferred update_error : Nat)
    (s : socket) (h : operation_of s (overlapped_of op) = op) :
    (∃ error, (io_completion_callback (overlapped_of op) result transferred update_error
        s).callbacks =
      s.callbacks ++ [{ op := op, error := error, transferred := transferred }]) ∧
    io_pending (io_completion_callback (overlapped_of op) result transferred update_error s)
      (overlapped_of op) = false ∧
    (io_completion_callback (overlapped_of op) result transferred update_error s).queued =
      s.queued := by
  cases op <;>
    simp only [overlapped_of, operation_of] at h <;>
    simp only [io_completion_callback, overlapped_of, operation_of, h, callback, io_pending] <;>
    simp

/-- C15.  For every operation (accept, connect, receive, send, disconnect),
every answer of the operating system and every socket state in which no
completion is owed for the operation: if the operation is not left pending
(the call succeeded at once, failed with another error, or a step before it
failed), the initiating call invokes the callback exactly once with that
operation, leaves the I/O-pending flag alone, and the thread pool delivers no
completion for it; if the operation is left pending, the initiating call
invokes no callback and sets the flag, and the completion, through
`io_completion_callback`, invokes the callback exactly once with that
operation and clears the flag. -/
theorem callback_exactly_once (op : operation) (os : Os) (s : socket)
    (result transferred update_error : Nat) (hq : overlapped_of op ∉ s.queued) :
    (os.pending op = false →
      (∃ error count,
        (start op os s).callbacks =
          s.callbacks ++ [{ op := op, error := error, transferred := count }]) ∧
      io_pending (start op os s) (overlapped_of op) = io_pending s (overlapped_of op) ∧
      complete (overlapped_of op) result transferred update_error (start op os s) =
        start op os s) ∧
    (os.pending op = true →
      (start op os s).callbacks = s.callbacks ∧
      io_pending (start op os s) (overlapped_of op) = true ∧
      (∃ error,
        (complete (overlapped_of op) result transferred update_error
          (start op os s)).callbacks =
        s.callbacks ++ [{ op := op, error := error, transferred := transferred }]) ∧
      io_pending (complete (overlapped_of op) result transferred update_error (start op os s))
        (overlapped_of op) = false ∧
      (complete (overlapped_of op) result transferred update_error (start op os s)).queued =
        s.queued) := by
  constructor
  · intro h
    obtain ⟨a, b, c⟩ := start_not_pending op os s h
    refine ⟨a, c, ?_⟩
    unfold complete
    rw [if_neg (by rw [b]; exact hq)]
  · intro h
    obtain ⟨a, b, c, d⟩ := start_pending op os s h
    have hmem : overlapped_of op ∈ (start op os s).queued := by rw [b]; simp
    have herase : (start op os s).queued.erase (overlapped_of op) = s.queued := by
      rw [b, List.erase_append_right _ hq]; simp
    have hop : operation_of
        { start op os s with queued := ((start op os s).queued.erase (overlapped_of op)) }
        (overlapped_of op) = op := by
      cases op <;> exact d
    obtain ⟨x, y, z⟩ := io_completion_callback_once op result transferred update_error _ hop
    refine ⟨a, c, ?_, ?_, ?_⟩
    · unfold complete
      rw [if_pos hmem]
      obtain ⟨e, he⟩ := x
      exact ⟨e, by rw [he]; simp only [a]⟩
    · unfold complete
      rw [if_pos hmem]
      exact y
    · unfold complete
      rw [if_pos hmem, z]
      exact herase

/-- A receive that finishes at once runs its callback in the call and no
completion follows; a receive left pending runs no callback in the call, sets
the flag, and its completion runs the callback once and clears the flag. -/
theorem callback_exactly_once_witness :
    ((start .receive sample_success (fresh .accept)).callbacks =
        [{ op := .receive, error := 0, transferred := 100 }] ∧
      complete .receiveov 0 100 0 (start .receive sample_success (fresh .accept)) =
        start .receive sample_success (fresh .accept)) ∧
    ((start .receive sample_pending (fresh .accept)).callbacks = [] ∧
      io_pending (start .receive sample_pending (fresh .accept)) .receiveov = true ∧
      (complete .receiveov 0 100 0 (start .receive sample_pending (fresh .accept))).callbacks =
        [{ op := .receive, error := 0, transferred := 100 }] ∧
      io_pending (complete .receiveov 0 100 0 (start .receive sample_pending (fresh .accept)))
        .receiveov = false) :=
  ⟨⟨by decide,
    ((callback_exactly_once .receive sample_success (fresh .accept) 0 100 0 (by decide)).1
      (by decide)).2.2⟩,
   ((callback_exactly_once .receive sample_pending (fresh .accept) 0 100 0 (by decide)).2
      (by decide)).1,
   ((callback_exactly_once .receive sample_pending (fresh .accept) 0 100 0 (by decide)).2
      (by decide)).2.1,
   by decide,
   ((callback_exactly_once .receive sample_pending (fresh .accept) 0 100 0 (by decide)).2
      (by decide)).2.2.2.1⟩

end Socket

namespace Receiver
open Libc


/-- Two strings that are equal once `tolower` is applied to every character
compare equal under `_stricmp`. -/
theorem stricmp_eq_zero : ∀ (a b : List Char), a.map tolower = b.map tolower → _stricmp a b = 0
  | [], [], _ => rfl
  | [], _ :: _, h => by simp at h
  | _ :: _, [], h => by simp at h
  | a :: as, b :: bs, h => by
    simp only [List.map_cons, List.cons.injEq] at h
    rw [_stricmp, if_pos h.1]
    exact stricmp_eq_zero as bs h.2

/-- C19.  For all arguments, every file system and every answer of the
operating system, `receiver::create` returns false and leaves the
configuration as it was whenever `maxfilesize` is outside 4096..2^30,
`maxfileage` outside 1..3600, `nconnections` outside 1..4096, `timeout`
outside 5..86400, either directory string has `MAX_PATH` characters or more,
or the two directory strings are equal once every ASCII letter is put in
lower case.  Moreover the configuration is unchanged whenever `create`
returns false, and holds the arguments whenever it returns true. -/
theorem create_rejects (env : CreateEnv) (tmpdir finaldir : List Char)
    (minthreads maxthreads nconnections timeout maxfilesize maxfileage : Nat)
    (config : Config) :
    ((maxfilesize < 4096 ∨ 2 ^ 30 < maxfilesize ∨ maxfileage < 1 ∨ 3600 < maxfileage ∨
        nconnections < 1 ∨ 4096 < nconnections ∨ timeout < 5 ∨ 86400 < timeout ∨
        MAX_PATH ≤ tmpdir.length ∨ MAX_PATH ≤ finaldir.length ∨
        tmpdir.map tolower = finaldir.map tolower) →
      create env tmpdir finaldir minthreads maxthreads nconnections timeout maxfilesize
        maxfileage config = (false, config)) ∧
    ((create env tmpdir finaldir minthreads maxthreads nconnections timeout maxfilesize
        maxfileage config).1 = false →
      (create env tmpdir finaldir minthreads maxthreads nconnections timeout maxfilesize
        maxfileage config).2 = config) ∧
    ((create env tmpdir finaldir minthreads maxthreads nconnections timeout maxfilesize
        maxfileage config).1 = true →
      (create env tmpdir finaldir minthreads maxthreads nconnections timeout maxfilesize
        maxfileage config).2 =
        { nconnections := nconnections, tmpdir := tmpdir, finaldir := finaldir,
          timeout := timeout, maxfilesize := maxfilesize, maxfileage := maxfileage }) := by
  refine ⟨?_, ?_, ?_⟩
  · intro h
    unfold create
    simp only [min_connections, max_connections, min_timeout, max_timeout, min_file_size,
      max_file_size, min_file_age, max_file_age, MAX_PATH]
    split_ifs with h1 h2 h3 h4
    · exfalso
      simp only [MAX_PATH] at h
      rcases h with h | h | h | h | h | h | h | h | h | h | h
      all_goals first
        | omega
        | exact h3.2.1 (stricmp_eq_zero _ _ h)
    all_goals rfl
  · simp only [create]
    split_ifs <;> simp
  · simp only [create]
    split_ifs <;> simp

/-- The directories `tmp` and `TMP` are rejected and the configuration is
kept; the directories `tmp` and `final` are accepted. -/
theorem create_rejects_witness :
    create sample_create_env "tmp".toList "TMP".toList 1 4 256 30 4096 300 sample_config =
      (false, sample_config) ∧
    (create sample_create_env "tmp".toList "final".toList 1 4 256 30 4096 300
      sample_config).1 = true :=
  ⟨(create_rejects sample_create_env "tmp".toList "TMP".toList 1 4 256 30 4096 300
      sample_config).1 (by decide), by decide⟩

end Receiver

namespace TestConnector

open Socket (operation)
open connection

/-- One more repetition appends the payload. -/
theorem repeated_succ (config : Config) (n : Nat) :
    repeated config (n + 1) = repeated config n ++ config.data := by
  simp [repeated, List.replicate_succ']

/-- The payload repeated `n` times has `n * L` bytes. -/
theorem repeated_length (config : Config) (n : Nat) :
    (repeated config n).length = n * config.data.length := by
  induction n with
  | zero => simp [repeated]
  | succ n ih => rw [repeated_succ, List.length_append, ih]; ring

/-- The pending layer on a connect. -/
theorem pending_connect (s : State) :
    pending .connect s =
      { s with conn := { s.conn with calls := s.conn.calls ++ [.connect], connecting := true } } :=
  rfl

/-- The pending layer on a send. -/
theorem pending_send (s : State) (d l : Nat) :
    pending (.send d l) s =
      { s with conn := { s.conn with calls := s.conn.calls ++ [.send d l],
                                     sending := some { data := d, length := l } } } :=
  rfl

/-- The pending layer on a disconnect. -/
theorem pending_disconnect (s : State) :
    pending .disconnect s =
      { s with conn := { s.conn with calls := s.conn.calls ++ [.disconnect],
                                     disconnecting := true } } :=
  rfl

/-- The pending layer on a cancel. -/
theorem pending_cancel_send (s : State) :
    pending .cancel_send s =
      { s with conn := { s.conn with calls := s.conn.calls ++ [.cancel_send] } } :=
  rfl

/-- The pending layer on `SetEvent`. -/
theorem pending_set_event (s : State) :
    pending .set_event s =
      { s with conn := { s.conn with calls := s.conn.calls ++ [.set_event] },
               stop_event := s.stop_event + 1 } :=
  rfl

/-- One completion delivered to a connection in one of its phases, while the
shared counter is between 1 and `2 ^ 32 - 1`: the connection is again in one of
its phases; the shared counter goes down by one exactly when the connection
becomes quiet; the stop event is set exactly when the connection becomes quiet
and the counter reaches 0; and the connection has progressed. -/
theorem step (config : Config) (hv : config.valid) (s : State) (op : operation)
    (transferred : Nat) (hs : s.config = config) (h : Phase config s.conn)
    (hd : s.conn.awaits op transferred = true) (hr : 1 ≤ s.nrunning) (hr2 : s.nrunning < 2 ^ 32) :
    (handle s op 0 transferred).config = config ∧
    Phase config (handle s op 0 transferred).conn ∧
    (handle s op 0 transferred).nrunning + 1 =
      s.nrunning + (handle s op 0 transferred).conn.active ∧
    (handle s op 0 transferred).stop_event =
      s.stop_event + (if (handle s op 0 transferred).nrunning = 0 then 1 else 0) *
        (1 - (handle s op 0 transferred).conn.active) ∧
    Conn.progress config s.conn + 1 ≤ Conn.progress config (handle s op 0 transferred).conn := by
  obtain ⟨hT1, hT2, hK1, hK2, hL1, hL2⟩ := hv
  subst hs
  cases op with
  | accept => simp [Conn.awaits] at hd
  | receive => simp [Conn.awaits] at hd
  | connect =>
    simp only [Conn.awaits] at hd
    cases h with
    | connecting o l w c d e =>
      have key : handle s .connect 0 transferred =
          { s with conn := { s.conn with
              connecting := false, ntransfers := 0,
              sendbuf := { data := 0, length := s.config.data.length },
              calls := s.conn.calls ++ [.send 0 s.config.data.length],
              sending := some { data := 0, length := s.config.data.length } } } := by
        simp only [handle, complete, if_true, connected, send, pending_send, settle,
          Nat.mod_eq_of_lt hL2]
      rw [key]
      refine ⟨rfl, ?_, ?_, ?_, ?_⟩
      · refine Phase.sending { data := 0, length := s.config.data.length }
          ⟨rfl, rfl, o.2.2⟩ l hT1 rfl ⟨?_, hL1⟩ ?_ ?_ ?_ ?_
        · simp
        · simp [w]
        · simp [c]
        · simp [d]
        · simp [e]
      · simp [Conn.active, Conn.quiet]
      · simp [Conn.active, Conn.quiet]
      · simp only [Conn.progress, o.1, o.2.1, o.2.2, Bool.false_eq_true, if_false, if_true,
          Nat.add_mul, Nat.one_mul, Nat.zero_mul]
        omega
    | sending v o => rw [hd] at o; exact absurd o.1 (by simp)
    | disconnecting o => rw [hd] at o; exact absurd o.1 (by simp)
    | finished o => rw [hd] at o; exact absurd o.1 (by simp)
  | send =>
    simp only [Conn.awaits] at hd
    cases h with
    | connecting o => rw [o.2.1] at hd; simp at hd
    | disconnecting o => rw [o.2.1] at hd; simp at hd
    | finished o => rw [o.2.1] at hd; simp at hd
    | sending v o l tr sv rg w c d e =>
      rw [o.2.1] at hd
      simp only [Bool.and_eq_true, decide_eq_true_eq] at hd
      obtain ⟨hc1, hc2⟩ := hd
      have hw : s.conn.wire ++ (s.config.data.drop v.data).take transferred =
          repeated s.config (s.config.ntransfers * s.conn.nloops + s.conn.ntransfers) ++
            s.config.data.take (v.data + transferred) := by
        rw [w, List.append_assoc, List.take_add]
      by_cases hfull : transferred = v.length
      · have hn : (s.conn.ntransfers + 1) % 2 ^ 32 = s.conn.ntransfers + 1 :=
          Nat.mod_eq_of_lt (by omega)
        have hw2 : s.conn.wire ++ (s.config.data.drop v.data).take transferred =
            repeated s.config (s.config.ntransfers * s.conn.nloops + s.conn.ntransfers + 1) := by
          rw [hw, repeated_succ, hfull, rg.1, List.take_length]
        by_cases hmore : s.conn.ntransfers + 1 < s.config.ntransfers
        · have key : handle s .send 0 transferred =
              { s with conn := { s.conn with
                  wire := s.conn.wire ++ (s.config.data.drop v.data).take transferred,
                  ntransfers := s.conn.ntransfers + 1,
                  sendbuf := { data := 0, length := s.config.data.length },
                  calls := s.conn.calls ++ [.send 0 s.config.data.length],
                  sending := some { data := 0, length := s.config.data.length } } } := by
            simp only [handle, complete, if_true, sent, send, pending_send, settle, o.2.1, sv,
              hfull, hn, if_pos hmore, Nat.mod_eq_of_lt hL2]
          rw [key]
          refine ⟨rfl, ?_, ?_, ?_, ?_⟩
          · refine Phase.sending { data := 0, length := s.config.data.length }
              ⟨o.1, rfl, o.2.2⟩ l hmore rfl ⟨?_, hL1⟩ ?_ ?_ ?_ ?_
            · simp
            · simp [hw2]; rfl
            · simp [c]
            · simp [d]
            · simp [e]
          · simp [Conn.active, Conn.quiet]
          · simp [Conn.active, Conn.quiet]
          · simp only [Conn.progress, o.1, o.2.1, o.2.2, Bool.false_eq_true, if_false, if_true,
              Nat.add_mul, Nat.one_mul, Nat.zero_mul]
            omega
        · have key : handle s .send 0 transferred =
              { s with conn := { s.conn with
                  wire := s.conn.wire ++ (s.config.data.drop v.data).take transferred,
                  sending := none,
                  ntransfers := s.conn.ntransfers + 1,
                  calls := s.conn.calls ++ [.cancel_send, .disconnect],
                  disconnecting := true } } := by
            simp only [handle, complete, if_true, sent, close, pending_disconnect,
              pending_cancel_send, settle, o.2.1, sv, hfull, hn, if_neg hmore,
              List.append_assoc, List.cons_append, List.nil_append]
          rw [key]
          refine ⟨rfl, ?_, ?_, ?_, ?_⟩
          · refine Phase.disconnecting ⟨o.1, rfl, rfl⟩ l ?_ ?_ ?_ ?_
            · simp only [hw2]
              congr 1
              rw [Nat.mul_add]
              omega
            · simp [c]
            · simp [d]
            · simp [e]
          · simp [Conn.active, Conn.quiet]
          · simp [Conn.active, Conn.quiet]
          · have hTe : s.config.ntransfers * s.config.data.length =
                s.conn.ntransfers * s.config.data.length + s.config.data.length := by
              rw [show s.config.ntransfers = s.conn.ntransfers + 1 by omega, Nat.add_mul,
                Nat.one_mul]
            simp only [Conn.progress, o.1, o.2.1, o.2.2, Bool.false_eq_true, if_false, if_true,
              Nat.add_mul, Nat.one_mul, Nat.zero_mul]
            omega
      · have hlen : (v.length + 2 ^ 32 - transferred) % 2 ^ 32 = v.length - transferred := by
          rw [show v.length + 2 ^ 32 - transferred = (v.length - transferred) + 2 ^ 32 by omega,
            Nat.add_mod_right]
          exact Nat.mod_eq_of_lt (by omega)
        have key : handle s .send 0 transferred =
            { s with conn := { s.conn with
                wire := s.conn.wire ++ (s.config.data.drop v.data).take transferred,
                sendbuf := { data := v.data + transferred, length := v.length - transferred },
                calls := s.conn.calls ++
                  [.send (v.data + transferred) (v.length - transferred)],
                sending := some { data := v.data + transferred,
                                  length := v.length - transferred } } } := by
          simp only [handle, complete, if_true, sent, send, pending_send, settle, o.2.1, sv,
            if_neg hfull, hlen]
        rw [key]
        refine ⟨rfl, ?_, ?_, ?_, ?_⟩
        · refine Phase.sending { data := v.data + transferred, length := v.length - transferred }
            ⟨o.1, rfl, o.2.2⟩ l tr rfl ⟨?_, ?_⟩ hw ?_ ?_ ?_
          · show v.data + transferred + (v.length - transferred) = _
            omega
          · show 1 ≤ v.length - transferred
            omega
          · simp [c]
          · simp [d]
          · simp [e]
        · simp [Conn.active, Conn.quiet]
        · simp [Conn.active, Conn.quiet]
        · simp only [Conn.progress, o.1, o.2.1, o.2.2, Bool.false_eq_true, if_false, if_true,
            Nat.add_mul, Nat.one_mul, Nat.zero_mul]
          omega
  | disconnect =>
    simp only [Conn.awaits] at hd
    cases h with
    | connecting o => rw [hd] at o; exact absurd o.2.2 (by simp)
    | sending v o => rw [hd] at o; exact absurd o.2.2 (by simp)
    | finished o => rw [hd] at o; exact absurd o.2.2 (by simp)
    | disconnecting o l w c d e =>
      have hn : (s.conn.nloops + 1) % 2 ^ 32 = s.conn.nloops + 1 :=
        Nat.mod_eq_of_lt (by omega)
      by_cases hmore : s.conn.nloops + 1 < s.config.nloops
      · have key : handle s .disconnect 0 transferred =
            { s with conn := { s.conn with
                disconnecting := false,
                nloops := s.conn.nloops + 1,
                calls := s.conn.calls ++ [.connect],
                connecting := true } } := by
          simp only [handle, complete, if_true, disconnected, connect, pending_connect, settle,
            hn, if_pos hmore]
        rw [key]
        refine ⟨rfl, ?_, ?_, ?_, ?_⟩
        · refine Phase.connecting ⟨rfl, o.2.1, rfl⟩ hmore w ?_ ?_ ?_
          · simp [c]
          · simp [d]
          · simp [e]
        · simp [Conn.active, Conn.quiet]
        · simp [Conn.active, Conn.quiet]
        · simp only [Conn.progress, o.1, o.2.1, o.2.2, Bool.false_eq_true, if_false, if_true,
            Nat.add_mul, Nat.one_mul, Nat.zero_mul]
          omega
      · have hK : s.conn.nloops + 1 = s.config.nloops := by omega
        have hdec : (s.nrunning + 2 ^ 32 - 1) % 2 ^ 32 = s.nrunning - 1 := by
          rw [show s.nrunning + 2 ^ 32 - 1 = (s.nrunning - 1) + 2 ^ 32 by omega,
            Nat.add_mod_right]
          exact Nat.mod_eq_of_lt (by omega)
        by_cases hz : s.nrunning - 1 = 0
        · have key : handle s .disconnect 0 transferred =
              { s with
                nrunning := s.nrunning - 1,
                stop_event := s.stop_event + 1,
                conn := { s.conn with
                  disconnecting := false,
                  nloops := s.conn.nloops + 1,
                  calls := s.conn.calls ++ [.decrement, .set_event] } } := by
            simp only [handle, complete, if_true, disconnected, pending_set_event, settle,
              hn, if_neg hmore, hdec, if_pos hz, List.append_assoc, List.cons_append,
              List.nil_append]
          rw [key]
          refine ⟨rfl, ?_, ?_, ?_, ?_⟩
          · refine Phase.finished ⟨o.1, o.2.1, rfl⟩ hK ?_ ?_ ?_ ?_
            · show s.conn.wire = _
              rw [w, hK]
            · simp [c, hK]
            · simp [d, hK]
            · simp [e]
          · simp [Conn.active, Conn.quiet, o.1, o.2.1]; omega
          · simp [Conn.active, Conn.quiet, o.1, o.2.1, hz]
          · simp only [Conn.progress, o.1, o.2.1, o.2.2, Bool.false_eq_true, if_false, if_true,
              Nat.add_mul, Nat.one_mul, Nat.zero_mul]
            omega
        · have key : handle s .disconnect 0 transferred =
              { s with
                nrunning := s.nrunning - 1,
                conn := { s.conn with
                  disconnecting := false,
                  nloops := s.conn.nloops + 1,
                  calls := s.conn.calls ++ [.decrement] } } := by
            simp only [handle, complete, if_true, disconnected, settle,
              hn, if_neg hmore, hdec, if_neg hz]
          rw [key]
          refine ⟨rfl, ?_, ?_, ?_, ?_⟩
          · refine Phase.finished ⟨o.1, o.2.1, rfl⟩ hK ?_ ?_ ?_ ?_
            · show s.conn.wire = _
              rw [w, hK]
            · simp [c, hK]
            · simp [d, hK]
            · simp [e]
          · simp [Conn.active, Conn.quiet, o.1, o.2.1]; omega
          · simp [Conn.active, Conn.quiet, o.1, o.2.1, hz]
          · simp only [Conn.progress, o.1, o.2.1, o.2.2, Bool.false_eq_true, if_false, if_true,
              Nat.add_mul, Nat.one_mul, Nat.zero_mul]
            omega


/-- Replacing one element of a list changes the sum of a function over it by
the difference of the two values. -/
theorem sum_map_set {α : Type} (f : α → Nat) :
    ∀ (l : List α) (i : Nat) (a b : α), l[i]? = some a →
      ((l.set i b).map f).sum + f a = (l.map f).sum + f b
  | [], _, _, _, h => by simp at h
  | x :: xs, 0, a, b, h => by
    simp only [List.getElem?_cons_zero, Option.some.injEq] at h
    subst h
    simp only [List.set_cons_zero, List.map_cons, List.sum_cons]
    omega
  | x :: xs, i + 1, a, b, h => by
    simp only [List.getElem?_cons_succ] at h
    have := sum_map_set f xs i a b h
    simp only [List.set_cons_succ, List.map_cons, List.sum_cons]
    omega

/-- At most as many connections are active as there are connections. -/
theorem sum_map_le_length (l : List Conn) : (l.map Conn.active).sum ≤ l.length := by
  induction l with
  | nil => simp
  | cons x xs ih =>
    simp only [List.map_cons, List.sum_cons, List.length_cons]
    have : x.active ≤ 1 := by unfold Conn.active; split <;> omega
    omega

/-- A connection that awaits a completion is active. -/
theorem awaits_active (conn : Conn) (op : operation) (transferred : Nat)
    (h : conn.awaits op transferred = true) : conn.active = 1 := by
  unfold Conn.active Conn.quiet
  cases op <;> simp only [Conn.awaits] at h
  · cases h
  · simp [h]
  · cases h
  · cases hs : conn.sending with
    | none => rw [hs] at h; cases h
    | some v => simp
  · simp [h]

/-- Delivering a deliverable completion keeps the invariant. -/
theorem invariant_deliver (config : Config) (nconnections : Nat) (hv : config.valid)
    (hn : nconnections < 2 ^ 32) (sys : System) (e : Event)
    (h : Invariant config nconnections sys) (hd : deliverable sys e = true) :
    Invariant config nconnections (deliver sys e) := by
  unfold deliverable at hd
  unfold deliver
  cases hc : sys.conns[e.index]? with
  | none => rw [hc] at hd; cases hd
  | some conn =>
    rw [hc] at hd
    simp only [Bool.and_eq_true, decide_eq_true_eq] at hd
    obtain ⟨he, ha⟩ := hd
    have hact := awaits_active conn e.op e.transferred ha
    have hsum := sum_map_set Conn.active sys.conns e.index conn
      (handle (sys.view conn) e.op e.error e.transferred).conn hc
    have hle := sum_map_le_length sys.conns
    have hrun := h.running
    have hlen := h.length_eq
    have hge : 1 ≤ sys.nrunning := by
      have : conn.active ≤ (sys.conns.map Conn.active).sum := by
        have hmem := List.getElem?_mem hc
        exact List.single_le_sum (fun _ _ => Nat.zero_le _) _ (List.mem_map_of_mem _ hmem)
      omega
    obtain ⟨s1, s2, s3, s4, _⟩ := step config hv (sys.view conn) e.op e.transferred h.config_eq
      (h.phases conn (List.getElem?_mem hc)) ha hge (by show sys.nrunning < 2 ^ 32; omega)
    rw [he]
    rw [he] at hsum
    exact {
      config_eq := h.config_eq
      length_eq := by simp [System.merge, hlen]
      phases := by
        intro c hcm
        rcases List.mem_or_eq_of_mem_set hcm with hm | rfl
        · exact h.phases c hm
        · exact s2
      running := by
        show (handle (sys.view conn) e.op 0 e.transferred).nrunning = _
        have : (sys.view conn).nrunning = sys.nrunning := rfl
        simp only [System.merge]
        omega
      stop := by
        show (handle (sys.view conn) e.op 0 e.transferred).stop_event =
          if (handle (sys.view conn) e.op 0 e.transferred).nrunning = 0 then 1 else 0
        have h1 : (sys.view conn).nrunning = sys.nrunning := rfl
        have h2 : (sys.view conn).stop_event = sys.stop_event := rfl
        have h3 := h.stop
        rw [if_neg (by omega)] at h3
        rw [s4, h2, h3]
        by_cases hz : (handle (sys.view conn) e.op 0 e.transferred).nrunning = 0
        · rw [if_pos hz]
          have : (handle (sys.view conn) e.op 0 e.transferred).conn.active = 0 := by omega
          rw [this]
        · rw [if_neg hz]; simp }

/-- Delivering a sequence of deliverable completions keeps the invariant. -/
theorem invariant_run (config : Config) (nconnections : Nat) (hv : config.valid)
    (hn : nconnections < 2 ^ 32) (es : List Event) :
    ∀ (sys : System), Invariant config nconnections sys → deliverable_all sys es = true →
      Invariant config nconnections (run sys es) := by
  induction es with
  | nil => intro sys h _; exact h
  | cons e es ih =>
    intro sys h hd
    simp only [deliverable_all, Bool.and_eq_true] at hd
    exact ih _ (invariant_deliver config nconnections hv hn sys e h hd.1) hd.2


/-- The connect loop of `connections::create` starts one connect on every
connection from `index` on and leaves the rest of the system alone. -/
theorem connect_all_spec : ∀ (remaining index : Nat) (sys : System),
    index + remaining = sys.conns.length →
    (connect_all remaining index sys).config = sys.config ∧
    (connect_all remaining index sys).nrunning = sys.nrunning ∧
    (connect_all remaining index sys).stop_event = sys.stop_event ∧
    (connect_all remaining index sys).conns.length = sys.conns.length ∧
    ∀ j c, (connect_all remaining index sys).conns[j]? = some c →
      (j < index → sys.conns[j]? = some c) ∧
      (index ≤ j → ∃ c0, sys.conns[j]? = some c0 ∧
        c = { c0 with calls := c0.calls ++ [.connect], connecting := true })
  | 0, index, sys, _ => by
    refine ⟨rfl, rfl, rfl, rfl, ?_⟩
    intro j c hc
    refine ⟨fun _ => hc, fun hj => ?_⟩
    have hlt : j < sys.conns.length := by
      by_contra hge
      simp only [connect_all] at hc
      rw [List.getElem?_eq_none (by omega)] at hc
      cases hc
    omega
  | remaining + 1, index, sys, hlen => by
    have hlt : index < sys.conns.length := by omega
    have hget : sys.conns[index]? = some sys.conns[index] := List.getElem?_eq_getElem hlt
    rw [connect_all, hget]
    simp only
    obtain ⟨a1, a2, a3, a4, a5⟩ := connect_all_spec remaining (index + 1)
      (sys.merge index (connect pending (sys.view sys.conns[index])))
      (by simp only [System.merge, List.length_set]; omega)
    refine ⟨a1, a2, a3, a4.trans (by simp [System.merge]), ?_⟩
    intro j c hc
    obtain ⟨b1, b2⟩ := a5 j c hc
    constructor
    · intro hj
      have := b1 (by omega)
      simp only [System.merge] at this
      rwa [List.getElem?_set_ne (by omega)] at this
    · intro hj
      by_cases hji : j = index
      · subst hji
        have := b1 (by omega)
        simp only [System.merge, List.getElem?_set_self hlt, Option.some.injEq] at this
        exact ⟨sys.conns[j], hget, this.symm⟩
      · obtain ⟨c0, e1, e2⟩ := b2 (by omega)
        simp only [System.merge] at e1
        rw [List.getElem?_set_ne (by omega)] at e1
        exact ⟨c0, e1, e2⟩

/-- If every connection is active, their number is the length of the list. -/
theorem sum_map_eq_length (l : List Conn) (h : ∀ c ∈ l, c.active = 1) :
    (l.map Conn.active).sum = l.length := by
  induction l with
  | nil => rfl
  | cons x xs ih =>
    simp only [List.map_cons, List.sum_cons, List.length_cons]
    rw [ih (fun c hc => h c (List.mem_cons_of_mem x hc)), h x (List.mem_cons_self x xs)]
    omega

/-- The invariant holds when `connections::create` returns. -/
theorem invariant_create (config : Config) (nconnections : Nat)
    (indeterminate : Nat → Nat × buffer_view) (hv : config.valid)
    (h1 : 1 ≤ nconnections) (hn : nconnections < 2 ^ 32) :
    Invariant config nconnections (create config nconnections indeterminate) := by
  obtain ⟨hT1, hT2, hK1, hK2, hL1, hL2⟩ := hv
  obtain ⟨a1, a2, a3, a4, a5⟩ := connect_all_spec nconnections 0
    { config := config,
      conns := (List.range nconnections).map
        (fun i => fresh (indeterminate i).1 (indeterminate i).2),
      nrunning := nconnections % 2 ^ 32,
      stop_event := 0 } (by simp)
  have hconn : ∀ c ∈ (create config nconnections indeterminate).conns,
      ∃ i, c = { fresh (indeterminate i).1 (indeterminate i).2 with
        calls := [.connect], connecting := true } := by
    intro c hc
    obtain ⟨j, hj⟩ := List.mem_iff_getElem?.1 hc
    obtain ⟨c0, e1, e2⟩ := (a5 j c hj).2 (Nat.zero_le _)
    simp only [List.getElem?_map] at e1
    cases hr : (List.range nconnections)[j]? with
    | none => rw [hr] at e1; cases e1
    | some i =>
      rw [hr] at e1
      simp only [Option.map_some', Option.some.injEq] at e1
      subst e1
      exact ⟨i, e2⟩
  have hact : ∀ c ∈ (create config nconnections indeterminate).conns, c.active = 1 := by
    intro c hc
    obtain ⟨i, rfl⟩ := hconn c hc
    rfl
  have hlen : (create config nconnections indeterminate).conns.length = nconnections := by
    show (connect_all _ _ _).conns.length = _
    rw [a4]; simp
  have hrun : (create config nconnections indeterminate).nrunning = nconnections := by
    show (connect_all _ _ _).nrunning = _
    rw [a2]
    exact Nat.mod_eq_of_lt hn
  exact {
    config_eq := a1
    length_eq := hlen
    phases := by
      intro c hc
      obtain ⟨i, rfl⟩ := hconn c hc
      exact Phase.connecting ⟨rfl, rfl, rfl⟩ hK1 (by simp [fresh, repeated]) rfl rfl rfl
    running := by rw [hrun, sum_map_eq_length _ hact, hlen]
    stop := by
      rw [hrun, if_neg (by omega)]
      exact a3 }


/-- The progress of a connection never exceeds `K * (T * L + 2)`. -/
theorem phase_progress_le (config : Config) (conn : Conn) (h : Phase config conn) :
    Conn.progress config conn ≤
      config.nloops * (config.ntransfers * config.data.length + 2) := by
  cases h with
  | connecting o l w c d e =>
    simp only [Conn.progress, o.2.1, o.2.2, Bool.false_eq_true, if_false, Nat.add_zero]
    exact Nat.mul_le_mul_right _ (Nat.le_of_lt l)
  | sending v o l tr sv rg w c d e =>
    have h1 : (conn.nloops + 1) * (config.ntransfers * config.data.length + 2) ≤
        config.nloops * (config.ntransfers * config.data.length + 2) :=
      Nat.mul_le_mul_right _ l
    have h2 : (conn.ntransfers + 1) * config.data.length ≤
        config.ntransfers * config.data.length := Nat.mul_le_mul_right _ tr
    simp only [Nat.add_mul, Nat.one_mul] at h1 h2
    simp only [Conn.progress, o.2.1, o.2.2, Bool.false_eq_true, if_false]
    omega
  | disconnecting o l w c d e =>
    have h1 : (conn.nloops + 1) * (config.ntransfers * config.data.length + 2) ≤
        config.nloops * (config.ntransfers * config.data.length + 2) :=
      Nat.mul_le_mul_right _ l
    simp only [Nat.add_mul, Nat.one_mul] at h1
    simp only [Conn.progress, o.2.2, if_true]
    omega
  | finished o l w c d e =>
    simp only [Conn.progress, o.2.1, o.2.2, Bool.false_eq_true, if_false, Nat.add_zero, l]
    exact Nat.le_refl _

/-- A quiet connection has finished. -/
theorem phase_quiet (config : Config) (conn : Conn) (h : Phase config conn)
    (hq : conn.quiet = true) :
    conn.calls.count .connect = config.nloops ∧
    conn.calls.count .disconnect = config.nloops ∧
    conn.calls.count .decrement = 1 ∧
    conn.wire = repeated config (config.ntransfers * config.nloops) := by
  cases h with
  | connecting o => simp [Conn.quiet, o.1] at hq
  | sending v o => simp [Conn.quiet, o.2.1] at hq
  | disconnecting o => simp [Conn.quiet, o.2.2] at hq
  | finished o l w c d e => exact ⟨c, d, e, w⟩

/-- A connection that is not quiet awaits a completion. -/
theorem phase_awaits (config : Config) (conn : Conn) (h : Phase config conn)
    (hq : conn.quiet = false) :
    ∃ op transferred, conn.awaits op transferred = true := by
  cases h with
  | connecting o => exact ⟨.connect, 0, o.1⟩
  | sending v o l tr sv rg =>
    refine ⟨.send, v.length, ?_⟩
    simp [Conn.awaits, o.2.1, rg.2]
  | disconnecting o => exact ⟨.disconnect, 0, o.2.2⟩
  | finished o => simp [Conn.quiet, o.1, o.2.1, o.2.2] at hq


/-- Every completion delivered raises the total progress by at least 1. -/
theorem deliver_progress (config : Config) (nconnections : Nat) (hv : config.valid)
    (hn : nconnections < 2 ^ 32) (sys : System) (e : Event)
    (h : Invariant config nconnections sys) (hd : deliverable sys e = true) :
    (sys.conns.map (Conn.progress config)).sum + 1 ≤
      ((deliver sys e).conns.map (Conn.progress config)).sum := by
  unfold deliverable at hd
  unfold deliver
  cases hc : sys.conns[e.index]? with
  | none => rw [hc] at hd; cases hd
  | some conn =>
    rw [hc] at hd
    simp only [Bool.and_eq_true, decide_eq_true_eq] at hd
    obtain ⟨he, ha⟩ := hd
    have hact := awaits_active conn e.op e.transferred ha
    have hle := sum_map_le_length sys.conns
    have hrun := h.running
    have hlen := h.length_eq
    have hge : 1 ≤ sys.nrunning := by
      have : conn.active ≤ (sys.conns.map Conn.active).sum :=
        List.single_le_sum (fun _ _ => Nat.zero_le _) _
          (List.mem_map_of_mem _ (List.getElem?_mem hc))
      omega
    obtain ⟨_, _, _, _, s5⟩ := step config hv (sys.view conn) e.op e.transferred h.config_eq
      (h.phases conn (List.getElem?_mem hc)) ha hge (by show sys.nrunning < 2 ^ 32; omega)
    have hsum := sum_map_set (Conn.progress config) sys.conns e.index conn
      (handle (sys.view conn) e.op e.error e.transferred).conn hc
    rw [he] at hsum ⊢
    have h1 : (sys.view conn).conn = conn := rfl
    rw [h1] at s5
    simp only [System.merge]
    omega

/-- A sequence of completions raises the total progress by at least its length. -/
theorem run_progress (config : Config) (nconnections : Nat) (hv : config.valid)
    (hn : nconnections < 2 ^ 32) (es : List Event) :
    ∀ (sys : System), Invariant config nconnections sys → deliverable_all sys es = true →
      (sys.conns.map (Conn.progress config)).sum + es.length ≤
        ((run sys es).conns.map (Conn.progress config)).sum := by
  induction es with
  | nil => intro sys _ _; exact Nat.le_refl _
  | cons e es ih =>
    intro sys h hd
    simp only [deliverable_all, Bool.and_eq_true] at hd
    have h1 := deliver_progress config nconnections hv hn sys e h hd.1
    have h2 := ih _ (invariant_deliver config nconnections hv hn sys e h hd.1) hd.2
    simp only [run, List.length_cons]
    omega

/-- A sum of values each at most `bound`. -/
theorem sum_map_le_mul (f : Conn → Nat) (bound : Nat) :
    ∀ (l : List Conn), (∀ c ∈ l, f c ≤ bound) → (l.map f).sum ≤ l.length * bound
  | [], _ => by simp
  | x :: xs, h => by
    have h1 := sum_map_le_mul f bound xs (fun c hc => h c (List.mem_cons_of_mem x hc))
    have h2 := h x (List.mem_cons_self x xs)
    simp only [List.map_cons, List.sum_cons, List.length_cons, Nat.add_mul, Nat.one_mul]
    omega

/-- A sum of equal values. -/
theorem sum_map_const (f : Conn → Nat) (value : Nat) :
    ∀ (l : List Conn), (∀ c ∈ l, f c = value) → (l.map f).sum = l.length * value
  | [], _ => by simp
  | x :: xs, h => by
    have h1 := sum_map_const f value xs (fun c hc => h c (List.mem_cons_of_mem x hc))
    have h2 := h x (List.mem_cons_self x xs)
    simp only [List.map_cons, List.sum_cons, List.length_cons, Nat.add_mul, Nat.one_mul]
    omega

/-- While some connection is not quiet, a completion can be delivered. -/
theorem exists_deliverable (config : Config) (nconnections : Nat) (sys : System)
    (h : Invariant config nconnections sys) (hq : sys.quiet = false) :
    ∃ e, deliverable sys e = true := by
  unfold System.quiet at hq
  have : ∃ c ∈ sys.conns, c.quiet = false := by
    by_contra hne
    have hall : sys.conns.all Conn.quiet = true := by
      rw [List.all_eq_true]
      intro c hc
      by_contra hcq
      exact hne ⟨c, hc, by simpa using hcq⟩
    rw [hall] at hq
    cases hq
  obtain ⟨c, hc, hcq⟩ := this
  obtain ⟨i, hi⟩ := List.mem_iff_getElem?.1 hc
  obtain ⟨op, transferred, ha⟩ := phase_awaits config c (h.phases c hc) hcq
  refine ⟨{ index := i, op := op, error := 0, transferred := transferred }, ?_⟩
  simp [deliverable, hi, ha]


/-- C20.  Take a configuration with `T ≥ 1` transfers, `K ≥ 1` loops and a
payload of `L ≥ 1` bytes (each below `2 ^ 32`), `N ≥ 1` connections created by
`connections::create`, and any sequence of completions without error, each
for an operation outstanding at its turn, a send completion reporting at least
1 byte and at most the length of its send.  Then the invariant holds at the
end (every connection is in a phase of one of at most `K` sessions, has sent
`T` whole payloads in every session it has ended and whose disconnect it has
started, the shared counter is the number of connections still active, and
the stop event has been set once if the counter is 0 and not at all
otherwise); the sequence has at most `N * K * (T * L + 2)` completions, and
while an operation is outstanding a further completion can be delivered; and
once nothing is outstanding, every connection has started exactly `K` connects
and `K` disconnects, has sent exactly `T * K` payloads, that is `T * K * L`
bytes, and has decremented the counter exactly once; `N * T * K * L` bytes were
sent in all, the counter is 0 and the stop event was set exactly once. -/
theorem sessions_complete (config : Config) (nconnections : Nat)
    (indeterminate : Nat → Nat × buffer_view) (es : List Event)
    (hv : config.valid) (h1 : 1 ≤ nconnections) (hn : nconnections < 2 ^ 32)
    (hd : deliverable_all (create config nconnections indeterminate) es = true) :
    Invariant config nconnections (run (create config nconnections indeterminate) es) ∧
    es.length ≤
      nconnections * (config.nloops * (config.ntransfers * config.data.length + 2)) ∧
    ((run (create config nconnections indeterminate) es).quiet = false →
      ∃ e, deliverable (run (create config nconnections indeterminate) es) e = true) ∧
    ((run (create config nconnections indeterminate) es).quiet = true →
      (∀ conn ∈ (run (create config nconnections indeterminate) es).conns,
        conn.calls.count .connect = config.nloops ∧
        conn.calls.count .disconnect = config.nloops ∧
        conn.calls.count .decrement = 1 ∧
        conn.wire = repeated config (config.ntransfers * config.nloops) ∧
        conn.wire.length = config.ntransfers * config.nloops * config.data.length) ∧
      ((run (create config nconnections indeterminate) es).conns.map
          (fun conn => conn.wire.length)).sum =
        nconnections * (config.ntransfers * config.nloops * config.data.length) ∧
      (run (create config nconnections indeterminate) es).nrunning = 0 ∧
      (run (create config nconnections indeterminate) es).stop_event = 1) := by
  have h0 := invariant_create config nconnections indeterminate hv h1 hn
  have hinv := invariant_run config nconnections hv hn es _ h0 hd
  refine ⟨hinv, ?_, exists_deliverable config nconnections _ hinv, ?_⟩
  · have hp := run_progress config nconnections hv hn es _ h0 hd
    have hb := sum_map_le_mul (Conn.progress config)
      (config.nloops * (config.ntransfers * config.data.length + 2)) _
      (fun c hc => phase_progress_le config c (hinv.phases c hc))
    rw [hinv.length_eq] at hb
    omega
  · intro hq
    have hall : ∀ conn ∈ (run (create config nconnections indeterminate) es).conns,
        conn.quiet = true := by
      unfold System.quiet at hq
      exact List.all_eq_true.1 hq
    have hfacts : ∀ conn ∈ (run (create config nconnections indeterminate) es).conns,
        conn.calls.count .connect = config.nloops ∧
        conn.calls.count .disconnect = config.nloops ∧
        conn.calls.count .decrement = 1 ∧
        conn.wire = repeated config (config.ntransfers * config.nloops) ∧
        conn.wire.length = config.ntransfers * config.nloops * config.data.length := by
      intro conn hc
      obtain ⟨a, b, c, d⟩ := phase_quiet config conn (hinv.phases conn hc) (hall conn hc)
      exact ⟨a, b, c, d, by rw [d, repeated_length]⟩
    have hzero : ((run (create config nconnections indeterminate) es).conns.map
        Conn.active).sum = 0 := by
      have := sum_map_const Conn.active 0 _
        (fun c hc => by
          show c.active = 0
          unfold Conn.active
          rw [hall c hc]
          rfl)
      simpa using this
    have hrun : (run (create config nconnections indeterminate) es).nrunning = 0 := by
      rw [hinv.running, hzero]
    refine ⟨hfacts, ?_, hrun, ?_⟩
    · have := sum_map_const (fun conn => conn.wire.length)
        (config.ntransfers * config.nloops * config.data.length) _
        (fun c hc => (hfacts c hc).2.2.2.2)
      rw [this, hinv.length_eq]
    · rw [hinv.stop, if_pos hrun]

/-- Four connections, 3 transfers, 2 loops, 1024 bytes: the sample run is
deliverable and ends with nothing outstanding, 24 576 bytes sent, the counter
at 0 and the stop event set once. -/
theorem sessions_complete_witness :
    deliverable_all (create sample_config 4 (fun _ => (0, { data := 0, length := 0 })))
      sample_run = true ∧
    (run (create sample_config 4 (fun _ => (0, { data := 0, length := 0 })))
      sample_run).quiet = true ∧
    ((run (create sample_config 4 (fun _ => (0, { data := 0, length := 0 })))
      sample_run).conns.map (fun conn => conn.wire.length)).sum = 24576 ∧
    (run (create sample_config 4 (fun _ => (0, { data := 0, length := 0 })))
      sample_run).nrunning = 0 ∧
    (run (create sample_config 4 (fun _ => (0, { data := 0, length := 0 })))
      sample_run).stop_event = 1 :=
  ⟨by decide!, by decide!,
    (((sessions_complete sample_config 4 (fun _ => (0, { data := 0, length := 0 })) sample_run
      (by unfold Config.valid; decide!) (by decide) (by decide) (by decide!)).2.2.2
      (by decide!)).2.1).trans (by decide!),
    ((sessions_complete sample_config 4 (fun _ => (0, { data := 0, length := 0 })) sample_run
      (by unfold Config.valid; decide!) (by decide) (by decide) (by decide!)).2.2.2
      (by decide!)).2.2⟩

end TestConnector

namespace TestConnector
open Address (is_digit decimal_value decimal_value_from all_digits is_digit_iff decimal_value_from_cons le_decimal_value_from)
open configuration


/-- With a bound `max` small enough that `max * 10 + 9` fits in 64 bits, the loop
of `configuration::parse` succeeds exactly on digit strings whose value stays
within `max`, and then returns that value. -/
theorem parse_loop_spec (max : Nat) (hmax : max * 10 + 9 < 2 ^ 64) (s : List Char) :
    ∀ res, res ≤ max →
    (parse_loop max s res = some (decimal_value_from res s) ∧ all_digits s ∧
        decimal_value_from res s ≤ max) ∨
    (parse_loop max s res = none ∧ ¬ (all_digits s ∧ decimal_value_from res s ≤ max)) := by
  induction s with
  | nil =>
    intro res hres
    left
    refine ⟨rfl, ?_, hres⟩
    intro c hc
    cases hc
  | cons c s ih =>
    intro res hres
    by_cases hd : is_digit c = true
    · have hc := (is_digit_iff c).1 hd
      have hmod : (res * 10 + (c.toNat - 48)) % 2 ^ 64 = res * 10 + (c.toNat - 48) :=
        Nat.mod_eq_of_lt (by omega)
      have hge : res * 10 + (c.toNat - 48) ≥ res := by omega
      by_cases hle : res * 10 + (c.toNat - 48) ≤ max
      · rcases ih _ hle with ⟨h1, h2, h3⟩ | ⟨h1, h2⟩
        · left
          refine ⟨?_, ?_, ?_⟩
          · simp only [parse_loop, hd, hmod, hle, hge, and_self, if_true]
            rw [decimal_value_from_cons]; exact h1
          · intro x hx
            rcases List.mem_cons.1 hx with rfl | hx
            · exact hd
            · exact h2 x hx
          · rw [decimal_value_from_cons]; exact h3
        · right
          refine ⟨?_, ?_⟩
          · simp only [parse_loop, hd, hmod, hle, hge, and_self, if_true]
            exact h1
          · rintro ⟨ha, hv⟩
            apply h2
            refine ⟨fun x hx => ha x (List.mem_cons_of_mem _ hx), ?_⟩
            rw [decimal_value_from_cons] at hv; exact hv
      · right
        refine ⟨?_, ?_⟩
        · simp only [parse_loop, hd, hmod, hle, hge, and_false, if_true, if_false]
        · rintro ⟨_, hv⟩
          rw [decimal_value_from_cons] at hv
          have := le_decimal_value_from s (res * 10 + (c.toNat - 48))
          omega
    · right
      refine ⟨?_, ?_⟩
      · simp [parse_loop, hd]
      · rintro ⟨ha, _⟩
        exact hd (ha c (List.mem_cons_self _ _))

/-- C21.  For every string `s`, every `n`, every `min` and every `max` with
`max * 10 + 9 < 2 ^ 64` (so for `max` 4096, 1 000 000 and 67 108 864, the bounds
the options use with `min = 1`): `configuration::parse(s, n, min, max)` returns
true and stores the numeric value of `s` in `n` when `s` is a non-empty string
of decimal digits whose value lies in `min..max`; otherwise it returns false
and leaves `n` as it was. -/
theorem parse_correct (s : List Char) (n min max : Nat) (hmax : max * 10 + 9 < 2 ^ 64) :
    (s ≠ [] ∧ all_digits s ∧ min ≤ decimal_value s ∧ decimal_value s ≤ max →
      parse s n min max = (true, decimal_value s)) ∧
    (¬ (s ≠ [] ∧ all_digits s ∧ min ≤ decimal_value s ∧ decimal_value s ≤ max) →
      parse s n min max = (false, n)) := by
  cases s with
  | nil =>
    refine ⟨fun h => absurd rfl h.1, fun _ => rfl⟩
  | cons c s =>
    rcases parse_loop_spec max hmax (c :: s) 0 (Nat.zero_le _) with ⟨h1, h2, h3⟩ | ⟨h1, h2⟩
    · constructor
      · rintro ⟨_, _, h4, _⟩
        simp only [parse, h1]
        exact if_pos h4
      · intro hn
        have : ¬ min ≤ decimal_value (c :: s) := fun h4 =>
          hn ⟨List.cons_ne_nil _ _, h2, h4, h3⟩
        simp only [parse, h1]
        exact if_neg this
    · constructor
      · rintro ⟨_, h3, _, h5⟩
        exact absurd ⟨h3, h5⟩ h2
      · intro _
        simp only [parse, h1]

/-- Bounds 1..4096: `4096` is accepted with value 4096, `4097` is rejected and
`n` keeps its value 7. -/
theorem parse_correct_witness :
    parse "4096".toList 7 1 4096 = (true, 4096) ∧ parse "4097".toList 7 1 4096 = (false, 7) :=
  ⟨(parse_correct "4096".toList 7 1 4096 (by decide)).1
      ⟨by decide, by unfold all_digits; decide, by decide, by decide⟩,
   (parse_correct "4097".toList 7 1 4096 (by decide)).2
      (fun h => absurd h.2.2.2 (by decide))⟩

/-- C29 (failing input).  With `min = 0` and the default `max = ULLONG_MAX`, the
string `36893488147419103230`, whose value exceeds `2 ^ 64`, is accepted and
`n` is set to 18446744073709551614: after 19 digits `res` is
3689348814741910323, `res * 10` wraps to `2 ^ 64 - 2`, which is not below `res`,
so the test `tmp >= res` passes. -/
theorem parse_wraps :
    parse "36893488147419103230".toList 0 0 ULLONG_MAX = (true, 18446744073709551614) ∧
    decimal_value "36893488147419103230".toList = 36893488147419103230 :=
  ⟨by decide, by decide⟩

end TestConnector

namespace Proxy
open Socket (operation)

/-- C22 (counterexample).  In an established session with a timeout of 30
seconds, one byte arrives from the accepted peer (the client side starts
sending it), one byte arrives from the remote peer (the server side starts
sending it), and the send of the server side completes: each completion is
one the socket layer can deliver, and in the resulting state the timer has
been cancelled (by `server::sent`) while the send of the client side is still
in flight. -/
theorem send_completion_disarms_watchdog :
    watchdog (run (established 30)
      [.received .server [1], .received .client [2], .sent .server 1]).calls = none ∧
    (run (established 30)
      [.received .server [1], .received .client [2], .sent .server 1]).client_sending =
        some { data := 0, length := 1 } ∧
    deliverable_all (established 30)
      [.received .server [1], .received .client [2], .sent .server 1] = true :=
  ⟨by decide, by decide, by decide⟩

/-- Delivering a completion keeps: if the timer is armed, a send is in flight. -/
theorem deliver_armed_sending (s : State) (t : Transfer)
    (h : watchdog s.calls ≠ none → s.server_sending ≠ none ∨ s.client_sending ≠ none) :
    watchdog (deliver s t).calls ≠ none →
      (deliver s t).server_sending ≠ none ∨ (deliver s t).client_sending ≠ none := by
  cases t with
  | received side chunk =>
    cases side <;>
    simp only [deliver, server.complete, client.complete, server.received, client.received,
      server.send, client.send, server.close_connections, server.close, client.close,
      server.stop_timer, server.start_timer] <;>
    split_ifs <;>
    simp_all [pending, watchdog, List.foldl_append]
  | sent side count =>
    cases side
    · simp only [deliver]
      cases hv : s.server_sending with
      | none => simpa [hv] using h
      | some v =>
        simp only [server.complete, server.sent, server.send, client.receive,
          server.stop_timer, server.start_timer]
        split_ifs <;> simp_all [pending, watchdog, List.foldl_append]
    · simp only [deliver]
      cases hv : s.client_sending with
      | none => simpa [hv] using h
      | some v =>
        simp only [client.complete, client.sent, client.send, server.receive,
          server.stop_timer, server.start_timer]
        split_ifs <;> simp_all [pending, watchdog, List.foldl_append]

/-- Along any sequence of completions: if the timer is armed, a send is in flight. -/
theorem run_armed_sending (ts : List Transfer) :
    ∀ s : State,
      (watchdog s.calls ≠ none → s.server_sending ≠ none ∨ s.client_sending ≠ none) →
      watchdog (run s ts).calls ≠ none →
        (run s ts).server_sending ≠ none ∨ (run s ts).client_sending ≠ none := by
  induction ts with
  | nil => intro s h; exact h
  | cons t ts ih => intro s h; exact ih (deliver s t) (deliver_armed_sending s t h)

/-- C22 (amended).  While the connect is outstanding the timer is armed.  In
every state reached from an established session by successful receive and send
completions, if the timer is armed then a send is in flight on at least one of
the two sides.  In any state, a non-empty receive completion on a side arms
the timer with `timeout * 1000 * 1000` microseconds and starts a send of the
received bytes on the opposite side; and the completion of the whole
outstanding send of a side cancels the timer, whatever is in flight on the
other side. -/
theorem watchdog_armed_only_while_sending (timeout : Nat) (ts : List Transfer) (s : State)
    (side : Side) (chunk : List Nat) (v : buffer_view) :
    watchdog (connecting timeout).calls = some (timeout * 1000 * 1000 % 2 ^ 64) ∧
    (watchdog (run (established timeout) ts).calls ≠ none →
      (run (established timeout) ts).server_sending ≠ none ∨
      (run (established timeout) ts).client_sending ≠ none) ∧
    (chunk ≠ [] →
      watchdog (deliver s (.received side chunk)).calls =
        some (s.timeout * 1000 * 1000 % 2 ^ 64) ∧
      sending side.peer (deliver s (.received side chunk)) =
        some { data := 0, length := chunk.length }) ∧
    (sending side s = some v → (sendbuf side s).length = v.length →
      watchdog (deliver s (.sent side v.length)).calls = none) := by
  refine ⟨rfl, run_armed_sending ts (established timeout) (fun h => absurd rfl h), ?_, ?_⟩
  · intro hc
    have hpos : chunk.length > 0 := List.length_pos.mpr hc
    constructor
    · cases side <;>
      simp [deliver, server.complete, client.complete, server.received, client.received,
        server.send, client.send, server.start_timer, hpos, pending, watchdog,
        List.foldl_append]
    · cases side <;>
      simp [deliver, server.complete, client.complete, server.received, client.received,
        server.send, client.send, server.start_timer, hpos, pending, sending, Side.peer]
  · intro hv hl
    cases side
    · simp only [sending] at hv
      simp only [sendbuf] at hl
      simp [deliver, hv, server.complete, server.sent, hl, client.receive, server.stop_timer,
        pending, watchdog, List.foldl_append]
    · simp only [sending] at hv
      simp only [sendbuf] at hl
      simp [deliver, hv, client.complete, client.sent, hl, server.receive, server.stop_timer,
        pending, watchdog, List.foldl_append]

/-- In an established session in which nothing is in flight, three bytes
arriving from the accepted peer arm the timer with 30 000 000 microseconds and
start their send on the client side; in the state so reached a byte arriving
from the remote peer arms the timer again, and the completion of the
three-byte send cancels it. -/
theorem watchdog_armed_only_while_sending_witness :
    sending .client (established 30) = none ∧
    sending .server (established 30) = none ∧
    watchdog (deliver (established 30) (.received .server [1, 2, 3])).calls = some 30000000 ∧
    sending .client (deliver (established 30) (.received .server [1, 2, 3])) =
      some { data := 0, length := 3 } ∧
    watchdog (deliver (deliver (established 30) (.received .server [1, 2, 3]))
      (.received .client [7])).calls = some 30000000 ∧
    watchdog (deliver (deliver (established 30) (.received .server [1, 2, 3]))
      (.sent .client 3)).calls = none :=
  ⟨by decide, by decide,
   ((watchdog_armed_only_while_sending 30 [] (established 30) .server [1, 2, 3]
      { data := 0, length := 0 }).2.2.1 (by decide)).1.trans (by decide),
   ((watchdog_armed_only_while_sending 30 [] (established 30) .server [1, 2, 3]
      { data := 0, length := 0 }).2.2.1 (by decide)).2,
   ((watchdog_armed_only_while_sending 30 []
      (deliver (established 30) (.received .server [1, 2, 3]))
      .client [7] { data := 0, length := 3 }).2.2.1 (by decide)).1.trans (by decide),
   (watchdog_armed_only_while_sending 30 []
      (deliver (established 30) (.received .server [1, 2, 3]))
      .client [7] { data := 0, length := 3 }).2.2.2 (by decide) (by decide)⟩
end Proxy

namespace Proxy
open Socket (operation)

/-- C23 (failing input).  The timer fires while three bytes are being relayed
(the timer is armed with 30 000 000 microseconds).  When each disconnect and
the next accept finish at once, the callbacks run inside `server::timer()`:
the second disconnect brings `_M_nconnections` to 0 and starts the accept, the
accepted callback starts the connect, and either the connect fails at once,
so that `client::complete` calls `server::close()` with `cancel_timer = true`,
or it succeeds at once, so that `server::connected` calls `server::receive`;
both call `_M_timer.cancel()` before `server::timer()` has returned. -/
theorem timer_callback_cancels_timer :
    watchdog relaying.calls = some 30000000 ∧
    issued relaying (server.timer (inline unreachable_remote 4) relaying) =
      [.cancel .client .receive, .cancel .client .send, .disconnect .client,
       .cancel .server .receive, .cancel .server .send, .disconnect .server,
       .accept, .timer_expires_in 30000000, .connect,
       .timer_cancel, .cancel .server .receive, .cancel .server .send, .disconnect .server,
       .accept] ∧
    issued relaying (server.timer (inline instant_remote 3) relaying) =
      [.cancel .client .receive, .cancel .client .send, .disconnect .client,
       .cancel .server .receive, .cancel .server .send, .disconnect .server,
       .accept, .timer_expires_in 30000000, .connect,
       .timer_cancel, .receive .server, .receive .client] :=
  ⟨by decide!, by decide!, by decide!⟩

/-- C24 (failing input).  From the state in which the accept has completed and
the connect is outstanding: the timer fires (`client::close` does nothing as
the client side is not open, so the connect is not cancelled, and the server
side disconnects); the disconnect completes and the next accept is started;
the connect of the closed session completes successfully and sets the open
flag of the client side; the accept completes successfully, sets the open
flag of the server side and starts the connect of the new session.  Both
flags are then true while the connect of the current session is in flight. -/
theorem stale_connect_opens_client :
    (play (connecting 30)
      [.timer, .complete .server .disconnect 0 0, .complete .client .connect 0 0,
       .complete .server .accept 0 0]).server_open = true ∧
    (play (connecting 30)
      [.timer, .complete .server .disconnect 0 0, .complete .client .connect 0 0,
       .complete .server .accept 0 0]).client_open = true ∧
    (connecting 30).calls = [.timer_expires_in 30000000, .connect] ∧
    issued (connecting 30) (play (connecting 30) [.timer]) =
      [.cancel .server .receive, .cancel .server .send, .disconnect .server] ∧
    issued (play (connecting 30)
        [.timer, .complete .server .disconnect 0 0, .complete .client .connect 0 0])
      (play (connecting 30)
        [.timer, .complete .server .disconnect 0 0, .complete .client .connect 0 0,
         .complete .server .accept 0 0]) =
      [.timer_expires_in 30000000, .connect] :=
  ⟨by decide, by decide, by decide, by decide, by decide⟩
end Proxy

namespace Receiver
open connection

/-- C25 (failing input).  A connection is accepted, three bytes are received
and their write to a new file is started; before the write completes the
connection timer fires and disconnects, the disconnect completes, and the next
connection is accepted.  `accepted` starts a receive into `_M_buf` while the
write of three bytes from `_M_buf` is still outstanding: both operations are
outstanding in the final state, and between the call that starts the write and
the call that starts the receive no write has completed. -/
theorem receive_started_during_write :
    (run (armed sample_config 0 0 0) write_overtaken_session).receive_pending = true ∧
    (run (armed sample_config 0 0 0) write_overtaken_session).write_pending = some 3 ∧
    (run (armed sample_config 0 0 0) write_overtaken_session).calls.drop 5 =
      [.file_write 3, .connection_mutex_release,
       .cancel_receive, .disconnect, .connection_mutex_release,
       .accept, .connection_timer_expires_in 30000000, .receive] :=
  by refine ⟨?_, ?_, ?_⟩ <;> decide!

/-- C26.  For every state and every nesting depth of the layer: whenever
`open_file` returns true, it has opened the file under the next sequence
number, armed the file timer with `maxfileage * 1000 * 1000` microseconds (a
`uint64_t` product), set the size counter to 0 and the creation timestamp to
the clock, and changed nothing else.  When the file timer fires with the file
mutex free, `file_timer` makes exactly three steps (close of the file, move
from the staging to the final directory, release of the mutex, which is 0
again), without a cancel of the file timer and without any call to the
connection timer or the socket; when the file mutex is held, `file_timer`
returns the state unchanged. -/
theorem file_timer_rotates (fuel : Nat) (s : State) :
    ((open_file (layer fuel) s).1 = true →
      (open_file (layer fuel) s).2 =
        { s with nfile := s.nfile + 1,
                 calls := s.calls ++
                   [.file_open (pathname s.config.tmpdir s.nconnection (s.nfile + 1)),
                    .file_timer_expires_in (s.config.maxfileage * 1000 * 1000 % 2 ^ 64)],
                 opens := s.opens.tail,
                 opened := true,
                 file_is_open := true,
                 staging := some [],
                 filesize := 0,
                 file_creation := s.clock }) ∧
    (s.file_mutex = 0 →
      file_timer (layer fuel) s =
        { s with calls := s.calls ++
                   [.file_close,
                    .move_file (pathname s.config.tmpdir s.nconnection s.nfile)
                      (pathname s.config.finaldir s.nconnection s.nfile),
                    .file_mutex_release],
                 file_is_open := false,
                 staging := none,
                 final := s.final ++ s.staging.toList.map
                   (fun content => (pathname s.config.finaldir s.nconnection s.nfile, content)),
                 file_mutex := 0 }) ∧
    (s.file_mutex ≠ 0 → file_timer (layer fuel) s = s) := by
  refine ⟨?_, ?_, ?_⟩
  · cases h : s.opens.headD true
    · intro h1
      simp only [open_file, layer_file_open, h] at h1
      exact absurd h1 (by simp)
    · intro _
      simp only [open_file, layer_file_open, layer_file_timer_expires_in, h, if_true,
        List.append_assoc, List.cons_append, List.nil_append]
  · intro h
    have d : decrement 1 = 0 := by decide
    simp only [file_timer, h, if_true]
    rw [close_move_eq]
    simp only [unlock_file, d, Bool.false_eq_true, if_false, List.append_nil, List.append_assoc,
      List.cons_append, List.nil_append]
  · intro h
    simp [file_timer, h]
end Receiver

namespace Receiver
open connection
/-- On a new connection of the sample configuration: `open_file` sets the size
counter to 0; the file timer then closes `tmp\file-0-1.bin`, moves it to
`final\file-0-1.bin` and releases the mutex; with the mutex held the file
timer changes nothing. -/
theorem file_timer_rotates_witness :
    (open_file (layer 0) (armed sample_config 0 0 0)).2.filesize = 0 ∧
    (file_timer (layer 0) (open_file (layer 0) (armed sample_config 0 0 0)).2).calls.drop 3 =
      [.file_close,
       .move_file (pathname sample_config.tmpdir 0 1) (pathname sample_config.finaldir 0 1),
       .file_mutex_release] ∧
    file_timer (layer 0) { armed sample_config 0 0 0 with file_mutex := 1 } =
      { armed sample_config 0 0 0 with file_mutex := 1 } :=
  ⟨congrArg State.filesize ((file_timer_rotates 0 (armed sample_config 0 0 0)).1 rfl),
   congrArg (fun t => t.calls.drop 3)
     ((file_timer_rotates 0 (open_file (layer 0) (armed sample_config 0 0 0)).2).2.1 rfl),
   (file_timer_rotates 0 { armed sample_config 0 0 0 with file_mutex := 1 }).2.2 (by decide)⟩
end Receiver

namespace Tcp

/-- The empty container has the shape. -/
theorem geometric_zero : Geometric 0 0 :=
  ⟨Or.inl rfl, Nat.le_refl 0, Or.inl (by decide)⟩

/-- Growing a full container keeps the shape. -/
theorem geometric_grow (size used : Nat) (h : Geometric size used) (hfull : ¬ used < size) :
    Geometric (if size > 0 then size * 2 else 8) used ∧
    Geometric (if size > 0 then size * 2 else 8) (used + 1) := by
  obtain ⟨h1, h2, h3⟩ := h
  have hu : used = size := by omega
  subst hu
  rcases h1 with h1 | ⟨j, hj⟩
  · subst h1
    exact ⟨⟨Or.inr ⟨0, rfl⟩, by decide, Or.inl (by decide)⟩,
      ⟨Or.inr ⟨0, rfl⟩, by decide, Or.inl (by decide)⟩⟩
  · have hp : 0 < 2 ^ j := Nat.pos_pow_of_pos j (by decide)
    have hpos : used > 0 := by omega
    rw [if_pos hpos]
    have e : used * 2 = 8 * 2 ^ (j + 1) := by rw [hj, Nat.pow_succ]; omega
    exact ⟨⟨Or.inr ⟨j + 1, e⟩, by omega, Or.inr (by omega)⟩,
      ⟨Or.inr ⟨j + 1, e⟩, by omega, Or.inr (by omega)⟩⟩

/-- Storing one more acceptor in a container that is not full keeps the shape. -/
theorem geometric_store (size used : Nat) (h : Geometric size used) (hroom : used < size) :
    Geometric size (used + 1) := by
  obtain ⟨h1, _, h3⟩ := h
  exact ⟨h1, hroom, by omega⟩

/-- What a call of `listen` does to a container, by cases: with room left the
capacity stays and the number of stored acceptors grows by one on success; in
a full container the capacity becomes `n` (8 or the double) unless `realloc`
fails. -/
theorem grows_cases (size used n : Nat) (h : Geometric size used)
    (hn : n = if size > 0 then size * 2 else 8) :
    (used < size → Geometric size (used + 1) ∧ Grows size used true size (used + 1)) ∧
    (¬ used < size → Geometric n (used + 1) ∧ Grows size used true n (used + 1)) ∧
    (¬ used < size → Geometric n used ∧ Grows size used false n used) ∧
    (Geometric size used ∧ Grows size used false size used) := by
  have hsz : ¬ used < size → n ≠ size →
      used = size ∧ ((size = 0 ∧ n = 8) ∨ (0 < size ∧ n = 2 * size)) := by
    intro hfull _
    refine ⟨by have := h.2.1; omega, ?_⟩
    by_cases hz : size > 0
    · rw [if_pos hz] at hn; exact Or.inr ⟨hz, by omega⟩
    · rw [if_neg hz] at hn; exact Or.inl ⟨by omega, hn⟩
  refine ⟨?_, ?_, ?_, ?_⟩
  · intro hroom
    exact ⟨geometric_store _ _ h hroom,
      ⟨fun hne => absurd rfl hne, ⟨fun hf => Bool.noConfusion hf, fun _ => rfl⟩⟩⟩
  · intro hfull
    exact ⟨hn ▸ (geometric_grow _ _ h hfull).2,
      ⟨hsz hfull, ⟨fun hf => Bool.noConfusion hf, fun _ => rfl⟩⟩⟩
  · intro hfull
    exact ⟨hn ▸ (geometric_grow _ _ h hfull).1,
      ⟨hsz hfull, ⟨fun _ => rfl, fun ht => Bool.noConfusion ht⟩⟩⟩
  · exact ⟨h, ⟨fun hne => absurd rfl hne, ⟨fun _ => rfl, fun ht => Bool.noConfusion ht⟩⟩⟩

/-- One call of `proxy::acceptors::listen` keeps the shape and grows as described. -/
theorem proxy_listen_step (env : Proxy.AcceptorsEnv) (a : Proxy.Acceptors)
    (h : Geometric a.size a.used) :
    Geometric (Proxy.acceptors.listen env a).2.size (Proxy.acceptors.listen env a).2.used ∧
    Grows a.size a.used (Proxy.acceptors.listen env a).1
      (Proxy.acceptors.listen env a).2.size (Proxy.acceptors.listen env a).2.used := by
  obtain ⟨c1, c2, c3, c4⟩ := grows_cases a.size a.used _ h rfl
  by_cases hroom : a.used < a.size
  · cases hn : env.new_ok <;> cases hl : env.listen_ok <;>
      simp only [Proxy.acceptors.listen, Proxy.acceptors.allocate, if_pos hroom, hn, hl,
        if_true, Bool.false_eq_true, if_false]
    · exact c4
    · exact c4
    · exact c4
    · exact c1 hroom
  · cases hr : env.realloc_ok <;> cases hn : env.new_ok <;> cases hl : env.listen_ok <;>
      simp only [Proxy.acceptors.listen, Proxy.acceptors.allocate, if_neg hroom, hr, hn, hl,
        if_true, Bool.false_eq_true, if_false, Proxy.acceptors.allocation]
    · exact c4
    · exact c4
    · exact c4
    · exact c4
    · exact c3 hroom
    · exact c3 hroom
    · exact c3 hroom
    · exact c2 hroom

/-- Any sequence of calls of `proxy::acceptors::listen` keeps the shape. -/
theorem proxy_listen_all_geometric (envs : List Proxy.AcceptorsEnv) :
    ∀ a : Proxy.Acceptors, Geometric a.size a.used →
      Geometric (Proxy.acceptors.listen_all a envs).size
        (Proxy.acceptors.listen_all a envs).used := by
  induction envs with
  | nil => intro a h; exact h
  | cons env envs ih => intro a h; exact ih _ (proxy_listen_step env a h).1

/-- One call of `receiver::acceptors::listen` keeps the shape and grows as
described. -/
theorem receiver_listen_step (config : Receiver.Config) (env : Receiver.AcceptorsEnv)
    (a : Receiver.Acceptors) (h : Geometric a.size a.used) :
    Geometric (Receiver.acceptors.listen config env a).2.size
      (Receiver.acceptors.listen config env a).2.used ∧
    Grows a.size a.used (Receiver.acceptors.listen config env a).1
      (Receiver.acceptors.listen config env a).2.size
      (Receiver.acceptors.listen config env a).2.used := by
  obtain ⟨c1, c2, c3, c4⟩ := grows_cases a.size a.used _ h rfl
  by_cases hroom : a.used < a.size
  · cases hn : env.new_ok <;>
      cases hl : (Receiver.acceptor.listen config a.used env.listen).1 <;>
      simp only [Receiver.acceptors.listen, Receiver.acceptors.allocate, if_pos hroom, hn, hl,
        if_true, Bool.false_eq_true, if_false]
    · exact c4
    · exact c4
    · exact c4
    · exact c1 hroom
  · cases hr : env.realloc_ok <;> cases hn : env.new_ok <;>
      cases hl : (Receiver.acceptor.listen config a.used env.listen).1 <;>
      simp only [Receiver.acceptors.listen, Receiver.acceptors.allocate, if_neg hroom, hr, hn,
        hl, if_true, Bool.false_eq_true, if_false, Receiver.acceptors.allocation]
    · exact c4
    · exact c4
    · exact c4
    · exact c4
    · exact c3 hroom
    · exact c3 hroom
    · exact c3 hroom
    · exact c2 hroom

/-- Any sequence of calls of `receiver::acceptors::listen` keeps the shape. -/
theorem receiver_listen_all_geometric (config : Receiver.Config)
    (envs : List Receiver.AcceptorsEnv) :
    ∀ a : Receiver.Acceptors, Geometric a.size a.used →
      Geometric (Receiver.acceptors.listen_all config a envs).size
        (Receiver.acceptors.listen_all config a envs).used := by
  induction envs with
  | nil => intro a h; exact h
  | cons env envs ih => intro a h; exact ih _ (receiver_listen_step config env a h).1

/-- C27.  For the receiver container and for the proxy container, after any
sequence of calls of `acceptors::listen` on the empty container, whatever each
call met (failure of `realloc`, of the allocation of the acceptor or of its
`listen`): the capacity is 0 or `8 * 2 ^ j`, the number of stored acceptors is
at most the capacity, and the capacity is at most 8 or at most twice the
number of stored acceptors; and one more call changes the capacity only if
the container was full, then from 0 to 8 or to its double, keeps the number
of stored acceptors when it returns false and adds one when it returns
true. -/
theorem capacity_geometric (config : Receiver.Config) (renvs : List Receiver.AcceptorsEnv)
    (renv : Receiver.AcceptorsEnv) (penvs : List Proxy.AcceptorsEnv)
    (penv : Proxy.AcceptorsEnv) :
    Geometric (Receiver.acceptors.listen_all config Receiver.acceptors.empty renvs).size
      (Receiver.acceptors.listen_all config Receiver.acceptors.empty renvs).used ∧
    Grows (Receiver.acceptors.listen_all config Receiver.acceptors.empty renvs).size
      (Receiver.acceptors.listen_all config Receiver.acceptors.empty renvs).used
      (Receiver.acceptors.listen config renv
        (Receiver.acceptors.listen_all config Receiver.acceptors.empty renvs)).1
      (Receiver.acceptors.listen config renv
        (Receiver.acceptors.listen_all config Receiver.acceptors.empty renvs)).2.size
      (Receiver.acceptors.listen config renv
        (Receiver.acceptors.listen_all config Receiver.acceptors.empty renvs)).2.used ∧
    Geometric (Proxy.acceptors.listen_all Proxy.acceptors.empty penvs).size
      (Proxy.acceptors.listen_all Proxy.acceptors.empty penvs).used ∧
    Grows (Proxy.acceptors.listen_all Proxy.acceptors.empty penvs).size
      (Proxy.acceptors.listen_all Proxy.acceptors.empty penvs).used
      (Proxy.acceptors.listen penv (Proxy.acceptors.listen_all Proxy.acceptors.empty penvs)).1
      (Proxy.acceptors.listen penv
        (Proxy.acceptors.listen_all Proxy.acceptors.empty penvs)).2.size
      (Proxy.acceptors.listen penv
        (Proxy.acceptors.listen_all Proxy.acceptors.empty penvs)).2.used :=
  ⟨receiver_listen_all_geometric config renvs _ geometric_zero,
   (receiver_listen_step config renv _
     (receiver_listen_all_geometric config renvs _ geometric_zero)).2,
   proxy_listen_all_geometric penvs _ geometric_zero,
   (proxy_listen_step penv _ (proxy_listen_all_geometric penvs _ geometric_zero)).2⟩

/-- Eight successful calls fill the proxy container to capacity 8; the ninth
call doubles the capacity to 16, also when the `listen` of the new acceptor
fails, in which case the number of stored acceptors stays 8. -/
theorem capacity_geometric_witness :
    (Proxy.acceptors.listen_all Proxy.acceptors.empty
      (List.replicate 8 { realloc_ok := true, new_ok := true, listen_ok := true })) =
      { size := 8, used := 8 } ∧
    (Proxy.acceptors.listen { realloc_ok := true, new_ok := true, listen_ok := true }
      { size := 8, used := 8 }).2 = { size := 16, used := 9 } ∧
    (Proxy.acceptors.listen { realloc_ok := true, new_ok := true, listen_ok := false }
      { size := 8, used := 8 }).2 = { size := 16, used := 8 } ∧
    (8 : Nat) = 8 ∧ ((8 = 0 ∧ 16 = 8) ∨ (0 < 8 ∧ 16 = 2 * 8)) :=
  ⟨by decide, by decide, by decide,
   (capacity_geometric Receiver.sample_config [] Receiver.sample_env
      (List.replicate 8 { realloc_ok := true, new_ok := true, listen_ok := true })
      { realloc_ok := true, new_ok := true, listen_ok := true }).2.2.2.1 (by decide)⟩

end Tcp

namespace Receiver
open Libc
open Address (is_digit decimal_value decimal_value_from decimal_value_from_cons digitChar_toNat
  utoa_digits)

/-- Reading back the digits written by `%zu` continues from the number written. -/
theorem decimal_value_from_toDigitsCore (fuel : Nat) : ∀ (n : Nat) (acc : List Char),
    n < fuel →
    decimal_value_from 0 (Nat.toDigitsCore 10 fuel n acc) = decimal_value_from n acc := by
  induction fuel with
  | zero => intro n acc h; omega
  | succ fuel ih =>
    intro n acc hf
    have hd : n % 10 < 10 := Nat.mod_lt _ (by omega)
    have hstep : decimal_value_from (n / 10) (Nat.digitChar (n % 10) :: acc) =
        decimal_value_from n acc := by
      rw [decimal_value_from_cons, digitChar_toNat _ hd]
      congr 1
      omega
    by_cases h0 : n / 10 = 0
    · simp only [Nat.toDigitsCore, h0, if_true]
      rw [← hstep, h0]
    · simp only [Nat.toDigitsCore, h0, if_false]
      rw [ih (n / 10) _ (by omega)]
      exact hstep

/-- The text written by `%zu` reads back as the number written. -/
theorem decimal_value_utoa (n : Nat) : decimal_value (utoa n) = n :=
  decimal_value_from_toDigitsCore (n + 1) n [] (by omega)

/-- Different numbers are written as different texts. -/
theorem utoa_injective (n m : Nat) (h : utoa n = utoa m) : n = m := by
  have := congrArg decimal_value h
  rwa [decimal_value_utoa, decimal_value_utoa] at this

/-- The text written by `%zu` holds no hyphen. -/
theorem hyphen_not_mem_utoa (n : Nat) : '-' ∉ utoa n := by
  intro h
  have := utoa_digits n '-' h
  revert this
  decide

/-- Two texts that agree and are each cut by a first hyphen agree before it and
after it. -/
theorem split_at_hyphen (xs : List Char) : ∀ (ys r r2 : List Char),
    '-' ∉ xs → '-' ∉ ys → xs ++ '-' :: r = ys ++ '-' :: r2 → xs = ys ∧ r = r2 := by
  induction xs with
  | nil =>
    intro ys r r2 _ hy h
    cases ys with
    | nil => simp only [List.nil_append, List.cons.injEq, true_and] at h; exact ⟨rfl, h⟩
    | cons y ys =>
      simp only [List.nil_append, List.cons_append, List.cons.injEq] at h
      exact absurd (h.1 ▸ List.mem_cons_self y ys) hy
  | cons x xs ih =>
    intro ys r r2 hx hy h
    cases ys with
    | nil =>
      simp only [List.nil_append, List.cons_append, List.cons.injEq] at h
      exact absurd (h.1 ▸ List.mem_cons_self x xs) hx
    | cons y ys =>
      simp only [List.cons_append, List.cons.injEq] at h
      obtain ⟨e1, e2⟩ := ih ys r r2 (fun hm => hx (List.mem_cons_of_mem x hm))
        (fun hm => hy (List.mem_cons_of_mem y hm)) h.2
      exact ⟨by rw [h.1, e1], e2⟩

/-- The base name determines the connection number and the sequence number. -/
theorem basename_injective (i k i2 k2 : Nat) (h : basename i k = basename i2 k2) :
    i = i2 ∧ k = k2 := by
  unfold basename at h
  simp only [List.append_assoc, List.singleton_append] at h
  have h1 := List.append_cancel_left h
  obtain ⟨e1, e2⟩ := split_at_hyphen _ _ _ _ (hyphen_not_mem_utoa i) (hyphen_not_mem_utoa i2) h1
  exact ⟨utoa_injective _ _ e1, utoa_injective _ _ (List.append_cancel_right e2)⟩

/-- The path name is the directory, a backslash and the base name, cut to
`MAX_PATH - 1` characters. -/
theorem pathname_eq (dir : List Char) (i k : Nat) :
    pathname dir i k = (dir ++ [Char.ofNat 92] ++ basename i k).take (MAX_PATH - 1) := by
  simp only [pathname, basename, List.append_assoc]

/-- C28 (counterexample).  With 4096 connections per acceptor and a directory
name of 247 characters, the connections in slots 576 and 577 of the acceptor
with index 244 have the different numbers 1000000 and 1000001, and compose the
same name for their first file: the text is cut to `MAX_PATH - 1 = 259`
characters, which drops the last digit of the connection number. -/
theorem long_directory_names_collide :
    (244, 576) ≠ (244, 577) ∧ 576 < 4096 ∧ 577 < 4096 ∧
    244 * 4096 + 576 ≠ 244 * 4096 + 577 ∧
    pathname (List.replicate 247 'd') (244 * 4096 + 576) 1 =
      pathname (List.replicate 247 'd') (244 * 4096 + 577) 1 := by
  refine ⟨by decide, by decide, by decide, by decide, ?_⟩
  decide!

/-- C28 (amended).  For every number `N` of connections per acceptor and every
two distinct pairs `(a, s)`, `(a2, s2)` with `s, s2 < N`, the connection
numbers `a * N + s` and `a2 * N + s2` differ; and for every directory and
every two file sequence numbers, the two composed names differ whenever both
texts `dir\file-<number>-<sequence>.bin` are shorter than `MAX_PATH`. -/
theorem distinct_connections_distinct_names (N a s a2 s2 k k2 : Nat) (dir : List Char)
    (hs : s < N) (hs2 : s2 < N) (hne : (a, s) ≠ (a2, s2)) :
    a * N + s ≠ a2 * N + s2 ∧
    ((dir ++ [Char.ofNat 92] ++ basename (a * N + s) k).length < MAX_PATH →
      (dir ++ [Char.ofNat 92] ++ basename (a2 * N + s2) k2).length < MAX_PATH →
      pathname dir (a * N + s) k ≠ pathname dir (a2 * N + s2) k2) := by
  have hidx : a * N + s ≠ a2 * N + s2 := by
    intro h
    apply hne
    have hN : 0 < N := by omega
    have ea : a = a2 := by
      have h1 : (a * N + s) / N = a := by
        rw [Nat.mul_comm, Nat.mul_add_div hN, Nat.div_eq_of_lt hs, Nat.add_zero]
      have h2 : (a2 * N + s2) / N = a2 := by
        rw [Nat.mul_comm, Nat.mul_add_div hN, Nat.div_eq_of_lt hs2, Nat.add_zero]
      rw [← h1, ← h2, h]
    subst ea
    have es : s = s2 := by omega
    rw [es]
  refine ⟨hidx, ?_⟩
  intro h1 h2 he
  rw [pathname_eq, pathname_eq, List.take_of_length_le (by unfold MAX_PATH at h1 ⊢; omega),
    List.take_of_length_le (by unfold MAX_PATH at h2 ⊢; omega)] at he
  exact hidx (basename_injective _ _ _ _ (List.append_cancel_left he)).1

/-- With two connections per acceptor, slot 1 of acceptor 0 and slot 0 of
acceptor 1 have different numbers and different names for their seventh
file. -/
theorem distinct_connections_distinct_names_witness :
    0 * 2 + 1 ≠ 1 * 2 + 0 ∧
    pathname sample_config2.tmpdir (0 * 2 + 1) 7 ≠ pathname sample_config2.tmpdir (1 * 2 + 0) 7 :=
  ⟨(distinct_connections_distinct_names 2 0 1 1 0 7 7 sample_config2.tmpdir (by decide)
      (by decide) (by decide)).1,
   (distinct_connections_distinct_names 2 0 1 1 0 7 7 sample_config2.tmpdir (by decide)
      (by decide) (by decide)).2 (by decide) (by decide)⟩
end Receiver

namespace Address

/-- For a stored path that is not empty the two embeddings of the `AF_UNIX`
branch agree: `dst` is returned in the same cases, the bytes then written are
as many as the characters stored at `dst`, and no byte is read beyond the
stored path. -/
theorem to_string_unix_agrees (P : Platform) (c : Char) (rest : List Char) (size : Nat)
    (hlen : (c :: rest).length ≤ UNIX_PATH_MAX) :
    (to_string P (.unix (c :: rest)) size = .null ∧
      (to_string_unix (zeroed (c :: rest)) (c :: rest).length size).returned = false ∧
      (to_string_unix (zeroed (c :: rest)) (c :: rest).length size).written = 0) ∨
    (∃ dst, to_string P (.unix (c :: rest)) size = .written dst ∧
      (to_string_unix (zeroed (c :: rest)) (c :: rest).length size).returned = true ∧
      (to_string_unix (zeroed (c :: rest)) (c :: rest).length size).written = dst.length ∧
      dst.length ≤ size ∧
      (to_string_unix (zeroed (c :: rest)) (c :: rest).length size).read ≤ (c :: rest).length) := by
  have h0 : zeroed (c :: rest) 0 = c := rfl
  unfold UNIX_PATH_MAX at hlen
  simp only [List.length_cons] at hlen ⊢
  by_cases hc : c ≠ NUL
  · by_cases hs : rest.length + 1 ≤ size
    · right
      refine ⟨c :: rest, ?_, ?_, ?_, hs, ?_⟩
      · simp only [to_string, hc, hs, if_true, ne_eq, not_false_eq_true, List.length_cons]
      · simp only [to_string_unix, h0, hc, hs, if_true, ne_eq, not_false_eq_true]
      · simp only [to_string_unix, h0, hc, hs, if_true, ne_eq, not_false_eq_true,
          List.length_cons]
      · simp only [to_string_unix, h0, hc, hs, if_true, ne_eq, not_false_eq_true]
        omega
    · left
      simp only [to_string, to_string_unix, h0, hc, hs, if_true, if_false, ne_eq,
        not_false_eq_true, and_self, List.length_cons]
  · by_cases hs : rest.length + 1 < size
    · right
      have hm : (rest.length + 1 + 2 ^ 64 - 1) % 2 ^ 64 = rest.length := by
        rw [show rest.length + 1 + 2 ^ 64 - 1 = rest.length + 2 ^ 64 by omega,
          Nat.add_mod_right]
        exact Nat.mod_eq_of_lt (by omega)
      refine ⟨'@' :: rest ++ [NUL], ?_, ?_, ?_, ?_, ?_⟩
      · simp only [to_string, hc, hs, if_true, if_false, List.length_cons]
      · simp only [to_string_unix, h0, hc, hs, if_true, if_false]
      · simp only [to_string_unix, h0, hc, hs, if_true, if_false, hm, List.length_cons,
          List.length_append, List.length_singleton, List.cons_append, List.length_nil]
        omega
      · simp only [List.length_cons, List.length_append, List.length_singleton,
          List.cons_append, List.length_nil]
        omega
      · simp only [to_string_unix, h0, hc, hs, if_true, if_false, hm]
        omega
    · left
      simp only [to_string, to_string_unix, h0, hc, hs, if_true, if_false, and_self,
        List.length_cons]

/-- C30 (failing input).  `build_abstract` accepts a length of 0 and then
stores no byte of the path, so `_M_length` is the offset of `sun_path`.
`to_string` on that address tests `sun_path[0]`, a byte that is not part of
the stored path; when the object was zeroed before, the test finds 0, the
comparison `0 < 16` holds, and `memcpy` is called with the count
`pathlen - 1`, which is `2 ^ 64 - 1` as a `size_t`: the bytes read from the
address and the bytes written to the 16-byte destination both reach
`2 ^ 64`.  Also, for the three bytes `abc` stored by `build_abstract`,
`to_string` returns `dst` after storing exactly those three bytes, none of
which is a NUL. -/
theorem to_string_empty_path_overruns :
    build_abstract [] = some (.unix []) ∧
    length sample_platform (.unix []) = sample_platform.sun_path_offset ∧
    to_string sample_platform (.unix []) 16 = .indeterminate ∧
    to_string_unix (zeroed []) 0 16 =
      { returned := true, read := 2 ^ 64, written := 2 ^ 64 } ∧
    build_abstract ['a', 'b', 'c'] = some (.unix ['a', 'b', 'c']) ∧
    to_string sample_platform (.unix ['a', 'b', 'c']) 16 = .written ['a', 'b', 'c'] ∧
    c_str ['a', 'b', 'c'] = none := by
  refine ⟨by decide, by decide, by decide, by decide, by decide, by decide, by decide⟩
end Address
